import Mathlib

/-!
Verification development for the record-store engine of the mahgetNewGRs
importer (files `import/src/ledger_engine.py` and `import/src/info_store.py`).

The Python code manipulates JSON rows (nested dicts of strings, ints, bools,
null).  We embed those values as the inductive type `Val`, rows as ordered
association lists (mirroring Python dict insertion order), and the two stores
(`LedgerStore`, the old monolithic ledger, and `InfoStore`, the current
three-namespace split ledger) as explicit state records.  Disk files hold the
parsed row lists; the serialized `.jsonl` content of a partition is recovered
by `fileLines`.  Clock reads (`utc_now_text`, today's date) are threaded as
explicit string parameters.  All store operations return
`(Except Err α) × Store` so that the store value at the moment an exception
is raised is exactly the state the Python object would be left in.
-/

/-- Embedded JSON-ish Python value: None, bool, int, str, or dict.
The row schemas of this ledger use no JSON arrays, so lists are omitted. -/
inductive Val where
  | null
  | bool (b : Bool)
  | int (n : Int)
  | str (s : String)
  | dict (fields : List (String × Val))
deriving Repr

/-- Structural equality test on `Val` (used to build `DecidableEq`). -/
def Val.beq : Val → Val → Bool
  | .null, .null => true
  | .bool a, .bool b => a == b
  | .int a, .int b => a == b
  | .str a, .str b => a == b
  | .dict fs, .dict gs => beqFields fs gs
  | _, _ => false
where beqFields : List (String × Val) → List (String × Val) → Bool
  | [], [] => true
  | (k, v) :: rest, (k2, v2) :: rest2 => k == k2 && Val.beq v v2 && beqFields rest rest2
  | _, _ => false

theorem Val.beq_refl : ∀ a : Val, Val.beq a a = true
  | .null => rfl
  | .bool b => by simp [Val.beq]
  | .int n => by simp [Val.beq]
  | .str s => by simp [Val.beq]
  | .dict fs => by simp only [Val.beq]; exact beqFields_refl fs
where beqFields_refl : ∀ fs : List (String × Val), Val.beq.beqFields fs fs = true
  | [] => rfl
  | (k, v) :: rest => by
      simp only [Val.beq.beqFields, Bool.and_eq_true, beq_self_eq_true, true_and]
      exact ⟨Val.beq_refl v, beqFields_refl rest⟩

theorem Val.beq_eq : ∀ a b : Val, Val.beq a b = true → a = b
  | .null, .null, _ => rfl
  | .bool _, .bool _, h => by simp_all [Val.beq]
  | .int _, .int _, h => by simp_all [Val.beq]
  | .str _, .str _, h => by simp_all [Val.beq]
  | .dict fs, .dict gs, h => by
      simp only [Val.beq] at h
      exact congrArg Val.dict (beqFields_eq fs gs h)
  | .null, .bool _, h => by simp [Val.beq] at h
  | .null, .int _, h => by simp [Val.beq] at h
  | .null, .str _, h => by simp [Val.beq] at h
  | .null, .dict _, h => by simp [Val.beq] at h
  | .bool _, .null, h => by simp [Val.beq] at h
  | .bool _, .int _, h => by simp [Val.beq] at h
  | .bool _, .str _, h => by simp [Val.beq] at h
  | .bool _, .dict _, h => by simp [Val.beq] at h
  | .int _, .null, h => by simp [Val.beq] at h
  | .int _, .bool _, h => by simp [Val.beq] at h
  | .int _, .str _, h => by simp [Val.beq] at h
  | .int _, .dict _, h => by simp [Val.beq] at h
  | .str _, .null, h => by simp [Val.beq] at h
  | .str _, .bool _, h => by simp [Val.beq] at h
  | .str _, .int _, h => by simp [Val.beq] at h
  | .str _, .dict _, h => by simp [Val.beq] at h
  | .dict _, .null, h => by simp [Val.beq] at h
  | .dict _, .bool _, h => by simp [Val.beq] at h
  | .dict _, .int _, h => by simp [Val.beq] at h
  | .dict _, .str _, h => by simp [Val.beq] at h
where beqFields_eq : ∀ fs gs : List (String × Val), Val.beq.beqFields fs gs = true → fs = gs
  | [], [], _ => rfl
  | [], (_, _) :: _, h => by simp [Val.beq.beqFields] at h
  | (_, _) :: _, [], h => by simp [Val.beq.beqFields] at h
  | (k, v) :: rest, (k2, v2) :: rest2, h => by
      simp only [Val.beq.beqFields, Bool.and_eq_true, beq_iff_eq] at h
      obtain ⟨⟨hk, hv⟩, hr⟩ := h
      rw [hk, Val.beq_eq v v2 hv, beqFields_eq rest rest2 hr]

instance : DecidableEq Val := fun a b =>
  if h : Val.beq a b = true then .isTrue (Val.beq_eq a b h)
  else .isFalse (fun he => h (he ▸ Val.beq_refl a))

/-- A row is a Python dict from field name to value, in insertion order. -/
abbrev Row := List (String × Val)

/-- Lookup in an association list (Python `dict.get`, first binding wins;
Python dicts never hold a key twice). -/
def alistGet {α : Type} [DecidableEq α] {β : Type} : List (α × β) → α → Option β
  | [], _ => none
  | (k, v) :: rest, key => if k = key then some v else alistGet rest key

/-- Update a binding in place, preserving its position (Python `d[k] = v`);
appends at the end when the key is absent. -/
def alistSet {α : Type} [DecidableEq α] {β : Type} : List (α × β) → α → β → List (α × β)
  | [], key, v => [(key, v)]
  | (k, w) :: rest, key, v =>
      if k = key then (k, v) :: rest else (k, w) :: alistSet rest key v

/-- Remove a binding (Python `del d[k]` / dict comprehension filtering). -/
def alistDrop {α : Type} [DecidableEq α] {β : Type} (l : List (α × β)) (key : α) :
    List (α × β) :=
  l.filter (fun kv => kv.1 ≠ key)

/-- Python `key in d`. -/
def alistHas {α : Type} [DecidableEq α] {β : Type} (l : List (α × β)) (key : α) : Bool :=
  (alistGet l key).isSome

/-- Python `d.get(k, dflt)`. -/
def dictGetD (fs : Row) (key : String) (dflt : Val) : Val :=
  (alistGet fs key).getD dflt

/-- Replace the element at an index (Python `xs[i] = v`; callers of this
helper in the source always index within bounds, guarded by the row index
invariant, so the out-of-range case — an `IndexError` in Python — is a no-op
here and is never reached in the theorems below). -/
def listSetAt {α : Type} : List α → Nat → α → List α
  | [], _, _ => []
  | _ :: rest, 0, v => v :: rest
  | x :: rest, n + 1, v => x :: listSetAt rest n v

/-- Python `str.strip()` (kernel-reducible replacement for `String.trim`). -/
def pyStrip (s : String) : String :=
  String.mk (((s.toList.dropWhile Char.isWhitespace).reverse.dropWhile Char.isWhitespace).reverse)

/-- Python `a < b` on strings: lexicographic by code point. -/
def charListLt : List Char → List Char → Bool
  | [], [] => false
  | [], _ :: _ => true
  | _ :: _, [] => false
  | a :: as, b :: bs =>
      if a.toNat < b.toNat then true
      else if b.toNat < a.toNat then false
      else charListLt as bs

def strLt (a b : String) : Bool := charListLt a.toList b.toList

/-- Python truthiness of an embedded value. -/
def pyTruthy : Val → Bool
  | .null => false
  | .bool b => b
  | .int n => n != 0
  | .str s => s ≠ ""
  | .dict fs => fs ≠ []

/-- Approximate Python `repr` (used only through `str()` on non-string
values; the ledger never compares such texts, every claim-relevant call
receives a string).  Fuel bounds recursion into nested dicts; ledger rows
nest at most four deep. -/
def reprVal : Nat → Val → String
  | _, .null => "None"
  | _, .bool b => if b then "True" else "False"
  | _, .int n => toString n
  | _, .str s => "\x27" ++ s ++ "\x27"
  | 0, .dict _ => "\x7b...\x7d"
  | fuel + 1, .dict fs =>
      "\x7b" ++ String.intercalate ", "
        (fs.map (fun kv => "\x27" ++ kv.1 ++ "\x27: " ++ reprVal fuel kv.2)) ++ "\x7d"

/-- Python `str(value)`. -/
def pyStr : Val → String
  | .null => "None"
  | .bool b => if b then "True" else "False"
  | .int n => toString n
  | .str s => s
  | .dict fs => reprVal 100 (.dict fs)

/-- Parse text as a Python `int(...)` literal: optional sign, digits,
single underscores allowed between digits. -/
def parsePyIntDigits : List Char → Option Int
  | [] => none
  | cs => go cs 0 true
where go : List Char → Int → Bool → Option Int
  | [], acc, afterDigit => if afterDigit then some acc else none
  | c :: rest, acc, afterDigit =>
      if c.isDigit then go rest (acc * 10 + (c.toNat - 48 : Nat)) true
      else if c = '_' ∧ afterDigit ∧ rest ≠ [] then go rest acc false
      else none

/-- Python `int(text)` on stripped text (no exponent/float forms). -/
def parsePyInt (text : String) : Option Int :=
  match text.toList with
  | '+' :: rest => parsePyIntDigits rest
  | '-' :: rest => (parsePyIntDigits rest).map (fun n => -n)
  | cs => parsePyIntDigits cs

/-- info_store.py `_normalize_text`: `str(value or "").strip()`. -/
def _normalize_text (value : Val) : String :=
  if pyTruthy value then pyStrip (pyStr value) else ""

/-- info_store.py `_to_int`: bools map to the default, ints pass through,
anything else is normalized to text and parsed, with the default on failure. -/
def _to_int (value : Val) (dflt : Int) : Int :=
  match value with
  | .bool _ => dflt
  | .int n => n
  | _ =>
      let text := _normalize_text value
      if text = "" then dflt
      else match parsePyInt text with
        | some n => n
        | none => dflt

/-- Proleptic-Gregorian calendar date as `datetime.date` holds it. -/
structure PyDate where
  year : Nat
  month : Nat
  day : Nat
deriving Repr, DecidableEq

def isLeapYear (y : Nat) : Bool := y % 4 = 0 ∧ (y % 100 ≠ 0 ∨ y % 400 = 0)

def daysInMonth (y m : Nat) : Nat :=
  if m = 2 then (if isLeapYear y then 29 else 28)
  else if m = 4 ∨ m = 6 ∨ m = 9 ∨ m = 11 then 30 else 31

def digitVal (c : Char) : Nat := c.toNat - 48

/-- Month field of `strptime("%Y-%m-%d")`: the regex `1[0-2]|0[1-9]|[1-9]`,
tried in that order (a failed two-digit alternative falls back to one digit). -/
def parseMonthChars : List Char → Option (Nat × List Char)
  | '1' :: c :: rest =>
      if '0' ≤ c ∧ c ≤ '2' then some (10 + digitVal c, rest)
      else some (1, c :: rest)
  | '0' :: c :: rest =>
      if '1' ≤ c ∧ c ≤ '9' then some (digitVal c, rest) else none
  | c :: rest => if '1' ≤ c ∧ c ≤ '9' then some (digitVal c, rest) else none
  | [] => none

/-- Day field of `strptime("%Y-%m-%d")`: the regex `3[01]|[12]\d|0[1-9]|[1-9]`. -/
def parseDayChars : List Char → Option (Nat × List Char)
  | '3' :: c :: rest =>
      if c = '0' ∨ c = '1' then some (30 + digitVal c, rest)
      else some (3, c :: rest)
  | c1 :: c :: rest =>
      if (c1 = '1' ∨ c1 = '2') ∧ c.isDigit then some (digitVal c1 * 10 + digitVal c, rest)
      else if c1 = '0' then (if '1' ≤ c ∧ c ≤ '9' then some (digitVal c, rest) else none)
      else if '1' ≤ c1 ∧ c1 ≤ '9' then some (digitVal c1, c :: rest)
      else none
  | c :: rest => if '1' ≤ c ∧ c ≤ '9' then some (digitVal c, rest) else none
  | [] => none

/-- `datetime.strptime(text, "%Y-%m-%d").date()`: four year digits, dashes,
month/day fields as above, the whole string consumed, then calendar
validity (year at least 1, day within the month). -/
def parseYMD : List Char → Option PyDate
  | a :: b :: c :: d :: '-' :: rest =>
      if a.isDigit ∧ b.isDigit ∧ c.isDigit ∧ d.isDigit then
        match parseMonthChars rest with
        | some (m, '-' :: rest2) =>
            (match parseDayChars rest2 with
             | some (dd, []) =>
                 let y := digitVal a * 1000 + digitVal b * 100 + digitVal c * 10 + digitVal d
                 if 1 ≤ y ∧ dd ≤ daysInMonth y m then some ⟨y, m, dd⟩ else none
             | _ => none)
        | _ => none
      else none
  | _ => none

/-- ledger_engine.py `parse_iso_date`. -/
def parse_iso_date (date_text : Val) : Option PyDate :=
  match date_text with
  | .str s =>
      let text := pyStrip s
      if text = "" then none else parseYMD text.toList
  | _ => none

/-- Left-pad a numeral with zeros. -/
def padNum (width n : Nat) : String :=
  let s := toString n
  String.mk (List.replicate (width - s.length) '0') ++ s

/-- `date.isoformat()`: YYYY-MM-DD with zero padding. -/
def PyDate.isoformat (d : PyDate) : String :=
  padNum 4 d.year ++ "-" ++ padNum 2 d.month ++ "-" ++ padNum 2 d.day

/-- ledger_engine.py `partition_for_gr_date`: the year of the parsed date as
`str(year)` (no padding), or `"unknown"`. -/
def partition_for_gr_date (gr_date : Val) : String :=
  match parse_iso_date gr_date with
  | none => "unknown"
  | some parsed => toString parsed.year

/-- ledger_engine.py `normalize_run_type`. -/
def normalize_run_type (run_type : Option String) : String :=
  match run_type with
  | some rt => if rt = "daily" ∨ rt = "monthly" then rt else "daily"
  | none => "daily"

/-- ledger_engine.py `normalize_crawl_date`; `today` is the process clock's
current UTC date, threaded explicitly.  A `datetime.date` argument in Python
is already a valid date and behaves like its ISO string here. -/
def normalize_crawl_date (crawl_date : Option String) (today : String) : String :=
  match crawl_date with
  | some s =>
      match parse_iso_date (.str s) with
      | some parsed => parsed.isoformat
      | none => today
  | none => today

example : partition_for_gr_date (.str "2024-03-01") = "2024" := rfl
example : partition_for_gr_date (.str "") = "unknown" := rfl
example : partition_for_gr_date (.str "2024-13-01") = "unknown" := rfl
example : partition_for_gr_date (.str "2023-02-29") = "unknown" := rfl
example : partition_for_gr_date (.str "2024-02-29") = "2024" := rfl
example : partition_for_gr_date (.str " 2024-3-1 ") = "2024" := rfl
example : partition_for_gr_date (.int 2024) = "unknown" := rfl
example : normalize_crawl_date (some "2024-1-2") "2025-01-01" = "2024-01-02" := rfl
example : normalize_crawl_date (some "oops") "2025-01-01" = "2025-01-01" := rfl
example : _to_int (.str " 12 ") 0 = 12 := rfl
example : _to_int (.bool true) 7 = 7 := rfl
example : _to_int (.str "x") 7 = 7 := rfl

/-- Stable insertion: walk past strictly smaller elements, so that elements
comparing equal keep their original relative order (Python sorts are stable). -/
def sortInsert {α : Type} (lt : α → α → Bool) (x : α) : List α → List α
  | [] => [x]
  | y :: ys => if lt y x then y :: sortInsert lt x ys else x :: y :: ys

/-- Stable sort by a strict comparison (insertion sort). -/
def stableSort {α : Type} (lt : α → α → Bool) : List α → List α
  | [] => []
  | x :: xs => sortInsert lt x (stableSort lt xs)

/-- info_store.py `InfoStore._row_key`: first of `record_key`, `unique_code`
that is a nonempty string after stripping. -/
def _row_key_field (row : Row) (field : String) : Option String :=
  match alistGet row field with
  | some (.str s) => (if pyStrip s ≠ "" then some (pyStrip s) else none)
  | _ => none

def _row_key (row : Row) : String :=
  match _row_key_field row "record_key" with
  | some k => k
  | none =>
      match _row_key_field row "unique_code" with
      | some k => k
      | none => ""

/-- Sort key used by `LedgerStore`: `str(item.get("unique_code", ""))`. -/
def ledgerRowKey (row : Row) : String := pyStr (dictGetD row "unique_code" (.str ""))

/-- Rows sorted by `InfoStore._row_key` (Python `rows.sort(key=...)`). -/
def sortRowsByRowKey (rows : List Row) : List Row :=
  stableSort (fun r1 r2 => strLt (_row_key r1) (_row_key r2)) rows

/-- Rows sorted by the `LedgerStore` key. -/
def sortRowsLedger (rows : List Row) : List Row :=
  stableSort (fun r1 r2 => strLt (ledgerRowKey r1) (ledgerRowKey r2)) rows

/-- JSON string quoting as `json.dumps` emits it with `ensure_ascii=False`
(basic escapes; the ledger writes no exotic control characters). -/
def jsonQuoteChar (c : Char) : String :=
  if c = '"' then "\\\""
  else if c = '\\' then "\\\\"
  else if c = '\n' then "\\n"
  else if c = '\t' then "\\t"
  else if c = '\r' then "\\r"
  else String.mk [c]

def jsonQuote (s : String) : String :=
  "\"" ++ String.join (s.toList.map jsonQuoteChar) ++ "\""

/-- `json.dumps(row, ensure_ascii=False, sort_keys=True)`: keys of every
object are emitted in sorted order.  Fuel bounds nesting as in `reprVal`. -/
def dumpsVal : Nat → Val → String
  | _, .null => "null"
  | _, .bool b => if b then "true" else "false"
  | _, .int n => toString n
  | _, .str s => jsonQuote s
  | 0, .dict _ => ""
  | fuel + 1, .dict fs =>
      let sortedFields := stableSort (fun a b => strLt a.1 b.1) fs
      "\x7b" ++ String.intercalate ", "
        (sortedFields.map (fun kv => jsonQuote kv.1 ++ ": " ++ dumpsVal fuel kv.2)) ++ "\x7d"

def dumpsRow (row : Row) : String := dumpsVal 100 (.dict row)

/-- Serialized lines of one partition file, in row order
(`_write_partition` writes one `json.dumps(..., sort_keys=True)` per line). -/
def fileLines (rows : List Row) : List String := rows.map dumpsRow

/-- ledger_engine.py lifecycle state constants. -/
def STATE_FETCHED : String := "FETCHED"

def STATE_DOWNLOAD_SUCCESS : String := "DOWNLOAD_SUCCESS"

def STATE_DOWNLOAD_FAILED : String := "DOWNLOAD_FAILED"

def STATE_WAYBACK_UPLOADED : String := "WAYBACK_UPLOADED"

def STATE_WAYBACK_UPLOAD_FAILED : String := "WAYBACK_UPLOAD_FAILED"

def STATE_ARCHIVE_UPLOADED_WITH_WAYBACK_URL : String := "ARCHIVE_UPLOADED_WITH_WAYBACK_URL"

def STATE_ARCHIVE_UPLOADED_WITHOUT_WAYBACK_URL : String := "ARCHIVE_UPLOADED_WITHOUT_WAYBACK_URL"

def STATE_ARCHIVE_UPLOADED_WITHOUT_DOCUMENT : String := "ARCHIVE_UPLOADED_WITHOUT_DOCUMENT"

def ALLOWED_STATES : List String :=
  [STATE_FETCHED, STATE_DOWNLOAD_SUCCESS, STATE_DOWNLOAD_FAILED, STATE_WAYBACK_UPLOADED,
   STATE_WAYBACK_UPLOAD_FAILED, STATE_ARCHIVE_UPLOADED_WITH_WAYBACK_URL,
   STATE_ARCHIVE_UPLOADED_WITHOUT_WAYBACK_URL, STATE_ARCHIVE_UPLOADED_WITHOUT_DOCUMENT]

def STAGE_DOWNLOAD : String := "download"

def STAGE_WAYBACK : String := "wayback"

def STAGE_ARCHIVE : String := "archive"

def STAGE_NAMES : List String := [STAGE_DOWNLOAD, STAGE_WAYBACK, STAGE_ARCHIVE]

def IMMUTABLE_FIELDS : List String :=
  ["unique_code", "created_at_utc", "first_seen_crawl_date", "first_seen_run_type"]

def MUTABLE_FIELDS : List String :=
  ["title", "department_name", "department_code", "gr_date", "source_url", "lfs_path",
   "state", "attempt_counts", "download", "wayback", "archive", "pdf_info",
   "last_seen_crawl_date", "updated_at_utc"]

/-- ledger_engine.py `ALLOWED_TRANSITIONS`, verbatim. -/
def ALLOWED_TRANSITIONS : List (String × List String) :=
  [(STATE_FETCHED,
    [STATE_FETCHED, STATE_DOWNLOAD_SUCCESS, STATE_DOWNLOAD_FAILED]),
   (STATE_DOWNLOAD_SUCCESS,
    [STATE_DOWNLOAD_SUCCESS, STATE_WAYBACK_UPLOADED, STATE_WAYBACK_UPLOAD_FAILED,
     STATE_ARCHIVE_UPLOADED_WITH_WAYBACK_URL, STATE_ARCHIVE_UPLOADED_WITHOUT_WAYBACK_URL]),
   (STATE_DOWNLOAD_FAILED,
    [STATE_DOWNLOAD_FAILED, STATE_ARCHIVE_UPLOADED_WITHOUT_DOCUMENT]),
   (STATE_WAYBACK_UPLOADED,
    [STATE_WAYBACK_UPLOADED, STATE_ARCHIVE_UPLOADED_WITH_WAYBACK_URL]),
   (STATE_WAYBACK_UPLOAD_FAILED,
    [STATE_WAYBACK_UPLOAD_FAILED, STATE_ARCHIVE_UPLOADED_WITHOUT_WAYBACK_URL]),
   (STATE_ARCHIVE_UPLOADED_WITH_WAYBACK_URL,
    [STATE_ARCHIVE_UPLOADED_WITH_WAYBACK_URL]),
   (STATE_ARCHIVE_UPLOADED_WITHOUT_WAYBACK_URL,
    [STATE_ARCHIVE_UPLOADED_WITHOUT_WAYBACK_URL]),
   (STATE_ARCHIVE_UPLOADED_WITHOUT_DOCUMENT,
    [STATE_ARCHIVE_UPLOADED_WITHOUT_DOCUMENT, STATE_DOWNLOAD_SUCCESS, STATE_DOWNLOAD_FAILED,
     STATE_ARCHIVE_UPLOADED_WITH_WAYBACK_URL, STATE_ARCHIVE_UPLOADED_WITHOUT_WAYBACK_URL])]

/-- Exception classes of ledger_engine.py (each with the raised message). -/
inductive Err where
  | ledgerError (msg : String)
  | recordNotFound (msg : String)
  | duplicateUniqueCode (msg : String)
  | invalidTransition (msg : String)
  | retryLimitExceeded (msg : String)
  | immutableFieldUpdate (msg : String)
  | valueError (msg : String)
deriving Repr, DecidableEq

structure RecordLocation where
  partition : String
  index : Nat
deriving Repr, DecidableEq

structure UpsertResult where
  operation : String
  partition : String
  unique_code : String
deriving Repr, DecidableEq

/-- ledger_engine.py `StateMachine.validate_state`. -/
def StateMachine.validate_state (state : String) : Except Err Unit :=
  if ALLOWED_STATES.contains state then .ok ()
  else .error (.invalidTransition ("Unknown state: " ++ state))

/-- ledger_engine.py `StateMachine.validate_transition`. -/
def StateMachine.validate_transition (current_state next_state : String) : Except Err Unit :=
  match StateMachine.validate_state current_state with
  | .error e => .error e
  | .ok _ =>
      match StateMachine.validate_state next_state with
      | .error e => .error e
      | .ok _ =>
          let allowed := (alistGet ALLOWED_TRANSITIONS current_state).getD []
          if allowed.contains next_state then .ok ()
          else .error (.invalidTransition
            ("Invalid transition: " ++ current_state ++ " -> " ++ next_state))

/-- ledger_engine.py `StateMachine.next_state_for_stage` (the redundant
branch on `ARCHIVE_UPLOADED_WITHOUT_DOCUMENT` for the download stage is
kept as in the source). -/
def StateMachine.next_state_for_stage (current_state stage : String) (success : Bool)
    (has_wayback_url : Option Bool) (has_document : Bool) : Except Err String :=
  match StateMachine.validate_state current_state with
  | .error e => .error e
  | .ok _ =>
      if ¬ STAGE_NAMES.contains stage then
        .error (.invalidTransition ("Unknown stage: " ++ stage))
      else if stage = STAGE_DOWNLOAD then
        if current_state = STATE_ARCHIVE_UPLOADED_WITHOUT_DOCUMENT then
          .ok (if success then STATE_DOWNLOAD_SUCCESS else STATE_DOWNLOAD_FAILED)
        else
          .ok (if success then STATE_DOWNLOAD_SUCCESS else STATE_DOWNLOAD_FAILED)
      else if stage = STAGE_WAYBACK then
        .ok (if success then STATE_WAYBACK_UPLOADED else STATE_WAYBACK_UPLOAD_FAILED)
      else if stage = STAGE_ARCHIVE then
        if ¬ success then .ok current_state
        else if ¬ has_document then .ok STATE_ARCHIVE_UPLOADED_WITHOUT_DOCUMENT
        else if has_wayback_url.getD false then .ok STATE_ARCHIVE_UPLOADED_WITH_WAYBACK_URL
        else .ok STATE_ARCHIVE_UPLOADED_WITHOUT_WAYBACK_URL
      else .ok current_state

example : StateMachine.next_state_for_stage STATE_FETCHED STAGE_ARCHIVE true none false =
    .ok STATE_ARCHIVE_UPLOADED_WITHOUT_DOCUMENT := rfl
example : StateMachine.validate_transition STATE_FETCHED STATE_DOWNLOAD_SUCCESS = .ok () := rfl
example : (StateMachine.validate_transition STATE_FETCHED
    STATE_ARCHIVE_UPLOADED_WITHOUT_DOCUMENT).isOk = false := rfl

/-- Python `==` between embedded values: numeric equality identifies bools
with 0/1, strings compare as strings, dicts compare key sets and values
(order-insensitive).  Fuel bounds dict nesting as in `reprVal`. -/
def pyEq : Nat → Val → Val → Bool
  | _, .null, .null => true
  | _, .bool a, .bool b => a == b
  | _, .bool a, .int n => (if a then (1 : Int) else 0) == n
  | _, .int n, .bool a => n == (if a then (1 : Int) else 0)
  | _, .int a, .int b => a == b
  | _, .str a, .str b => a == b
  | 0, .dict _, .dict _ => false
  | fuel + 1, .dict fs, .dict gs =>
      fs.length == gs.length &&
      fs.all (fun kv =>
        match alistGet gs kv.1 with
        | some w => pyEq fuel kv.2 w
        | none => false)
  | _, _, _ => false

def pyEqV (a b : Val) : Bool := pyEq 100 a b

/-- Python `!=` between two `dict.get` results that may be absent. -/
def optValNe (a b : Option Val) : Bool :=
  match a, b with
  | none, none => false
  | none, some v => ¬ pyEqV .null v
  | some v, none => ¬ pyEqV v .null
  | some v, some w => ¬ pyEqV v w

/-- Python `value is None or value == ""` guard from immutable-field updates:
`dict.get` returned `None` (absent key or stored null) or the empty string. -/
def isNoneOrEmpty (v : Option Val) : Bool :=
  match v with
  | none => true
  | some .null => true
  | some (.str s) => s = ""
  | some _ => false

/-- Python `int` check used by the attempt validators.  `isinstance(b, int)`
is true for bools in Python, which count as 0/1 there. -/
def toIntStrict : Val → Option Int
  | .int n => some n
  | .bool b => some (if b then 1 else 0)
  | _ => none

/-- Compare two parsed dates (`datetime.date` ordering). -/
def PyDate.lt (a b : PyDate) : Bool :=
  a.year < b.year ∨ (a.year = b.year ∧ (a.month < b.month ∨ (a.month = b.month ∧ a.day < b.day)))

/-- ledger_engine.py `default_record_template` (clock values threaded). -/
def default_record_template (unique_code now_text today_text : String) : Row :=
  [("unique_code", .str unique_code),
   ("title", .str ""),
   ("department_name", .str ""),
   ("department_code", .str "unknown"),
   ("gr_date", .str ""),
   ("source_url", .str ""),
   ("lfs_path", .null),
   ("state", .str STATE_FETCHED),
   ("attempt_counts", .dict [(STAGE_DOWNLOAD, .int 0), (STAGE_WAYBACK, .int 0),
                             (STAGE_ARCHIVE, .int 0)]),
   ("download", .dict [("path", .str ""), ("status", .str "not_attempted"), ("hash", .str ""),
                       ("size", .null), ("error", .str "")]),
   ("wayback", .dict [("url", .str ""), ("content_url", .str ""), ("archive_time", .str ""),
                      ("archive_sha1", .str ""), ("archive_length", .null),
                      ("archive_mimetype", .str ""), ("archive_status_code", .str ""),
                      ("status", .str "not_attempted"), ("error", .str "")]),
   ("archive", .dict [("identifier", .str ""), ("url", .str ""),
                      ("status", .str "not_attempted"), ("error", .str "")]),
   ("pdf_info", .dict [("status", .str "not_attempted"), ("error", .str ""), ("path", .str ""),
                       ("file_size", .null), ("page_count", .null), ("pages_with_images", .int 0),
                       ("has_any_page_image", .bool false), ("font_count", .int 0),
                       ("fonts", .dict []), ("unresolved_word_count", .int 0),
                       ("language", .dict [("inferred", .str "unknown"),
                                           ("script_word_counts", .dict []),
                                           ("total_words", .int 0)])]),
   ("first_seen_crawl_date", .str today_text),
   ("last_seen_crawl_date", .str today_text),
   ("first_seen_run_type", .str "daily"),
   ("created_at_utc", .str now_text),
   ("updated_at_utc", .str now_text)]

/-- ledger_engine.py `LedgerStore`: partition files on disk, the in-process
partition cache, and the key index. -/
structure LStore where
  disk : List (String × List Row)
  cache : List (String × List Row)
  index : List (String × RecordLocation)
deriving Repr, DecidableEq

namespace LedgerStore

/-- `LedgerStore._read_partition`: serve from the cache, else load the
partition file (absent file reads as no rows) and fill the cache. -/
def _read_partition (st : LStore) (partition : String) : List Row × LStore :=
  match alistGet st.cache partition with
  | some rows => (rows, st)
  | none =>
      let rows := (alistGet st.disk partition).getD []
      (rows, { st with cache := alistSet st.cache partition rows })

/-- `LedgerStore._write_partition`: atomically replace the partition file
and refresh the cache entry. -/
def _write_partition (st : LStore) (partition : String) (rows : List Row) : LStore :=
  { st with disk := alistSet st.disk partition rows,
            cache := alistSet st.cache partition rows }

/-- Index fold of `refresh_index`: enumerate rows of one partition, skipping
rows without a usable `unique_code`, failing on a key met before. -/
def refreshFold (partition : String) : List Row → Nat →
    List (String × RecordLocation) → (Except Err Unit) × List (String × RecordLocation)
  | [], _, index => (.ok (), index)
  | row :: rest, idx, index =>
      match dictGetD row "unique_code" .null with
      | .str uc =>
          if uc = "" then refreshFold partition rest (idx + 1) index
          else
            match alistGet index uc with
            | some existing =>
                (.error (.duplicateUniqueCode
                  ("Duplicate unique_code=" ++ uc ++ " in partitions " ++
                   existing.partition ++ " and " ++ partition)), index)
            | none =>
                refreshFold partition rest (idx + 1)
                  (alistSet index uc ⟨partition, idx⟩)
      | _ => refreshFold partition rest (idx + 1) index

/-- Partition stems in the order `sorted(dir.glob("*.jsonl"))` visits them:
paths sort as full file names, hence stems compare with the suffix attached. -/
def sortedLedgerPartitions (names : List String) : List String :=
  stableSort (fun a b => strLt (a ++ ".jsonl") (b ++ ".jsonl")) names

/-- `LedgerStore.refresh_index`: drop cache and index, rescan every
partition file.  On a duplicate key the partially rebuilt state remains,
exactly as the raising Python constructor would leave the object. -/
def refresh_index (st : LStore) : (Except Err Unit) × LStore :=
  let names := sortedLedgerPartitions (st.disk.map Prod.fst)
  go names { st with cache := [], index := [] }
where go : List String → LStore → (Except Err Unit) × LStore
  | [], st => (.ok (), st)
  | partition :: rest, st =>
      let (rows, st) := _read_partition st partition
      match refreshFold partition rows 0 st.index with
      | (.error e, index) => (.error e, { st with index := index })
      | (.ok _, index) => go rest { st with index := index }

/-- Index fold of `_reindex_partition`: re-add one partition's rows, failing
only when a key also lives in a different partition. -/
def reindexFold (partition : String) : List Row → Nat →
    List (String × RecordLocation) → (Except Err Unit) × List (String × RecordLocation)
  | [], _, index => (.ok (), index)
  | row :: rest, idx, index =>
      match dictGetD row "unique_code" .null with
      | .str uc =>
          if uc = "" then reindexFold partition rest (idx + 1) index
          else
            match alistGet index uc with
            | some existing =>
                if existing.partition ≠ partition then
                  (.error (.duplicateUniqueCode
                    ("Duplicate unique_code=" ++ uc ++ " in partitions " ++
                     existing.partition ++ " and " ++ partition)), index)
                else reindexFold partition rest (idx + 1) (alistSet index uc ⟨partition, idx⟩)
            | none => reindexFold partition rest (idx + 1) (alistSet index uc ⟨partition, idx⟩)
      | _ => reindexFold partition rest (idx + 1) index

/-- `LedgerStore._reindex_partition`. -/
def _reindex_partition (st : LStore) (partition : String) : (Except Err Unit) × LStore :=
  let index := st.index.filter (fun kv => kv.2.partition ≠ partition)
  let (rows, st) := _read_partition { st with index := index } partition
  match reindexFold partition rows 0 st.index with
  | (r, index) => (r, { st with index := index })

/-- `LedgerStore.find` (`copy.deepcopy` of the cached row is the identity on
embedded values; independence of the returned copy is studied separately in
the heap refinement at the end of this file). -/
def find (st : LStore) (unique_code : String) : Option Row × LStore :=
  match alistGet st.index unique_code with
  | none => (none, st)
  | some location =>
      let (rows, st) := _read_partition st location.partition
      ((rows.get? location.index).map id, st)

end LedgerStore

example :
    (LedgerStore.refresh_index
      { disk := [("2024", [[("unique_code", .str "a")]]),
                 ("2023", [[("unique_code", .str "b")]])],
        cache := [], index := [] }).2.index =
    [("b", ⟨"2023", 0⟩), ("a", ⟨"2024", 0⟩)] := rfl

namespace LedgerStore

/-- ledger_engine.py `LedgerStore._apply_mutable_update`: fold over the
incoming patch in insertion order. -/
def _apply_mutable_update (target incoming : Row) (is_insert : Bool) : Except Err Row :=
  go target incoming
where go : Row → Row → Except Err Row
  | target, [] => .ok target
  | target, (key, value) :: rest =>
      if IMMUTABLE_FIELDS.contains key then
        if is_insert then go (alistSet target key value) rest
        else if isNoneOrEmpty (alistGet target key) then go (alistSet target key value) rest
        else if ¬ pyEqV value ((alistGet target key).getD .null) then
          .error (.immutableFieldUpdate ("Cannot change immutable field: " ++ key))
        else go target rest
      else if MUTABLE_FIELDS.contains key then
        if value ≠ .null ∨ key = "lfs_path" then go (alistSet target key value) rest
        else go target rest
      else go target rest

/-- ledger_engine.py `LedgerStore._validate_state`. -/
def _validate_state (record : Row) : Except Err Unit :=
  match alistGet record "state" with
  | some (.str state) => StateMachine.validate_state state
  | _ => .error (.ledgerError "record[\x27state\x27] must be string")

/-- ledger_engine.py `LedgerStore._validate_attempt_counts`.  The source
walks the `STAGE_NAMES` set; set iteration order in Python is unspecified,
so of several offending stages the reported one may differ — no claim
depends on which stage a validation message names. -/
def _validate_attempt_counts (record : Row) : Except Err Unit :=
  match alistGet record "attempt_counts" with
  | some (.dict attempts) => go attempts STAGE_NAMES
  | _ => .error (.ledgerError "record[\x27attempt_counts\x27] must be object")
where go (attempts : Row) : List String → Except Err Unit
  | [] => .ok ()
  | stage :: rest =>
      let value := dictGetD attempts stage (.int 0)
      match toIntStrict value with
      | none => .error (.ledgerError ("attempt_counts." ++ stage ++ " must be int"))
      | some n =>
          if n < 0 ∨ n > 2 then
            .error (.ledgerError
              ("attempt_counts." ++ stage ++ " must be in [0,2], got " ++ pyStr value))
          else go attempts rest

/-- ledger_engine.py `LedgerStore._validate_attempt_counts_non_decreasing`. -/
def _validate_attempt_counts_non_decreasing (current_record updated_record : Row) :
    Except Err Unit :=
  match dictGetD current_record "attempt_counts" (.dict []),
        dictGetD updated_record "attempt_counts" (.dict []) with
  | .dict current_attempts, .dict updated_attempts =>
      go current_attempts updated_attempts STAGE_NAMES
  | _, _ => .ok ()
where go (current_attempts updated_attempts : Row) : List String → Except Err Unit
  | [] => .ok ()
  | stage :: rest =>
      let current_value := dictGetD current_attempts stage (.int 0)
      let updated_value := dictGetD updated_attempts stage (.int 0)
      match toIntStrict current_value, toIntStrict updated_value with
      | some c, some u =>
          if u < c then
            .error (.ledgerError
              ("attempt_counts." ++ stage ++ " cannot decrease (" ++ pyStr current_value ++
               " -> " ++ pyStr updated_value ++ ")"))
          else go current_attempts updated_attempts rest
      | _, _ => go current_attempts updated_attempts rest

/-- Membership test `row.get("unique_code") != unique_code` used when moving
a record across partitions. -/
def rowHasUC (row : Row) (unique_code : String) : Bool :=
  pyEqV (dictGetD row "unique_code" .null) (.str unique_code)

/-- ledger_engine.py `LedgerStore.upsert`.  Clock values are threaded as
`now_text` (for `utc_now_text()`) and `today_text` (for today's UTC date). -/
def upsert (st : LStore) (record : Row) (run_type crawl_date : Option String)
    (now_text today_text : String) : (Except Err UpsertResult) × LStore :=
  match alistGet record "unique_code" with
  | some (.str s) =>
      if pyStrip s = "" then
        (.error (.ledgerError "upsert requires non-empty record[\x27unique_code\x27]"), st)
      else go st (pyStrip s)
  | _ => (.error (.ledgerError "upsert requires non-empty record[\x27unique_code\x27]"), st)
where go (st : LStore) (unique_code : String) : (Except Err UpsertResult) × LStore :=
  let normalized_run_type := normalize_run_type run_type
  let normalized_crawl_date := normalize_crawl_date crawl_date today_text
  match alistGet st.index unique_code with
  | none =>
      match _apply_mutable_update (default_record_template unique_code now_text today_text)
          record true with
      | .error e => (.error e, st)
      | .ok new_record =>
          let new_record := alistSet new_record "first_seen_run_type" (.str normalized_run_type)
          let new_record := alistSet new_record "first_seen_crawl_date" (.str normalized_crawl_date)
          let new_record := alistSet new_record "last_seen_crawl_date" (.str normalized_crawl_date)
          let new_record := alistSet new_record "created_at_utc" (.str now_text)
          let new_record := alistSet new_record "updated_at_utc" (.str now_text)
          match _validate_attempt_counts new_record with
          | .error e => (.error e, st)
          | .ok _ =>
          match _validate_state new_record with
          | .error e => (.error e, st)
          | .ok _ =>
          let target_partition := partition_for_gr_date (dictGetD new_record "gr_date" .null)
          let (rows, st) := _read_partition st target_partition
          let rows := sortRowsLedger (rows ++ [new_record])
          let st := _write_partition st target_partition rows
          match _reindex_partition st target_partition with
          | (.error e, st) => (.error e, st)
          | (.ok _, st) => (.ok ⟨"inserted", target_partition, unique_code⟩, st)
  | some location =>
      let source_partition := location.partition
      let (rows, st) := _read_partition st source_partition
      let current_record := (rows.get? location.index).getD []
      match _apply_mutable_update current_record record false with
      | .error e => (.error e, st)
      | .ok updated_record =>
          let stateCheck :=
            if optValNe (alistGet updated_record "state") (alistGet current_record "state") then
              StateMachine.validate_transition
                (pyStr (dictGetD current_record "state" (.str STATE_FETCHED)))
                (pyStr (dictGetD updated_record "state" .null))
            else .ok ()
          match stateCheck with
          | .error e => (.error e, st)
          | .ok _ =>
          let updated_record :=
            if normalized_run_type = "monthly" then
              match parse_iso_date (.str normalized_crawl_date),
                    parse_iso_date (dictGetD updated_record "last_seen_crawl_date" .null) with
              | some cand, none =>
                  alistSet updated_record "last_seen_crawl_date" (.str cand.isoformat)
              | some cand, some existing =>
                  if PyDate.lt existing cand then
                    alistSet updated_record "last_seen_crawl_date" (.str cand.isoformat)
                  else updated_record
              | none, _ => updated_record
            else updated_record
          match _validate_attempt_counts_non_decreasing current_record updated_record with
          | .error e => (.error e, st)
          | .ok _ =>
          let updated_record := alistSet updated_record "updated_at_utc" (.str now_text)
          match _validate_attempt_counts updated_record with
          | .error e => (.error e, st)
          | .ok _ =>
          match _validate_state updated_record with
          | .error e => (.error e, st)
          | .ok _ =>
          let target_partition := partition_for_gr_date (dictGetD updated_record "gr_date" .null)
          if target_partition = source_partition then
            let rows := sortRowsLedger (listSetAt rows location.index updated_record)
            let st := _write_partition st source_partition rows
            match _reindex_partition st source_partition with
            | (.error e, st) => (.error e, st)
            | (.ok _, st) => (.ok ⟨"updated", target_partition, unique_code⟩, st)
          else
            let source_rows := rows.filter (fun row => ¬ rowHasUC row unique_code)
            let (target_rows, st) := _read_partition st target_partition
            let target_rows := target_rows.filter (fun row => ¬ rowHasUC row unique_code)
            let target_rows := sortRowsLedger (target_rows ++ [updated_record])
            let source_rows := sortRowsLedger source_rows
            let st := _write_partition st source_partition source_rows
            let st := _write_partition st target_partition target_rows
            match _reindex_partition st source_partition with
            | (.error e, st) => (.error e, st)
            | (.ok _, st) =>
            match _reindex_partition st target_partition with
            | (.error e, st) => (.error e, st)
            | (.ok _, st) => (.ok ⟨"moved", target_partition, unique_code⟩, st)

end LedgerStore

namespace LedgerStore

/-- ledger_engine.py `LedgerStore.apply_stage_result`.  `fsProbe` stands for
`existing_file_ledger_path` (a filesystem probe outside the store: the
normalized ledger-relative path when the downloaded file exists, else
`None`).  The non-dict fallbacks below mark spots where Python would crash
with an `AttributeError`/`TypeError` on a corrupt row; they are never
reached from well-formed stores. -/
def apply_stage_result (st : LStore) (fsProbe : Val → Option String)
    (unique_code stage : String) (success : Bool) (metadata : Row) (error : String)
    (has_document : Bool) (has_wayback_url : Option Bool) (now_text today_text : String) :
    (Except Err UpsertResult) × LStore :=
  if ¬ STAGE_NAMES.contains stage then
    (.error (.ledgerError ("Unknown stage: " ++ stage)), st)
  else
    match find st unique_code with
    | (none, st) => (.error (.recordNotFound ("Record not found: " ++ unique_code)), st)
    | (some existing, st) =>
        let record := existing
        match dictGetD record "attempt_counts" (.dict []) with
        | .dict attempts =>
            let current_attempts := dictGetD attempts stage (.int 0)
            match toIntStrict current_attempts with
            | none => (.error (.ledgerError ("attempt_counts." ++ stage ++ " must be int")), st)
            | some ca =>
                if ca ≥ 2 then
                  (.error (.retryLimitExceeded
                    ("Retry limit exceeded for unique_code=" ++ unique_code ++
                     " stage=" ++ stage)), st)
                else
                  let record := alistSet record "attempt_counts"
                    (.dict (alistSet attempts stage (.int (ca + 1))))
                  let record :=
                    if stage = STAGE_DOWNLOAD then
                      match dictGetD record "download" (.dict []) with
                      | .dict download =>
                          if success then
                            let download := alistSet download "status" (.str "success")
                            let download := alistSet download "error" (.str "")
                            let download :=
                              match alistGet metadata "path" with
                              | some v => alistSet download "path" v
                              | none => download
                            let download :=
                              match alistGet metadata "hash" with
                              | some v => alistSet download "hash" v
                              | none => download
                            let download :=
                              match alistGet metadata "size" with
                              | some v => alistSet download "size" v
                              | none => download
                            let record := alistSet record "download" (.dict download)
                            alistSet record "lfs_path"
                              (match fsProbe (dictGetD download "path" .null) with
                               | some p => .str p
                               | none => .null)
                          else
                            let download := alistSet download "status" (.str "failed")
                            let download := alistSet download "error"
                              (if error ≠ "" then .str error
                               else dictGetD metadata "error" (.str "download_failed"))
                            alistSet record "download" (.dict download)
                      | _ => record
                    else if stage = STAGE_WAYBACK then
                      match dictGetD record "wayback" (.dict []) with
                      | .dict wayback =>
                          if success then
                            let wayback := alistSet wayback "status" (.str "success")
                            let wayback := alistSet wayback "error" (.str "")
                            let wayback :=
                              ["url", "content_url", "archive_time", "archive_sha1",
                               "archive_length", "archive_mimetype",
                               "archive_status_code"].foldl
                                (fun wb key =>
                                  match alistGet metadata key with
                                  | some v => alistSet wb key v
                                  | none => wb) wayback
                            alistSet record "wayback" (.dict wayback)
                          else
                            let wayback := alistSet wayback "status" (.str "failed")
                            let wayback := alistSet wayback "error"
                              (if error ≠ "" then .str error
                               else dictGetD metadata "error" (.str "wayback_upload_failed"))
                            alistSet record "wayback" (.dict wayback)
                      | _ => record
                    else
                      match dictGetD record "archive" (.dict []) with
                      | .dict archive =>
                          if success then
                            let archive := alistSet archive "status" (.str "success")
                            let archive := alistSet archive "error" (.str "")
                            let archive :=
                              ["identifier", "url"].foldl
                                (fun ar key =>
                                  match alistGet metadata key with
                                  | some v => alistSet ar key v
                                  | none => ar) archive
                            alistSet record "archive" (.dict archive)
                          else
                            let archive := alistSet archive "status" (.str "failed")
                            let archive := alistSet archive "error"
                              (if error ≠ "" then .str error
                               else dictGetD metadata "error" (.str "archive_upload_failed"))
                            alistSet record "archive" (.dict archive)
                      | _ => record
                  let has_wayback_url :=
                    if stage = STAGE_ARCHIVE ∧ has_wayback_url = none then
                      let wayback_url :=
                        match dictGetD record "wayback" (.dict []) with
                        | .dict wayback => pyStrip (pyStr (dictGetD wayback "url" (.str "")))
                        | other => pyStrip (pyStr other)
                      some (wayback_url != "")
                    else has_wayback_url
                  match StateMachine.next_state_for_stage
                      (pyStr (dictGetD record "state" (.str STATE_FETCHED))) stage success
                      has_wayback_url has_document with
                  | .error e => (.error e, st)
                  | .ok next_state =>
                      match StateMachine.validate_transition
                          (pyStr (dictGetD record "state" (.str STATE_FETCHED))) next_state with
                      | .error e => (.error e, st)
                      | .ok _ =>
                          let record := alistSet record "state" (.str next_state)
                          let record := alistSet record "updated_at_utc" (.str now_text)
                          upsert st record none none now_text today_text
        | _ => (.error (.ledgerError "attempt_counts must be object"), st)

end LedgerStore

/-- The three namespaces of info_store.py (`urlinfos`, `uploadinfos`,
`pdfinfos`). -/
inductive Ns where
  | url
  | upload
  | pdf
deriving Repr, DecidableEq

def nsName : Ns → String
  | .url => "urlinfos"
  | .upload => "uploadinfos"
  | .pdf => "pdfinfos"

/-- State of one namespace: partition files on disk, partition cache, and
key index. -/
structure NsSt where
  disk : List (String × List Row)
  cache : List (String × List Row)
  index : List (String × RecordLocation)
deriving Repr, DecidableEq

/-- info_store.py `InfoStore` state (directory resolution is elided; the
partition filter is the constructor's normalized `partitions` argument). -/
structure IStore where
  url : NsSt
  upload : NsSt
  pdf : NsSt
  partitionFilter : Option (List String)
deriving Repr, DecidableEq

def IStore.get : IStore → Ns → NsSt
  | st, .url => st.url
  | st, .upload => st.upload
  | st, .pdf => st.pdf

def IStore.put : IStore → Ns → NsSt → IStore
  | st, .url, n => { st with url := n }
  | st, .upload, n => { st with upload := n }
  | st, .pdf, n => { st with pdf := n }

namespace InfoStore

/-- info_store.py `InfoStore._is_partition_allowed`. -/
def _is_partition_allowed (st : IStore) (partition : String) : Bool :=
  match st.partitionFilter with
  | none => true
  | some f => f.contains partition

/-- Integer value of an all-digit stem. -/
def strDigitsToInt (s : String) : Int :=
  s.toList.foldl (fun acc c => acc * 10 + (digitVal c : Int)) 0

/-- info_store.py `_namespace_sort_key` on a partition stem: digit stems
first, newest year first, then other stems, then `"unknown"` last. -/
def _namespace_sort_key (stem : String) : Nat × Int × String :=
  if stem.toList ≠ [] ∧ stem.toList.all Char.isDigit then (0, -(strDigitsToInt stem), stem)
  else if stem = "unknown" then (2, 0, stem)
  else (1, 0, stem)

def nsKeyLt (a b : Nat × Int × String) : Bool :=
  a.1 < b.1 ∨ (a.1 = b.1 ∧ (a.2.1 < b.2.1 ∨ (a.2.1 = b.2.1 ∧ strLt a.2.2 b.2.2)))

def sortPartitionsByNsKey (names : List String) : List String :=
  stableSort (fun a b => nsKeyLt (_namespace_sort_key a) (_namespace_sort_key b)) names

/-- info_store.py `InfoStore._read_partition`. -/
def _read_partition (st : IStore) (ns : Ns) (partition : String) : List Row × IStore :=
  let nsSt := st.get ns
  match alistGet nsSt.cache partition with
  | some rows => (rows, st)
  | none =>
      let rows := (alistGet nsSt.disk partition).getD []
      (rows, st.put ns { nsSt with cache := alistSet nsSt.cache partition rows })

/-- info_store.py `InfoStore._write_partition` (temp file + atomic rename,
then cache refresh). -/
def _write_partition (st : IStore) (ns : Ns) (partition : String) (rows : List Row) : IStore :=
  let nsSt := st.get ns
  st.put ns { nsSt with disk := alistSet nsSt.disk partition rows,
                        cache := alistSet nsSt.cache partition rows }

/-- Index fold of `InfoStore.refresh_index`: rows keyed by `_row_key`,
duplicate keys rejected across and within partitions. -/
def refreshFoldI (ns : Ns) (partition : String) : List Row → Nat →
    List (String × RecordLocation) → (Except Err Unit) × List (String × RecordLocation)
  | [], _, index => (.ok (), index)
  | row :: rest, idx, index =>
      let key := _row_key row
      if key = "" then refreshFoldI ns partition rest (idx + 1) index
      else
        match alistGet index key with
        | some existing =>
            (.error (.duplicateUniqueCode
              ("Duplicate record_key=" ++ key ++ " in " ++ nsName ns ++ " partitions " ++
               existing.partition ++ " and " ++ partition)), index)
        | none => refreshFoldI ns partition rest (idx + 1) (alistSet index key ⟨partition, idx⟩)

/-- Scan one namespace for `refresh_index`. -/
def refreshNs (st : IStore) (ns : Ns) : (Except Err Unit) × IStore :=
  let nsSt := st.get ns
  let st := st.put ns { nsSt with cache := [], index := [] }
  let names := (sortPartitionsByNsKey ((st.get ns).disk.map Prod.fst)).filter
    (fun p => _is_partition_allowed st p)
  go names st
where go : List String → IStore → (Except Err Unit) × IStore
  | [], st => (.ok (), st)
  | partition :: rest, st =>
      let (rows, st) := _read_partition st ns partition
      match refreshFoldI ns partition rows 0 (st.get ns).index with
      | (.error e, index) =>
          (.error e, st.put ns { st.get ns with index := index })
      | (.ok _, index) => go rest (st.put ns { st.get ns with index := index })

/-- info_store.py `InfoStore.refresh_index`: all three namespaces in order;
an error leaves the partially rebuilt state, as the raising Python method
would. -/
def refresh_index (st : IStore) : (Except Err Unit) × IStore :=
  match refreshNs st .url with
  | (.error e, st) => (.error e, st)
  | (.ok _, st) =>
      match refreshNs st .upload with
      | (.error e, st) => (.error e, st)
      | (.ok _, st) => refreshNs st .pdf

/-- Index fold of `InfoStore._reindex_partition`: conflicts only against
keys living in a different partition. -/
def reindexFoldI (ns : Ns) (partition : String) : List Row → Nat →
    List (String × RecordLocation) → (Except Err Unit) × List (String × RecordLocation)
  | [], _, index => (.ok (), index)
  | row :: rest, idx, index =>
      let key := _row_key row
      if key = "" then reindexFoldI ns partition rest (idx + 1) index
      else
        match alistGet index key with
        | some existing =>
            if existing.partition ≠ partition then
              (.error (.duplicateUniqueCode
                ("Duplicate record_key=" ++ key ++ " in " ++ nsName ns ++ " partitions " ++
                 existing.partition ++ " and " ++ partition)), index)
            else reindexFoldI ns partition rest (idx + 1) (alistSet index key ⟨partition, idx⟩)
        | none => reindexFoldI ns partition rest (idx + 1) (alistSet index key ⟨partition, idx⟩)

/-- info_store.py `InfoStore._reindex_partition`. -/
def _reindex_partition (st : IStore) (ns : Ns) (partition : String) :
    (Except Err Unit) × IStore :=
  let nsSt := st.get ns
  let st := st.put ns { nsSt with index := nsSt.index.filter (fun kv => kv.2.partition ≠ partition) }
  let (rows, st) := _read_partition st ns partition
  match reindexFoldI ns partition rows 0 (st.get ns).index with
  | (r, index) => (r, st.put ns { st.get ns with index := index })

/-- info_store.py `InfoStore._find_row` (`_deepcopy_obj` is the identity on
embedded values). -/
def _find_row (st : IStore) (ns : Ns) (record_key : String) : Option Row × IStore :=
  match alistGet (st.get ns).index record_key with
  | none => (none, st)
  | some location =>
      let (rows, st) := _read_partition st ns location.partition
      (rows.get? location.index, st)

/-- info_store.py `InfoStore._default_url_row`. -/
def _default_url_row (record_key now_text crawl_date run_type : String) : Row :=
  [("record_key", .str record_key),
   ("unique_code", .str record_key),
   ("title", .str ""),
   ("department_name", .str ""),
   ("department_code", .str "unknown"),
   ("gr_date", .str ""),
   ("source_url", .str ""),
   ("first_seen_crawl_date", .str crawl_date),
   ("last_seen_crawl_date", .str crawl_date),
   ("first_seen_run_type", .str run_type),
   ("created_at_utc", .str now_text),
   ("updated_at_utc", .str now_text)]

/-- info_store.py `InfoStore._default_upload_row`. -/
def _default_upload_row (record_key now_text : String) : Row :=
  [("record_key", .str record_key),
   ("state", .str "FETCHED"),
   ("download", .dict [("status", .str "not_attempted"), ("error", .str ""),
                       ("attempts", .int 0)]),
   ("wayback", .dict [("status", .str "not_attempted"), ("url", .str ""),
                      ("content_url", .str ""), ("archive_time", .str ""),
                      ("archive_sha1", .str ""), ("archive_length", .null),
                      ("archive_mimetype", .str ""), ("archive_status_code", .str ""),
                      ("error", .str ""), ("attempts", .int 0)]),
   ("archive", .dict [("status", .str "not_attempted"), ("identifier", .str ""),
                      ("url", .str ""), ("error", .str ""), ("attempts", .int 0)]),
   ("hf", .dict [("status", .str "not_attempted"), ("path", .null), ("hash", .null),
                 ("backend", .null), ("commit_hash", .null), ("error", .null),
                 ("synced_at_utc", .null), ("attempts", .int 0)]),
   ("created_at_utc", .str now_text),
   ("updated_at_utc", .str now_text)]

/-- Mutable and immutable identity fields of `_apply_url_patch`. -/
def urlMutableFields : List String :=
  ["title", "department_name", "department_code", "gr_date", "source_url",
   "last_seen_crawl_date"]

def urlImmutableFields : List String :=
  ["record_key", "unique_code", "created_at_utc", "first_seen_crawl_date",
   "first_seen_run_type"]

/-- The guard `existing not in (None, "", value)` of `_apply_url_patch`. -/
def urlImmutableOk (target : Row) (key : String) (value : Val) : Bool :=
  match alistGet target key with
  | none => true
  | some .null => true
  | some ex => pyEqV ex (.str "") || pyEqV ex value

/-- info_store.py `InfoStore._apply_url_patch`: immutable identity fields may
never change to a different value on update (and are not written at all on
update), mutable fields are set when the patch value is not null. -/
def _apply_url_patch (target incoming : Row) (is_insert : Bool) : Except Err Row :=
  go target incoming
where go : Row → Row → Except Err Row
  | target, [] => .ok target
  | target, (key, value) :: rest =>
      if urlImmutableFields.contains key ∧ ¬ is_insert then
        if urlImmutableOk target key value then go target rest
        else .error (.immutableFieldUpdate ("Cannot change immutable field: " ++ key))
      else if urlMutableFields.contains key ∧ value ≠ .null then
        go (alistSet target key value) rest
      else go target rest

/-- The `(download, wayback, archive)` stage tuple of info_store.py. -/
def REQUIRED_UPLOAD_STAGE_OBJECTS : List String := ["download", "wayback", "archive"]

/-- Attempt-count transfer for one ordinary stage in `_apply_upload_patch`:
`stage_obj["attempts"] = _to_int(attempts.get(stage), _to_int(stage_obj.get("attempts"), 0))`
on the dict obtained by `target.setdefault(stage, {})`, skipped when a
non-dict value occupies the slot. -/
def applyAttemptCountsStage (target attempts : Row) (stage : String) : Row :=
  match alistGet target stage with
  | some (.dict so) =>
      let fallback := _to_int (dictGetD so "attempts" .null) 0
      alistSet target stage
        (.dict (alistSet so "attempts" (.int (_to_int (dictGetD attempts stage .null) fallback))))
  | some _ => target
  | none =>
      alistSet target stage
        (.dict (alistSet [] "attempts" (.int (_to_int (dictGetD attempts stage .null) 0))))

/-- Attempt-count transfer for the `hf` stage (with the `lfs` fallback key). -/
def applyAttemptCountsHf (target attempts : Row) : Row :=
  let write := fun (hf : Row) =>
    let fallback := _to_int (dictGetD hf "attempts" .null) 0
    let hf_stage_value :=
      match alistGet attempts "hf" with
      | some v => v
      | none =>
          match alistGet attempts "lfs" with
          | some v => v
          | none => dictGetD hf "attempts" (.int 0)
    alistSet target "hf" (.dict (alistSet hf "attempts" (.int (_to_int hf_stage_value fallback))))
  match alistGet target "hf" with
  | some (.dict hf) => write hf
  | some _ => target
  | none => write []

/-- Stage sub-dict merge of `_apply_upload_patch`: copy every key of the
patch's stage dict into `target.setdefault(stage, {})`. -/
def mergeStageDict (target incoming : Row) (stage : String) : Row :=
  match alistGet incoming stage with
  | some (.dict value) =>
      (match alistGet target stage with
       | some (.dict so) =>
           alistSet target stage (.dict (value.foldl (fun acc kv => alistSet acc kv.1 kv.2) so))
       | some _ => target
       | none =>
           alistSet target stage (.dict (value.foldl (fun acc kv => alistSet acc kv.1 kv.2) [])))
  | _ => target

/-- `lfs_path` compatibility branch of `_apply_upload_patch`. -/
def applyLfsPath (target incoming : Row) (now_text : String) : Row :=
  if ¬ alistHas incoming "lfs_path" then target
  else
    let write := fun (hf : Row) =>
      let path_value := (alistGet incoming "lfs_path").getD .null
      let normalized := if path_value ≠ .null then _normalize_text path_value else ""
      let hf := alistSet hf "path" (if normalized ≠ "" then .str normalized else .null)
      let pathTruthy := pyTruthy (dictGetD hf "path" .null)
      let hf := alistSet hf "status" (if pathTruthy then .str "success" else .str "not_attempted")
      let hf := alistSet hf "synced_at_utc" (if pathTruthy then .str now_text else .null)
      alistSet target "hf" (.dict hf)
    match alistGet target "hf" with
    | some (.dict hf) => write hf
    | some _ => target
    | none => write []

/-- info_store.py `InfoStore._apply_upload_patch` (never raises). -/
def _apply_upload_patch (target incoming : Row) (now_text : String) : Row :=
  let target :=
    match alistGet incoming "state" with
    | some v =>
        if v ≠ .null then
          let t := _normalize_text v
          alistSet target "state"
            (if t ≠ "" then .str t else dictGetD target "state" (.str "FETCHED"))
        else target
    | none => target
  let target :=
    match alistGet incoming "attempt_counts" with
    | some (.dict attempts) =>
        let target := REQUIRED_UPLOAD_STAGE_OBJECTS.foldl
          (fun acc stage => applyAttemptCountsStage acc attempts stage) target
        applyAttemptCountsHf target attempts
    | _ => target
  let target := ["download", "wayback", "archive", "hf"].foldl
    (fun acc stage => mergeStageDict acc incoming stage) target
  applyLfsPath target incoming now_text

/-- info_store.py `InfoStore._has_upload_patch`. -/
def _has_upload_patch (record : Row) : Bool :=
  ["state", "download", "wayback", "archive", "hf", "lfs_path", "attempt_counts"].any
    (fun key => alistHas record key)

/-- info_store.py `InfoStore._pdf_row_from_pdf_info` (its `updated_at`
parameter is unused in the source and omitted here). -/
def _pdf_row_from_pdf_info (record_key : String) (pdf_info : Val)
    (now_text created_at : String) : Row :=
  let _ := now_text
  let base : Row :=
    [("record_key", .str record_key), ("status", .str "not_attempted"),
     ("created_at_utc", .str created_at)]
  match pdf_info with
  | .dict info =>
      let status :=
        let t := _normalize_text (dictGetD info "status" .null)
        if t ≠ "" then t else "not_attempted"
      if status = "not_attempted" then base
      else
        let row := alistSet base "status" (.str status)
        let row := alistSet row "error" (dictGetD info "error" .null)
        ["file_size", "page_count", "pages_with_images", "has_any_page_image",
         "total_font_count", "fonts", "unresolved_word_count", "language"].foldl
          (fun acc key => alistSet acc key (dictGetD info key .null)) row
  | _ => base

/-- info_store.py `InfoStore._merge_record`: compose the unified read model
from the three namespace rows.  `now_text` stands for the `utc_now_text()`
fallback used when the url row has no usable `updated_at_utc`. -/
def _merge_record (record_key : String) (url_row : Row) (upload_row pdf_row : Option Row)
    (now_text : String) : Row :=
  let row := url_row
  let row := alistSet row "record_key" (.str record_key)
  let row := alistSet row "unique_code"
    (.str (let t := _normalize_text (dictGetD url_row "unique_code" .null)
           if t ≠ "" then t else record_key))
  let upload_row :=
    match upload_row with
    | none =>
        _default_upload_row record_key
          (let t := _normalize_text (dictGetD url_row "updated_at_utc" .null)
           if t ≠ "" then t else now_text)
    | some u => u
  let state :=
    let t := _normalize_text (dictGetD upload_row "state" .null)
    if t ≠ "" then t else "FETCHED"
  let download := match alistGet upload_row "download" with
    | some (.dict d) => d
    | _ => []
  let wayback := match alistGet upload_row "wayback" with
    | some (.dict d) => d
    | _ => []
  let archive := match alistGet upload_row "archive" with
    | some (.dict d) => d
    | _ => []
  let hf := match alistGet upload_row "hf" with
    | some (.dict d) => d
    | _ => []
  let download :=
    if ¬ alistHas download "path" then
      alistSet download "path"
        (match alistGet hf "path" with
         | some (.str p) => .str p
         | _ => .str "")
    else download
  let download :=
    if ¬ alistHas download "hash" then
      alistSet download "hash"
        (match alistGet hf "hash" with
         | some (.str h) => .str h
         | _ => .str "")
    else download
  let download := if ¬ alistHas download "size" then alistSet download "size" .null else download
  let row := alistSet row "state" (.str state)
  let row := alistSet row "download" (.dict download)
  let row := alistSet row "wayback" (.dict wayback)
  let row := alistSet row "archive" (.dict archive)
  let row := alistSet row "hf" (.dict hf)
  let row := alistSet row "lfs_path"
    (match alistGet hf "path" with
     | some (.str p) => if pyStrip p ≠ "" then .str p else .null
     | _ => .null)
  let row := alistSet row "attempt_counts"
    (.dict [("download", .int (_to_int (dictGetD download "attempts" .null) 0)),
            ("wayback", .int (_to_int (dictGetD wayback "attempts" .null) 0)),
            ("archive", .int (_to_int (dictGetD archive "attempts" .null) 0))])
  match pdf_row with
  | none => alistSet row "pdf_info" (.dict [("status", .str "not_attempted")])
  | some pdf =>
      let status :=
        let t := _normalize_text (dictGetD pdf "status" .null)
        if t ≠ "" then t else "not_attempted"
      if status = "not_attempted" then
        alistSet row "pdf_info" (.dict [("status", .str "not_attempted")])
      else
        alistSet row "pdf_info"
          (.dict [("status", .str status),
                  ("error", dictGetD pdf "error" .null),
                  ("file_size", dictGetD pdf "file_size" .null),
                  ("page_count", dictGetD pdf "page_count" .null),
                  ("pages_with_images", dictGetD pdf "pages_with_images" .null),
                  ("has_any_page_image", dictGetD pdf "has_any_page_image" .null),
                  ("total_font_count", dictGetD pdf "total_font_count" .null),
                  ("fonts", dictGetD pdf "fonts" .null),
                  ("unresolved_word_count", dictGetD pdf "unresolved_word_count" .null),
                  ("language", dictGetD pdf "language" .null)])

/-- info_store.py `InfoStore.find`. -/
def find (st : IStore) (unique_code : String) (now_text : String) : Option Row × IStore :=
  let record_key := _normalize_text (.str unique_code)
  if record_key = "" then (none, st)
  else
    match _find_row st .url record_key with
    | (none, st) => (none, st)
    | (some url_row, st) =>
        let (upload_row, st) := _find_row st .upload record_key
        let (pdf_row, st) := _find_row st .pdf record_key
        (some (_merge_record record_key url_row upload_row pdf_row now_text), st)

/-- Keys of one namespace index sorted as Python `sorted(...)`. -/
def sortedIndexKeys (index : List (String × RecordLocation)) : List String :=
  stableSort strLt (index.map Prod.fst)

/-- info_store.py `InfoStore.iter_records`. -/
def iter_records (st : IStore) (now_text : String) : List Row × IStore :=
  go (sortedIndexKeys (st.get .url).index) st
where go : List String → IStore → List Row × IStore
  | [], st => ([], st)
  | key :: rest, st =>
      match find st key now_text with
      | (none, st) => go rest st
      | (some found, st) =>
          match go rest st with
          | (records, st) => (found :: records, st)

end InfoStore

namespace InfoStore

/-- Cache-entry assignment: Python mutates the cached row list in place
(`url_rows[i] = ...`, `rows.append(...)`), which is visible through
`_partition_cache` without touching the disk file. -/
def cacheSet (st : IStore) (ns : Ns) (partition : String) (rows : List Row) : IStore :=
  st.put ns { st.get ns with cache := alistSet (st.get ns).cache partition rows }

/-- Direct index assignment (`self._index[ns][record_key] = RecordLocation(...)`). -/
def indexSet (st : IStore) (ns : Ns) (record_key : String) (loc : RecordLocation) : IStore :=
  st.put ns { st.get ns with index := alistSet (st.get ns).index record_key loc }

/-- info_store.py `InfoStore._upsert_namespace_row`. -/
def _upsert_namespace_row (st : IStore) (ns : Ns) (record_key partition : String) (row : Row) :
    (Except Err Unit) × IStore :=
  match alistGet (st.get ns).index record_key with
  | none =>
      let (rows, st) := _read_partition st ns partition
      let rows := sortRowsByRowKey (rows ++ [row])
      let st := _write_partition st ns partition rows
      _reindex_partition st ns partition
  | some loc =>
      if loc.partition = partition then
        let (rows, st) := _read_partition st ns partition
        let rows := sortRowsByRowKey (listSetAt rows loc.index row)
        let st := _write_partition st ns partition rows
        _reindex_partition st ns partition
      else
        let (source_rows, st) := _read_partition st ns loc.partition
        let source_rows := source_rows.filter (fun item => _row_key item ≠ record_key)
        let st := _write_partition st ns loc.partition source_rows
        match _reindex_partition st ns loc.partition with
        | (.error e, st) => (.error e, st)
        | (.ok _, st) =>
            let (target_rows, st) := _read_partition st ns partition
            let target_rows := target_rows.filter (fun item => _row_key item ≠ record_key)
            let target_rows := sortRowsByRowKey (target_rows ++ [row])
            let st := _write_partition st ns partition target_rows
            _reindex_partition st ns partition

/-- Key resolution `record.get("record_key") or record.get("unique_code")`
fed through `_normalize_text`. -/
def patchRecordKey (record : Row) : String :=
  let rk := dictGetD record "record_key" .null
  _normalize_text (if pyTruthy rk then rk else dictGetD record "unique_code" .null)

/-- info_store.py `InfoStore.insert`. -/
def insert (st : IStore) (record : Row) (run_type crawl_date : Option String)
    (now_text today_text : String) : (Except Err UpsertResult) × IStore :=
  let record_key := patchRecordKey record
  if record_key = "" then
    (.error (.valueError "insert requires record_key/unique_code"), st)
  else if alistHas (st.get .url).index record_key then
    (.error (.duplicateUniqueCode ("Record already exists: " ++ record_key)), st)
  else
    let normalized_run_type := normalize_run_type run_type
    let normalized_crawl_date := normalize_crawl_date crawl_date today_text
    match _apply_url_patch
        (_default_url_row record_key now_text normalized_crawl_date normalized_run_type)
        record true with
    | .error e => (.error e, st)
    | .ok url_row =>
        let partition := partition_for_gr_date (dictGetD url_row "gr_date" .null)
        match _upsert_namespace_row st .url record_key partition url_row with
        | (.error e, st) => (.error e, st)
        | (.ok _, st) =>
            let afterUpload :=
              if _has_upload_patch record then
                let upload_row :=
                  _apply_upload_patch (_default_upload_row record_key now_text) record now_text
                _upsert_namespace_row st .upload record_key partition upload_row
              else (.ok (), st)
            match afterUpload with
            | (.error e, st) => (.error e, st)
            | (.ok _, st) =>
                let afterPdf :=
                  if alistHas record "pdf_info" then
                    let pdf_row := _pdf_row_from_pdf_info record_key
                      ((alistGet record "pdf_info").getD .null) now_text
                      (pyStr (dictGetD url_row "created_at_utc" (.str now_text)))
                    _upsert_namespace_row st .pdf record_key partition pdf_row
                  else (.ok (), st)
                match afterPdf with
                | (.error e, st) => (.error e, st)
                | (.ok _, st) => (.ok ⟨"inserted", partition, record_key⟩, st)

/-- info_store.py `InfoStore.upsert`. -/
def upsert (st : IStore) (record : Row) (run_type crawl_date : Option String)
    (now_text today_text : String) : (Except Err UpsertResult) × IStore :=
  let record_key := patchRecordKey record
  if record_key = "" then
    (.error (.valueError "upsert requires record_key/unique_code"), st)
  else
    let normalized_run_type := normalize_run_type run_type
    let normalized_crawl_date := normalize_crawl_date crawl_date today_text
    match _find_row st .url record_key with
    | (none, st) =>
        match _apply_url_patch
            (_default_url_row record_key now_text normalized_crawl_date normalized_run_type)
            record true with
        | .error e => (.error e, st)
        | .ok url_row =>
            let partition := partition_for_gr_date (dictGetD url_row "gr_date" .null)
            match _upsert_namespace_row st .url record_key partition url_row with
            | (.error e, st) => (.error e, st)
            | (.ok _, st) =>
                let afterUpload :=
                  if _has_upload_patch record then
                    let upload_row :=
                      _apply_upload_patch (_default_upload_row record_key now_text) record now_text
                    _upsert_namespace_row st .upload record_key partition upload_row
                  else (.ok (), st)
                match afterUpload with
                | (.error e, st) => (.error e, st)
                | (.ok _, st) =>
                    let afterPdf :=
                      if alistHas record "pdf_info" then
                        let pdf_row := _pdf_row_from_pdf_info record_key
                          ((alistGet record "pdf_info").getD .null) now_text
                          (pyStr (dictGetD url_row "created_at_utc" (.str now_text)))
                        _upsert_namespace_row st .pdf record_key partition pdf_row
                      else (.ok (), st)
                    match afterPdf with
                    | (.error e, st) => (.error e, st)
                    | (.ok _, st) => (.ok ⟨"inserted", partition, record_key⟩, st)
    | (some existing_url, st) =>
        match _apply_url_patch existing_url record false with
        | .error e => (.error e, st)
        | .ok url_row =>
            let url_row :=
              if normalized_run_type = "monthly" then
                let existing_last_seen :=
                  _normalize_text (dictGetD url_row "last_seen_crawl_date" .null)
                if normalized_crawl_date ≠ "" ∧
                    (existing_last_seen = "" ∨ strLt existing_last_seen normalized_crawl_date) then
                  alistSet url_row "last_seen_crawl_date" (.str normalized_crawl_date)
                else url_row
              else url_row
            let target_partition := partition_for_gr_date (dictGetD url_row "gr_date" .null)
            match _upsert_namespace_row st .url record_key target_partition url_row with
            | (.error e, st) => (.error e, st)
            | (.ok _, st) =>
                let (upload_row, st) := _find_row st .upload record_key
                let afterUpload :=
                  if _has_upload_patch record ∨ upload_row ≠ none then
                    let upload_row :=
                      _apply_upload_patch (upload_row.getD (_default_upload_row record_key now_text))
                        record now_text
                    _upsert_namespace_row st .upload record_key target_partition upload_row
                  else (.ok (), st)
                match afterUpload with
                | (.error e, st) => (.error e, st)
                | (.ok _, st) =>
                    if alistHas record "pdf_info" then
                      let (current_pdf, st) := _find_row st .pdf record_key
                      let created_at :=
                        let t := _normalize_text (dictGetD (current_pdf.getD []) "created_at_utc" .null)
                        if t ≠ "" then t
                        else
                          let t2 := _normalize_text (dictGetD url_row "created_at_utc" .null)
                          if t2 ≠ "" then t2 else now_text
                      let pdf_row := _pdf_row_from_pdf_info record_key
                        ((alistGet record "pdf_info").getD .null) now_text created_at
                      match _upsert_namespace_row st .pdf record_key target_partition pdf_row with
                      | (.error e, st) => (.error e, st)
                      | (.ok _, st) => (.ok ⟨"updated", target_partition, record_key⟩, st)
                    else
                      let (current_pdf, st) := _find_row st .pdf record_key
                      match current_pdf with
                      | some pdf =>
                          (match _upsert_namespace_row st .pdf record_key target_partition pdf with
                           | (.error e, st) => (.error e, st)
                           | (.ok _, st) => (.ok ⟨"updated", target_partition, record_key⟩, st))
                      | none => (.ok ⟨"updated", target_partition, record_key⟩, st)

/-- Add to the `touched_partitions` set. -/
def addTouched (touched : List (Ns × String)) (entry : Ns × String) : List (Ns × String) :=
  if touched.contains entry then touched else touched ++ [entry]

/-- `sorted(touched_partitions)`: Python sorts the (namespace-string,
partition) tuples. -/
def sortTouched (touched : List (Ns × String)) : List (Ns × String) :=
  stableSort (fun a b =>
    strLt (nsName a.1) (nsName b.1) ||
    (nsName a.1 == nsName b.1 && strLt a.2 b.2)) touched

/-- Stage one patch of `update_many` against the in-memory working set
(cache and index mutations only — the disk is untouched until the commit
loop).  Mirrors the body of the `for record in records` loop. -/
def stageRecord (st : IStore) (record : Row)
    (normalized_run_type normalized_crawl_date now_text : String)
    (touched : List (Ns × String)) :
    (Except Err UpsertResult) × IStore × List (Ns × String) :=
  let record_key := patchRecordKey record
  if record_key = "" then
    (.error (.valueError "update_many requires record_key/unique_code for every record"),
     st, touched)
  else
    match alistGet (st.get .url).index record_key with
    | none => (.error (.recordNotFound ("Record not found: " ++ record_key)), st, touched)
    | some url_loc =>
        let (url_rows, st) := _read_partition st .url url_loc.partition
        if url_loc.index ≥ url_rows.length then
          (.error (.recordNotFound ("Record not found in URL partition index: " ++ record_key)),
           st, touched)
        else
          let current_url_row := (url_rows.get? url_loc.index).getD []
          if _row_key current_url_row ≠ record_key then
            (.error (.recordNotFound ("URL index mismatch for record_key=" ++ record_key)),
             st, touched)
          else
            match _apply_url_patch current_url_row record false with
            | .error e => (.error e, st, touched)
            | .ok url_row =>
                let url_row :=
                  if normalized_run_type = "monthly" then
                    let existing_last_seen :=
                      _normalize_text (dictGetD url_row "last_seen_crawl_date" .null)
                    if normalized_crawl_date ≠ "" ∧
                        (existing_last_seen = "" ∨
                         strLt existing_last_seen normalized_crawl_date) then
                      alistSet url_row "last_seen_crawl_date" (.str normalized_crawl_date)
                    else url_row
                  else url_row
                let target_partition := partition_for_gr_date (dictGetD url_row "gr_date" .null)
                if target_partition ≠ url_loc.partition then
                  (.error (.invalidTransition
                    ("update_many does not support repartition. record_key=" ++ record_key ++
                     " current_partition=" ++ url_loc.partition ++
                     " target_partition=" ++ target_partition)), st, touched)
                else
                  let st := cacheSet st .url url_loc.partition
                    (listSetAt url_rows url_loc.index url_row)
                  let touched := addTouched touched (.url, target_partition)
                  stageUpload st record record_key url_row target_partition
                    now_text touched
where
  stageUpload (st : IStore) (record : Row) (record_key : String) (url_row : Row)
      (target_partition now_text : String) (touched : List (Ns × String)) :
      (Except Err UpsertResult) × IStore × List (Ns × String) :=
    let has_upload_patch := _has_upload_patch record
    match alistGet (st.get .upload).index record_key with
    | some upload_loc =>
        if upload_loc.partition ≠ target_partition then
          (.error (.invalidTransition
            ("update_many does not support upload repartition. record_key=" ++ record_key ++
             " upload_partition=" ++ upload_loc.partition ++
             " target_partition=" ++ target_partition)), st, touched)
        else
          let (upload_rows, st) := _read_partition st .upload upload_loc.partition
          if upload_loc.index ≥ upload_rows.length then
            (.error (.recordNotFound
              ("Record not found in upload partition index: " ++ record_key)), st, touched)
          else
            let current_upload_row := (upload_rows.get? upload_loc.index).getD []
            if _row_key current_upload_row ≠ record_key then
              (.error (.recordNotFound ("Upload index mismatch for record_key=" ++ record_key)),
               st, touched)
            else
              let upload_row := _apply_upload_patch current_upload_row record now_text
              let st := cacheSet st .upload upload_loc.partition
                (listSetAt upload_rows upload_loc.index upload_row)
              let touched := addTouched touched (.upload, target_partition)
              stagePdf st record record_key url_row target_partition now_text touched
    | none =>
        if has_upload_patch then
          let upload_row := _apply_upload_patch (_default_upload_row record_key now_text)
            record now_text
          let (upload_rows, st) := _read_partition st .upload target_partition
          let st := cacheSet st .upload target_partition (upload_rows ++ [upload_row])
          let st := indexSet st .upload record_key ⟨target_partition, upload_rows.length⟩
          let touched := addTouched touched (.upload, target_partition)
          stagePdf st record record_key url_row target_partition now_text touched
        else stagePdf st record record_key url_row target_partition now_text touched
  stagePdf (st : IStore) (record : Row) (record_key : String) (url_row : Row)
      (target_partition now_text : String) (touched : List (Ns × String)) :
      (Except Err UpsertResult) × IStore × List (Ns × String) :=
    if alistHas record "pdf_info" then
      let created_at0 :=
        let t := _normalize_text (dictGetD url_row "created_at_utc" .null)
        if t ≠ "" then t else now_text
      match alistGet (st.get .pdf).index record_key with
      | none =>
          let pdf_row := _pdf_row_from_pdf_info record_key
            ((alistGet record "pdf_info").getD .null) now_text created_at0
          let (pdf_rows, st) := _read_partition st .pdf target_partition
          let st := cacheSet st .pdf target_partition (pdf_rows ++ [pdf_row])
          let st := indexSet st .pdf record_key ⟨target_partition, pdf_rows.length⟩
          let touched := addTouched touched (.pdf, target_partition)
          (.ok ⟨"updated", target_partition, record_key⟩, st, touched)
      | some pdf_loc =>
          if pdf_loc.partition ≠ target_partition then
            (.error (.invalidTransition
              ("update_many does not support pdf repartition. record_key=" ++ record_key ++
               " pdf_partition=" ++ pdf_loc.partition ++
               " target_partition=" ++ target_partition)), st, touched)
          else
            let (pdf_rows, st) := _read_partition st .pdf pdf_loc.partition
            if pdf_loc.index ≥ pdf_rows.length then
              (.error (.recordNotFound
                ("Record not found in pdf partition index: " ++ record_key)), st, touched)
            else
              let current_pdf_row := (pdf_rows.get? pdf_loc.index).getD []
              if _row_key current_pdf_row ≠ record_key then
                (.error (.recordNotFound ("PDF index mismatch for record_key=" ++ record_key)),
                 st, touched)
              else
                let created_at :=
                  let t := _normalize_text (dictGetD current_pdf_row "created_at_utc" .null)
                  if t ≠ "" then t else created_at0
                let pdf_row := _pdf_row_from_pdf_info record_key
                  ((alistGet record "pdf_info").getD .null) now_text created_at
                let st := cacheSet st .pdf pdf_loc.partition
                  (listSetAt pdf_rows pdf_loc.index pdf_row)
                let touched := addTouched touched (.pdf, target_partition)
                (.ok ⟨"updated", target_partition, record_key⟩, st, touched)
    else
      match alistGet (st.get .pdf).index record_key with
      | some current_pdf_loc =>
          if current_pdf_loc.partition ≠ target_partition then
            (.error (.invalidTransition
              ("update_many does not support pdf repartition without pdf_info patch. " ++
               "record_key=" ++ record_key ++ " pdf_partition=" ++ current_pdf_loc.partition ++
               " target_partition=" ++ target_partition)), st, touched)
          else (.ok ⟨"updated", target_partition, record_key⟩, st, touched)
      | none => (.ok ⟨"updated", target_partition, record_key⟩, st, touched)

/-- The staging loop of `update_many`. -/
def stageAll (st : IStore) (records : List Row)
    (normalized_run_type normalized_crawl_date now_text : String)
    (touched : List (Ns × String)) (results : List UpsertResult) :
    (Except Err (List UpsertResult)) × IStore × List (Ns × String) :=
  match records with
  | [] => (.ok results.reverse, st, touched)
  | record :: rest =>
      match stageRecord st record normalized_run_type normalized_crawl_date now_text touched with
      | (.error e, st, touched) => (.error e, st, touched)
      | (.ok result, st, touched) =>
          stageAll st rest normalized_run_type normalized_crawl_date now_text touched
            (result :: results)

/-- The commit loop of `update_many`: persist every touched partition from
the staged cache. -/
def commitTouched (st : IStore) : List (Ns × String) → IStore
  | [] => st
  | (ns, partition) :: rest =>
      let (rows, st) := _read_partition st ns partition
      commitTouched (_write_partition st ns partition rows) rest

/-- info_store.py `InfoStore.update_many`: stage all patches against the
in-memory working set, persist touched partitions only when every patch
validated; on any error rebuild index and cache from disk and re-raise
(an error during the rebuild itself would propagate instead, as in Python). -/
def update_many (st : IStore) (records : List Row) (run_type crawl_date : Option String)
    (now_text today_text : String) : (Except Err (List UpsertResult)) × IStore :=
  match records with
  | [] => (.ok [], st)
  | _ =>
      let normalized_run_type := normalize_run_type run_type
      let normalized_crawl_date := normalize_crawl_date crawl_date today_text
      match stageAll st records normalized_run_type normalized_crawl_date now_text [] [] with
      | (.error e, st, _) =>
          (match refresh_index st with
           | (.ok _, st) => (.error e, st)
           | (.error e2, st) => (.error e2, st))
      | (.ok results, st, touched) => (.ok results, commitTouched st (sortTouched touched))

/-- info_store.py `InfoStore.update` (delegates to `update_many`). -/
def update (st : IStore) (record : Row) (run_type crawl_date : Option String)
    (now_text today_text : String) : (Except Err UpsertResult) × IStore :=
  match update_many st [record] run_type crawl_date now_text today_text with
  | (.error e, st) => (.error e, st)
  | (.ok [], st) => (.error (.valueError "update requires one record"), st)
  | (.ok (r :: _), st) => (.ok r, st)

end InfoStore

namespace InfoStore

/-- Failure-message fallback
`error or _normalize_text(metadata.get("error")) or default`. -/
def stageErrorText (error : String) (metadata : Row) (dflt : String) : String :=
  if error ≠ "" then error
  else
    let m := _normalize_text (dictGetD metadata "error" .null)
    if m ≠ "" then m else dflt

/-- The `hf` bookkeeping of a successful download in
`InfoStore.apply_stage_result` (`upload_row.setdefault("hf", {})` then
conditional path/hash updates). -/
def applyDownloadHf (upload_row : Row) (metadata : Row) (now_text : String) : Row :=
  let write := fun (hf : Row) =>
    let hf :=
      if alistHas metadata "path" then
        let path_value := _normalize_text (dictGetD metadata "path" .null)
        let hf := alistSet hf "path" (if path_value ≠ "" then .str path_value else .null)
        let pathTruthy := pyTruthy (dictGetD hf "path" .null)
        let hf := alistSet hf "status"
          (if pathTruthy then .str "success" else dictGetD hf "status" (.str "not_attempted"))
        alistSet hf "synced_at_utc"
          (if pathTruthy then .str now_text else dictGetD hf "synced_at_utc" .null)
      else hf
    let hf :=
      if alistHas metadata "hash" then
        let hash_text := _normalize_text (dictGetD metadata "hash" .null)
        alistSet hf "hash" (if hash_text ≠ "" then .str hash_text else .null)
      else hf
    alistSet upload_row "hf" (.dict hf)
  match alistGet upload_row "hf" with
  | some (.dict hf) => write hf
  | some _ => upload_row
  | none => write []

/-- info_store.py `InfoStore.apply_stage_result`.  The final two statements
of the source —
`StateMachine.validate_transition(current_state, next_state)` and
`upload_row["state"] = next_state` — are commented out in the code
(info_store.py lines 890-891): the next state is computed and then
discarded, so the persisted row keeps its previous `state`.  This model
reproduces that faithfully (the computation only surfaces errors that
`next_state_for_stage` itself raises). -/
def apply_stage_result (st : IStore) (unique_code stage : String) (success : Bool)
    (metadata : Row) (error : String) (has_document : Bool)
    (has_wayback_url : Option Bool) (now_text : String) :
    (Except Err UpsertResult) × IStore :=
  let record_key := _normalize_text (.str unique_code)
  match find st record_key now_text with
  | (none, st) => (.error (.recordNotFound ("Record not found: " ++ record_key)), st)
  | (some existing, st) =>
      let url_partition :=
        match alistGet (st.get .url).index record_key with
        | some loc => loc.partition
        | none => ""
      let (upload_row0, st) := _find_row st .upload record_key
      let upload_row :=
        match upload_row0 with
        | some u => u
        | none =>
            let created_at :=
              let t := _normalize_text (dictGetD existing "created_at_utc" .null)
              if t ≠ "" then t else now_text
            _default_upload_row record_key created_at
      let stage_obj :=
        match alistGet upload_row stage with
        | some (.dict so) => so
        | _ => []
      let upload_row :=
        match alistGet upload_row stage with
        | some (.dict _) => upload_row
        | _ => alistSet upload_row stage (.dict [])
      let current_attempts := _to_int (dictGetD stage_obj "attempts" .null) 0
      if current_attempts ≥ 2 then
        (.error (.retryLimitExceeded
          ("Retry limit exceeded for unique_code=" ++ record_key ++ " stage=" ++ stage)), st)
      else
        let stage_obj := alistSet stage_obj "attempts" (.int (current_attempts + 1))
        let continueWith := fun (upload_row : Row) =>
          let has_wayback_url :=
            if stage = "archive" ∧ has_wayback_url = none then
              let wayback_url :=
                match dictGetD upload_row "wayback" (.dict []) with
                | .dict wayback => _normalize_text (dictGetD wayback "url" .null)
                | _ => ""
              some (wayback_url != "")
            else has_wayback_url
          let current_state :=
            let t := _normalize_text (dictGetD upload_row "state" .null)
            if t ≠ "" then t else "FETCHED"
          match StateMachine.next_state_for_stage current_state stage success
              has_wayback_url has_document with
          | .error e => (.error e, st)
          | .ok _next_state =>
              match _upsert_namespace_row st .upload record_key url_partition upload_row with
              | (.error e, st) => (.error e, st)
              | (.ok _, st) => (.ok ⟨"updated", url_partition, record_key⟩, st)
        if stage = "download" then
          if success then
            let stage_obj := alistSet stage_obj "status" (.str "success")
            let stage_obj := alistSet stage_obj "error" (.str "")
            let upload_row := alistSet upload_row stage (.dict stage_obj)
            continueWith (applyDownloadHf upload_row metadata now_text)
          else
            let stage_obj := alistSet stage_obj "status" (.str "failed")
            let stage_obj := alistSet stage_obj "error"
              (.str (stageErrorText error metadata "download_failed"))
            continueWith (alistSet upload_row stage (.dict stage_obj))
        else if stage = "wayback" then
          if success then
            let stage_obj := alistSet stage_obj "status" (.str "success")
            let stage_obj := alistSet stage_obj "error" (.str "")
            let stage_obj :=
              ["url", "content_url", "archive_time", "archive_sha1", "archive_length",
               "archive_mimetype", "archive_status_code"].foldl
                (fun so key =>
                  match alistGet metadata key with
                  | some v => alistSet so key v
                  | none => so) stage_obj
            continueWith (alistSet upload_row stage (.dict stage_obj))
          else
            let stage_obj := alistSet stage_obj "status" (.str "failed")
            let stage_obj := alistSet stage_obj "error"
              (.str (stageErrorText error metadata "wayback_upload_failed"))
            continueWith (alistSet upload_row stage (.dict stage_obj))
        else if stage = "archive" then
          if success then
            let stage_obj := alistSet stage_obj "status" (.str "success")
            let stage_obj := alistSet stage_obj "error" (.str "")
            let stage_obj :=
              ["identifier", "url"].foldl
                (fun so key =>
                  match alistGet metadata key with
                  | some v => alistSet so key v
                  | none => so) stage_obj
            continueWith (alistSet upload_row stage (.dict stage_obj))
          else
            let stage_obj := alistSet stage_obj "status" (.str "failed")
            let stage_obj := alistSet stage_obj "error"
              (.str (stageErrorText error metadata "archive_upload_failed"))
            continueWith (alistSet upload_row stage (.dict stage_obj))
        else (.error (.invalidTransition ("Unknown stage: " ++ stage)), st)

end InfoStore

/-- Distinctness of a key list (used by the store invariant). -/
def nodupBy {α : Type} [DecidableEq α] : List α → Bool
  | [] => true
  | x :: xs => ¬ xs.any (fun y => decide (y = x)) ∧ nodupBy xs

theorem alistGet_set_self {α : Type} [DecidableEq α] {β : Type}
    (l : List (α × β)) (k : α) (v : β) : alistGet (alistSet l k v) k = some v := by
  induction l with
  | nil => simp [alistGet, alistSet]
  | cons hd tl ih =>
      by_cases h : hd.1 = k
      · simp [alistSet, h, alistGet]
      · simp [alistSet, h, alistGet, ih]

theorem alistGet_set_other {α : Type} [DecidableEq α] {β : Type}
    (l : List (α × β)) (k k2 : α) (v : β) (h : k ≠ k2) :
    alistGet (alistSet l k v) k2 = alistGet l k2 := by
  induction l with
  | nil => simp [alistGet, alistSet, h]
  | cons hd tl ih =>
      by_cases h1 : hd.1 = k
      · simp [alistSet, h1, alistGet, h]
      · simp [alistSet, h1, alistGet, ih]

theorem alistGet_append {α : Type} [DecidableEq α] {β : Type}
    (l r : List (α × β)) (k : α) :
    alistGet (l ++ r) k =
      (match alistGet l k with
       | some v => some v
       | none => alistGet r k) := by
  induction l with
  | nil => simp [alistGet]
  | cons hd tl ih =>
      by_cases h : hd.1 = k
      · simp [alistGet, h]
      · simp [alistGet, h, ih]

theorem sortInsert_perm {α : Type} (lt : α → α → Bool) (x : α) :
    ∀ l : List α, List.Perm (sortInsert lt x l) (x :: l)
  | [] => List.Perm.refl _
  | y :: ys => by
      by_cases h : lt y x
      · simpa [sortInsert, h] using
          ((sortInsert_perm lt x ys).cons y).trans (List.Perm.swap x y ys)
      · simp [sortInsert, h]

theorem stableSort_perm {α : Type} (lt : α → α → Bool) :
    ∀ l : List α, List.Perm (stableSort lt l) l
  | [] => List.Perm.refl _
  | x :: xs =>
      (sortInsert_perm lt x (stableSort lt xs)).trans ((stableSort_perm lt xs).cons x)

theorem stableSort_mem {α : Type} (lt : α → α → Bool) (l : List α) (x : α) :
    x ∈ stableSort lt l ↔ x ∈ l := (stableSort_perm lt l).mem_iff

/-- Rows of one namespace partition as the disk holds them. -/
def diskRows (n : NsSt) (partition : String) : List Row :=
  (alistGet n.disk partition).getD []

/-- Spec-level row lookup: what the index points at on disk. -/
def specRowNs (n : NsSt) (k : String) : Option Row :=
  match alistGet n.index k with
  | some loc => (diskRows n loc.partition).get? loc.index
  | none => none

/-- One cache entry is consistent with the disk. -/
def wfCacheEntry (n : NsSt) (entry : String × List Row) : Bool :=
  decide (entry.2 = diskRows n entry.1)

/-- One index entry points into a cached partition at a row with that key. -/
def wfIndexEntry (n : NsSt) (entry : String × RecordLocation) : Bool :=
  (alistGet n.cache entry.2.partition).isSome &&
  (match (diskRows n entry.2.partition).get? entry.2.index with
   | some row => decide (_row_key row = entry.1)
   | none => false)

/-- Every keyed row of one disk partition is indexed at its own position. -/
def wfDiskPartition (index : List (String × RecordLocation))
    (entry : String × List Row) : Bool :=
  (List.range entry.2.length).all (fun i =>
    match entry.2.get? i with
    | some row =>
        _row_key row = "" ∨ alistGet index (_row_key row) = some ⟨entry.1, i⟩
    | none => true)

/-- Well-formedness of one namespace: the state every sequence of store
operations leaves behind — distinct partition names and keys, cache entries
mirroring the disk, the index correct (each entry points at a row with that
key, in a cached partition) and complete (every keyed row is indexed at its
position, which also forces global key uniqueness). -/
def wfNs (n : NsSt) : Bool :=
  nodupBy (n.disk.map Prod.fst) ∧
  nodupBy (n.cache.map Prod.fst) ∧
  nodupBy (n.index.map Prod.fst) ∧
  n.cache.all (wfCacheEntry n) ∧
  n.index.all (wfIndexEntry n) ∧
  n.disk.all (wfDiskPartition n.index) ∧
  n.index.all (fun entry => ¬ entry.1 = "")

/-- Well-formedness of the whole split store (the partition filter is the
default `None`: a filtered store is a deliberate partial view). -/
def wfI (st : IStore) : Bool :=
  wfNs st.url ∧ wfNs st.upload ∧ wfNs st.pdf ∧ st.partitionFilter = none

theorem alistGet_mem {α : Type} [DecidableEq α] {β : Type} :
    ∀ (l : List (α × β)) (k : α) (v : β), alistGet l k = some v → (k, v) ∈ l := by
  intro l
  induction l with
  | nil => intro k v h; simp [alistGet] at h
  | cons hd tl ih =>
      intro k v h
      by_cases h1 : hd.1 = k
      · simp [alistGet, h1] at h
        subst h1 h
        exact List.mem_cons_self _ _
      · simp [alistGet, h1] at h
        exact List.mem_cons_of_mem _ (ih k v h)

theorem wfNs_cache_eq_disk {n : NsSt} (hwf : wfNs n = true) {p : String} {rows : List Row}
    (h : alistGet n.cache p = some rows) : rows = diskRows n p := by
  simp only [wfNs, Bool.decide_and, Bool.and_eq_true, decide_eq_true_eq] at hwf
  have hmem := alistGet_mem n.cache p rows h
  have := hwf.2.2.2.1
  rw [List.all_eq_true] at this
  have h2 := this (p, rows) hmem
  simpa [wfCacheEntry] using h2

theorem wfNs_index_entry {n : NsSt} (hwf : wfNs n = true) {k : String} {loc : RecordLocation}
    (h : alistGet n.index k = some loc) :
    (alistGet n.cache loc.partition).isSome = true ∧
    (∃ row, (diskRows n loc.partition).get? loc.index = some row ∧ _row_key row = k) := by
  simp only [wfNs, Bool.decide_and, Bool.and_eq_true, decide_eq_true_eq] at hwf
  have hmem := alistGet_mem n.index k loc h
  have := hwf.2.2.2.2.1
  rw [List.all_eq_true] at this
  have h2 := this (k, loc) hmem
  simp only [wfIndexEntry, Bool.and_eq_true] at h2
  refine ⟨h2.1, ?_⟩
  rcases h3 : (diskRows n loc.partition).get? loc.index with _ | row
  · rw [h3] at h2; simp at h2
  · rw [h3] at h2
    simp only [decide_eq_true_eq] at h2
    exact ⟨row, rfl, h2.2⟩

theorem read_partition_of_cached {st : IStore} {ns : Ns} {p : String}
    (hwf : wfNs (st.get ns) = true) (h : (alistGet (st.get ns).cache p).isSome = true) :
    InfoStore._read_partition st ns p = (diskRows (st.get ns) p, st) := by
  rcases h2 : alistGet (st.get ns).cache p with _ | rows
  · rw [h2] at h; simp at h
  · have := wfNs_cache_eq_disk hwf h2
    simp [InfoStore._read_partition, h2, this]

theorem find_row_of_wf {st : IStore} {ns : Ns} (k : String)
    (hwf : wfNs (st.get ns) = true) :
    InfoStore._find_row st ns k = (specRowNs (st.get ns) k, st) := by
  rcases h : alistGet (st.get ns).index k with _ | loc
  · simp [InfoStore._find_row, specRowNs, h]
  · obtain ⟨hc, row, hrow, _⟩ := wfNs_index_entry hwf h
    simp [InfoStore._find_row, specRowNs, h, read_partition_of_cached hwf hc, hrow]

/-- Spec-level `find`: its pure value on a well-formed store. -/
def specFind (st : IStore) (unique_code now_text : String) : Option Row :=
  let record_key := _normalize_text (.str unique_code)
  if record_key = "" then none
  else
    match specRowNs (st.get .url) record_key with
    | none => none
    | some url_row =>
        some (InfoStore._merge_record record_key url_row
          (specRowNs (st.get .upload) record_key) (specRowNs (st.get .pdf) record_key) now_text)

theorem find_of_wf {st : IStore} (k now : String) (hwf : wfI st = true) :
    InfoStore.find st k now = (specFind st k now, st) := by
  simp only [wfI, Bool.decide_and, Bool.and_eq_true, decide_eq_true_eq] at hwf
  have hurl : wfNs (st.get .url) = true := hwf.1
  have hupload : wfNs (st.get .upload) = true := hwf.2.1
  have hpdf : wfNs (st.get .pdf) = true := hwf.2.2.1
  unfold InfoStore.find specFind
  by_cases h : _normalize_text (.str k) = ""
  · simp [h]
  · simp only [h, if_false]
    rw [find_row_of_wf _ hurl]
    rcases h2 : specRowNs (st.get .url) (_normalize_text (.str k)) with _ | url_row
    · rfl
    · simp only
      rw [find_row_of_wf _ hupload]
      simp only
      rw [find_row_of_wf _ hpdf]

theorem alistSet_fresh_append {α : Type} [DecidableEq α] {β : Type} :
    ∀ (l : List (α × β)) (k : α) (v : β), alistGet l k = none → alistSet l k v = l ++ [(k, v)] := by
  intro l
  induction l with
  | nil => intro k v _; rfl
  | cons hd tl ih =>
      intro k v h
      by_cases h1 : hd.1 = k
      · simp [alistGet, h1] at h
      · simp [alistGet, h1] at h
        simp [alistSet, h1, ih k v h]

theorem alistGet_of_mem_nodup {α : Type} [DecidableEq α] {β : Type} :
    ∀ (l : List (α × β)) (k : α) (v : β), (k, v) ∈ l → nodupBy (l.map Prod.fst) = true →
      alistGet l k = some v := by
  intro l
  induction l with
  | nil => intro k v h _; simp at h
  | cons hd tl ih =>
      intro k v h hnd
      simp only [nodupBy, List.map_cons, Bool.decide_and, Bool.and_eq_true,
        decide_eq_true_eq] at hnd
      rcases List.mem_cons.mp h with h1 | h1
      · rw [← h1]; simp [alistGet]
      · have hne : hd.1 ≠ k := by
          intro he
          apply hnd.1
          rw [List.any_eq_true]
          exact ⟨k, List.mem_map.mpr ⟨(k, v), h1, rfl⟩, by simp [he]⟩
        simp [alistGet, hne, ih k v h1 hnd.2]

/-- Index entries one partition's rows contribute (key, partition, offset). -/
def keyEntries (partition : String) : List Row → Nat → List (String × RecordLocation)
  | [], _ => []
  | row :: rest, idx =>
      if _row_key row = "" then keyEntries partition rest (idx + 1)
      else (_row_key row, ⟨partition, idx⟩) :: keyEntries partition rest (idx + 1)

theorem refreshFoldI_ok (ns : Ns) (partition : String) :
    ∀ (rows : List Row) (idx : Nat) (acc : List (String × RecordLocation)),
      (∀ entry ∈ keyEntries partition rows idx, alistGet acc entry.1 = none) →
      nodupBy ((keyEntries partition rows idx).map Prod.fst) = true →
      InfoStore.refreshFoldI ns partition rows idx acc =
        (.ok (), acc ++ keyEntries partition rows idx) := by
  intro rows
  induction rows with
  | nil => intro idx acc _ _; simp [InfoStore.refreshFoldI, keyEntries]
  | cons row rest ih =>
      intro idx acc hfresh hnd
      by_cases hk : _row_key row = ""
      · simp only [keyEntries, hk, if_true] at hfresh hnd ⊢
        simp only [InfoStore.refreshFoldI, hk, if_true]
        exact ih (idx + 1) acc hfresh hnd
      · simp only [keyEntries, hk, if_false] at hfresh hnd ⊢
        have hhead : alistGet acc (_row_key row) = none :=
          hfresh (_row_key row, ⟨partition, idx⟩) (List.mem_cons_self _ _)
        simp only [List.map_cons, nodupBy, Bool.decide_and, Bool.and_eq_true,
          decide_eq_true_eq] at hnd
        simp only [InfoStore.refreshFoldI, hk, if_false, hhead,
          alistSet_fresh_append acc _ _ hhead]
        have hrest : ∀ entry ∈ keyEntries partition rest (idx + 1),
            alistGet (acc ++ [(_row_key row, (⟨partition, idx⟩ : RecordLocation))]) entry.1 =
              none := by
          intro entry hmem
          rw [alistGet_append]
          rw [hfresh entry (List.mem_cons_of_mem _ hmem)]
          have hne : entry.1 ≠ _row_key row := by
            intro he
            apply hnd.1
            rw [List.any_eq_true]
            exact ⟨entry.1, List.mem_map.mpr ⟨entry, hmem, rfl⟩, by simp [he]⟩
          simp [alistGet, hne.symm]
        rw [ih (idx + 1) _ hrest hnd.2]
        simp

theorem IStore.get_put_self (st : IStore) (ns : Ns) (n : NsSt) : (st.put ns n).get ns = n := by
  cases ns <;> rfl

theorem IStore.put_put (st : IStore) (ns : Ns) (a b : NsSt) :
    (st.put ns a).put ns b = st.put ns b := by
  cases ns <;> rfl

theorem IStore.get_put_other (st : IStore) (ns ns2 : Ns) (n : NsSt) (h : ns ≠ ns2) :
    (st.put ns n).get ns2 = st.get ns2 := by
  cases ns <;> cases ns2 <;> first | rfl | exact absurd rfl h

theorem IStore.put_get_self (st : IStore) (ns : Ns) : st.put ns (st.get ns) = st := by
  cases ns <;> rfl

theorem IStore.filter_put (st : IStore) (ns : Ns) (n : NsSt) :
    (st.put ns n).partitionFilter = st.partitionFilter := by
  cases ns <;> rfl

theorem nodupBy_append {α : Type} [DecidableEq α] :
    ∀ a b : List α, nodupBy (a ++ b) = true →
      nodupBy a = true ∧ nodupBy b = true ∧ ∀ x ∈ a, x ∉ b := by
  intro a
  induction a with
  | nil => intro b h; exact ⟨rfl, h, by simp⟩
  | cons hd tl ih =>
      intro b h
      simp only [List.cons_append, nodupBy, Bool.decide_and, Bool.and_eq_true,
        decide_eq_true_eq] at h ⊢
      obtain ⟨h1, h2⟩ := h
      obtain ⟨h3, h4, h5⟩ := ih b h2
      refine ⟨⟨?_, h3⟩, h4, ?_⟩
      · intro hc
        apply h1
        rw [List.any_eq_true] at hc ⊢
        obtain ⟨x, hx, he⟩ := hc
        exact ⟨x, List.mem_append_left _ hx, he⟩
      · intro x hx hxb
        rcases List.mem_cons.mp hx with h6 | h6
        · apply h1
          rw [List.any_eq_true]
          exact ⟨x, List.mem_append_right _ hxb, by simp [h6]⟩
        · exact h5 x h6 hxb

theorem read_partition_miss {st : IStore} {ns : Ns} {p : String}
    (h : alistGet (st.get ns).cache p = none) :
    InfoStore._read_partition st ns p =
      (diskRows (st.get ns) p,
       st.put ns { st.get ns with
         cache := (st.get ns).cache ++ [(p, diskRows (st.get ns) p)] }) := by
  simp [InfoStore._read_partition, h, diskRows, alistSet_fresh_append _ _ _ h]

/-- Index entries contributed by a list of partitions, in scan order. -/
def allKeyEntries (d : List (String × List Row)) : List String → List (String × RecordLocation)
  | [] => []
  | p :: rest => keyEntries p ((alistGet d p).getD []) 0 ++ allKeyEntries d rest

theorem alistGet_eq_none_of_not_mem {α : Type} [DecidableEq α] {β : Type} :
    ∀ (l : List (α × β)) (k : α), k ∉ l.map Prod.fst → alistGet l k = none := by
  intro l
  induction l with
  | nil => intro k _; rfl
  | cons hd tl ih =>
      intro k h
      simp only [List.map_cons, List.mem_cons] at h
      push_neg at h
      have hne : ¬ hd.1 = k := fun he => h.1 he.symm
      simp [alistGet, hne, ih k h.2]

theorem refreshNs_go_ok (ns : Ns) :
    ∀ (names : List String) (st : IStore),
      nodupBy names = true →
      (∀ p ∈ names, alistGet (st.get ns).cache p = none) →
      (∀ entry ∈ allKeyEntries (st.get ns).disk names,
        alistGet (st.get ns).index entry.1 = none) →
      nodupBy ((allKeyEntries (st.get ns).disk names).map Prod.fst) = true →
      InfoStore.refreshNs.go ns names st =
        (.ok (), st.put ns { st.get ns with
          cache := (st.get ns).cache ++ names.map (fun p => (p, diskRows (st.get ns) p)),
          index := (st.get ns).index ++ allKeyEntries (st.get ns).disk names }) := by
  intro names
  induction names with
  | nil =>
      intro st _ _ _ _
      simp only [InfoStore.refreshNs.go, List.map_nil, allKeyEntries]
      rw [List.append_nil, List.append_nil, IStore.put_get_self]
  | cons p rest ih =>
      intro st hnd hcache hidx hidxnd
      simp only [nodupBy, Bool.decide_and, Bool.and_eq_true, decide_eq_true_eq] at hnd
      have hmiss := hcache p (List.mem_cons_self _ _)
      simp only [InfoStore.refreshNs.go]
      rw [read_partition_miss hmiss]
      simp only [allKeyEntries] at hidx hidxnd
      rw [List.map_append] at hidxnd
      obtain ⟨hndp, hndrest, hdisj⟩ := nodupBy_append _ _ hidxnd
      rw [IStore.get_put_self]
      rw [refreshFoldI_ok ns p (diskRows (st.get ns) p) 0 _ (by
        intro entry hm
        exact hidx entry (List.mem_append_left _ (by simpa [diskRows] using hm))) (by
        simpa [diskRows] using hndp)]
      simp only [IStore.put_put, IStore.get_put_self]
      have hrec := ih (st.put ns { st.get ns with
          cache := (st.get ns).cache ++ [(p, diskRows (st.get ns) p)],
          index := (st.get ns).index ++ keyEntries p (diskRows (st.get ns) p) 0 })
        hnd.2 ?hc ?hi ?hn
      case hc =>
        intro q hq
        rw [IStore.get_put_self]
        simp only [alistGet_append]
        rw [hcache q (List.mem_cons_of_mem _ hq)]
        have hne : p ≠ q := by
          intro he
          apply hnd.1
          rw [List.any_eq_true]
          exact ⟨q, hq, by simp [he]⟩
        simp [alistGet, hne]
      case hi =>
        intro entry hm
        rw [IStore.get_put_self] at hm ⊢
        simp only at hm
        simp only [alistGet_append]
        rw [hidx entry (List.mem_append_right _ hm)]
        have hnotin : entry.1 ∉ (keyEntries p (diskRows (st.get ns) p) 0).map Prod.fst := by
          intro hc
          exact hdisj entry.1 (by simpa [diskRows] using hc)
            (List.mem_map.mpr ⟨entry, hm, rfl⟩)
        rw [alistGet_eq_none_of_not_mem _ _ hnotin]
      case hn =>
        rw [IStore.get_put_self]
        exact hndrest
      rw [IStore.get_put_self] at hrec
      simp only at hrec
      rw [hrec, IStore.put_put]
      simp [diskRows, List.append_assoc, allKeyEntries]

theorem mem_keyEntries_shape (p : String) :
    ∀ (rows : List Row) (idx : Nat) (k : String) (loc : RecordLocation),
      (k, loc) ∈ keyEntries p rows idx →
      k ≠ "" ∧ loc.partition = p ∧ idx ≤ loc.index ∧
        ∃ row, rows.get? (loc.index - idx) = some row ∧ _row_key row = k := by
  intro rows
  induction rows with
  | nil => intro idx k loc h; simp [keyEntries] at h
  | cons row rest ih =>
      intro idx k loc h
      by_cases hk : _row_key row = ""
      · simp only [keyEntries, hk, if_true] at h
        obtain ⟨h1, h2, h3, r, h4, h5⟩ := ih (idx + 1) k loc h
        exact ⟨h1, h2, Nat.le_of_succ_le h3, r, by
          have : loc.index - idx = (loc.index - (idx + 1)) + 1 := by omega
          simpa [this] using h4, h5⟩
      · simp only [keyEntries, hk, if_false, List.mem_cons] at h
        rcases h with h | h
        · obtain ⟨hk2, hloc⟩ := Prod.mk.injEq .. ▸ h
          refine ⟨by rw [hk2]; exact hk, ?_, ?_, row, ?_, ?_⟩
          · rw [hloc]
          · rw [hloc]
          · rw [hloc]; simp
          · rw [hk2]
        · obtain ⟨h1, h2, h3, r, h4, h5⟩ := ih (idx + 1) k loc h
          exact ⟨h1, h2, Nat.le_of_succ_le h3, r, by
            have : loc.index - idx = (loc.index - (idx + 1)) + 1 := by omega
            simpa [this] using h4, h5⟩

theorem keyEntries_of_position (p : String) :
    ∀ (rows : List Row) (idx i : Nat) (row : Row),
      rows.get? i = some row → _row_key row ≠ "" →
      (_row_key row, (⟨p, idx + i⟩ : RecordLocation)) ∈ keyEntries p rows idx := by
  intro rows
  induction rows with
  | nil => intro idx i row h _; simp at h
  | cons hd tl ih =>
      intro idx i row h hk
      cases i with
      | zero =>
          simp only [List.get?] at h
          injection h with h
          subst h
          simp [keyEntries, hk]
      | succ j =>
          simp only [List.get?] at h
          have := ih (idx + 1) j row h hk
          have harith : idx + 1 + j = idx + (j + 1) := by omega
          rw [harith] at this
          by_cases hk2 : _row_key hd = ""
          · simpa [keyEntries, hk2] using this
          · simp only [keyEntries, hk2, if_false]
            exact List.mem_cons_of_mem _ this

theorem nodupBy_iff_nodup {α : Type} [DecidableEq α] : ∀ l : List α, nodupBy l = true ↔ l.Nodup := by
  intro l
  induction l with
  | nil => simp [nodupBy]
  | cons x xs ih =>
      simp only [nodupBy, Bool.decide_and, Bool.and_eq_true, decide_eq_true_eq,
        List.nodup_cons, ih]
      constructor
      · rintro ⟨h1, h2⟩
        refine ⟨fun hm => h1 ?_, h2⟩
        rw [List.any_eq_true]
        exact ⟨x, hm, by simp⟩
      · rintro ⟨h1, h2⟩
        refine ⟨fun hc => ?_, h2⟩
        rw [List.any_eq_true] at hc
        obtain ⟨y, hy, he⟩ := hc
        rw [decide_eq_true_eq] at he
        exact h1 (he ▸ hy)

theorem nodupBy_append_intro {α : Type} [DecidableEq α] (a b : List α)
    (ha : nodupBy a = true) (hb : nodupBy b = true) (hd : ∀ x ∈ a, x ∉ b) :
    nodupBy (a ++ b) = true := by
  rw [nodupBy_iff_nodup] at ha hb ⊢
  exact List.Nodup.append ha hb (List.disjoint_left.mpr hd)

theorem nodupBy_of_perm {α : Type} [DecidableEq α] {a b : List α} (h : List.Perm a b)
    (ha : nodupBy a = true) : nodupBy b = true := by
  rw [nodupBy_iff_nodup] at ha ⊢
  exact h.nodup_iff.mp ha

theorem mem_allKeyEntries_iff (d : List (String × List Row)) :
    ∀ (names : List String) (entry : String × RecordLocation),
      entry ∈ allKeyEntries d names ↔
        ∃ p ∈ names, entry ∈ keyEntries p ((alistGet d p).getD []) 0 := by
  intro names
  induction names with
  | nil => intro entry; simp [allKeyEntries]
  | cons p rest ih =>
      intro entry
      simp only [allKeyEntries, List.mem_append, ih, List.mem_cons]
      constructor
      · rintro (h | ⟨q, hq, hm⟩)
        · exact ⟨p, Or.inl rfl, h⟩
        · exact ⟨q, Or.inr hq, hm⟩
      · rintro ⟨q, hq | hq, hm⟩
        · exact Or.inl (hq ▸ hm)
        · exact Or.inr ⟨q, hq, hm⟩

/-- On a well-formed namespace every scan entry agrees with the live index. -/
theorem index_of_keyEntry {n : NsSt} (hwf : wfNs n = true) {p : String} {k : String}
    {loc : RecordLocation} (h : (k, loc) ∈ keyEntries p (diskRows n p) 0) :
    alistGet n.index k = some loc := by
  obtain ⟨hk, hpart, _, row, hrow, hkey⟩ := mem_keyEntries_shape p (diskRows n p) 0 k loc h
  rcases hdisk : alistGet n.disk p with _ | rows
  · rw [Nat.sub_zero] at hrow
    simp [diskRows, hdisk] at hrow
  · have hrows : diskRows n p = rows := by simp [diskRows, hdisk]
    rw [hrows, Nat.sub_zero] at hrow
    have hmem := alistGet_mem n.disk p rows hdisk
    simp only [wfNs, Bool.decide_and, Bool.and_eq_true, decide_eq_true_eq] at hwf
    have hall := hwf.2.2.2.2.2.1
    rw [List.all_eq_true] at hall
    have h2 := hall (p, rows) hmem
    simp only [wfDiskPartition, List.all_eq_true] at h2
    have hlen : loc.index < rows.length := (List.get?_eq_some.mp hrow).1
    have h3 := h2 loc.index (List.mem_range.mpr hlen)
    rw [hrow] at h3
    simp only [Bool.decide_or, Bool.or_eq_true, decide_eq_true_eq] at h3
    rcases h3 with h3 | h3
    · exact absurd (hkey ▸ h3) hk
    · rw [← hkey, h3]
      have hloc : loc = ⟨p, loc.index⟩ := by
        cases loc
        simp_all
      exact congrArg some hloc.symm

theorem keyEntries_fst_nodup (G : String → Option RecordLocation) (p : String) :
    ∀ (rows : List Row) (idx : Nat),
      (∀ entry ∈ keyEntries p rows idx, G entry.1 = some entry.2) →
      nodupBy ((keyEntries p rows idx).map Prod.fst) = true := by
  intro rows
  induction rows with
  | nil => intro idx _; rfl
  | cons row rest ih =>
      intro idx hG
      by_cases hk : _row_key row = ""
      · simp only [keyEntries, hk, if_true] at hG ⊢
        exact ih (idx + 1) hG
      · simp only [keyEntries, hk, if_false, List.map_cons] at hG ⊢
        simp only [nodupBy, Bool.decide_and, Bool.and_eq_true, decide_eq_true_eq]
        constructor
        · intro hc
          rw [List.any_eq_true] at hc
          obtain ⟨y, hy, he⟩ := hc
          rw [decide_eq_true_eq] at he
          subst he
          rw [List.mem_map] at hy
          obtain ⟨entry, hentry, hfst⟩ := hy
          have h1 := hG entry (List.mem_cons_of_mem _ hentry)
          have h2 := hG (_row_key row, ⟨p, idx⟩) (List.mem_cons_self _ _)
          rw [hfst] at h1
          rw [h1] at h2
          have h3 := mem_keyEntries_shape p rest (idx + 1) entry.1 entry.2 hentry
          injection h2 with h2
          rw [h2] at h3
          have h4 : idx + 1 ≤ idx := by simpa using h3.2.2.1
          omega
        · exact ih (idx + 1) (fun entry hm => hG entry (List.mem_cons_of_mem _ hm))

theorem allKeyEntries_fst_nodup {n : NsSt} (hwf : wfNs n = true) :
    ∀ names : List String, nodupBy names = true →
      nodupBy ((allKeyEntries n.disk names).map Prod.fst) = true := by
  intro names
  induction names with
  | nil => intro _; rfl
  | cons p rest ih =>
      intro hnd
      simp only [nodupBy, Bool.decide_and, Bool.and_eq_true, decide_eq_true_eq] at hnd
      simp only [allKeyEntries, List.map_append]
      refine nodupBy_append_intro _ _ ?_ (ih hnd.2) ?_
      · exact keyEntries_fst_nodup (alistGet n.index) p _ 0
          (fun entry hm => index_of_keyEntry hwf (by
            have : (entry.1, entry.2) = entry := rfl
            rw [this]
            simpa [diskRows] using hm))
      · intro x hx hc
        rw [List.mem_map] at hx hc
        obtain ⟨e1, he1, hf1⟩ := hx
        obtain ⟨e2, he2, hf2⟩ := hc
        have hl1 : alistGet n.index e1.1 = some e1.2 := index_of_keyEntry hwf (by
          have : (e1.1, e1.2) = e1 := rfl
          rw [this]
          simpa [diskRows] using he1)
        rw [mem_allKeyEntries_iff] at he2
        obtain ⟨q, hq, he2⟩ := he2
        have hl2 : alistGet n.index e2.1 = some e2.2 := index_of_keyEntry hwf (by
          have : (e2.1, e2.2) = e2 := rfl
          rw [this]
          simpa [diskRows] using he2)
        have hp1 := (mem_keyEntries_shape p _ 0 e1.1 e1.2 (by
          have : (e1.1, e1.2) = e1 := rfl
          rw [this]
          simpa [diskRows] using he1)).2.1
        have hp2 := (mem_keyEntries_shape q _ 0 e2.1 e2.2 (by
          have : (e2.1, e2.2) = e2 := rfl
          rw [this]
          simpa [diskRows] using he2)).2.1
        rw [hf1, ← hf2] at hl1
        rw [hl1] at hl2
        injection hl2 with hl2
        rw [hl2] at hp1
        rw [hp1] at hp2
        apply hnd.1
        rw [List.any_eq_true]
        exact ⟨q, hq, by simp [hp2]⟩

theorem put_preserves_disk {st : IStore} {ns : Ns} {X : NsSt} (ns2 : Ns)
    (h : X.disk = (st.get ns).disk) :
    ((st.put ns X).get ns2).disk = (st.get ns2).disk := by
  by_cases he : ns = ns2
  · subst he; rw [IStore.get_put_self, h]
  · rw [IStore.get_put_other st ns ns2 X he]

theorem read_partition_snd_disk (st : IStore) (ns : Ns) (p : String) (ns2 : Ns) :
    (((InfoStore._read_partition st ns p).2).get ns2).disk = (st.get ns2).disk := by
  unfold InfoStore._read_partition
  cases h : alistGet (st.get ns).cache p
  · simp only [h]
    exact put_preserves_disk ns2 rfl
  · simp only [h]

theorem cacheSet_disk (st : IStore) (ns : Ns) (p : String) (rows : List Row) (ns2 : Ns) :
    ((InfoStore.cacheSet st ns p rows).get ns2).disk = (st.get ns2).disk :=
  put_preserves_disk ns2 rfl

theorem indexSet_disk (st : IStore) (ns : Ns) (k : String) (loc : RecordLocation) (ns2 : Ns) :
    ((InfoStore.indexSet st ns k loc).get ns2).disk = (st.get ns2).disk :=
  put_preserves_disk ns2 rfl

theorem alistGet_ne_none_of_mem {α : Type} [DecidableEq α] {β : Type} :
    ∀ (l : List (α × β)) (k : α) (v : β), (k, v) ∈ l → alistGet l k ≠ none := by
  intro l
  induction l with
  | nil => intro k v h; simp at h
  | cons hd tl ih =>
      intro k v h
      rcases List.mem_cons.mp h with h1 | h1
      · rw [← h1]; simp [alistGet]
      · by_cases h2 : hd.1 = k
        · simp [alistGet, h2]
        · simp only [alistGet, h2, if_false]
          exact ih k v h1

/-- Completeness of a well-formed index: every keyed disk row is indexed at
its own position. -/
theorem wf_completeness {n : NsSt} (hwf : wfNs n = true) {p : String} {rows : List Row}
    {i : Nat} {row : Row} (hdisk : alistGet n.disk p = some rows)
    (hrow : rows.get? i = some row) (hk : _row_key row ≠ "") :
    alistGet n.index (_row_key row) = some ⟨p, i⟩ := by
  have hmem := alistGet_mem n.disk p rows hdisk
  simp only [wfNs, Bool.decide_and, Bool.and_eq_true, decide_eq_true_eq] at hwf
  have hall := hwf.2.2.2.2.2.1
  rw [List.all_eq_true] at hall
  have h2 := hall (p, rows) hmem
  simp only [wfDiskPartition, List.all_eq_true] at h2
  have hlen : i < rows.length := (List.get?_eq_some.mp hrow).1
  have h3 := h2 i (List.mem_range.mpr hlen)
  rw [hrow] at h3
  simp only [Bool.decide_or, Bool.or_eq_true, decide_eq_true_eq] at h3
  rcases h3 with h3 | h3
  · exact absurd h3 hk
  · exact h3

/-- The rebuilt index has the same lookup graph as the live well-formed one. -/
theorem allKeyEntries_get_eq_index {n : NsSt} (hwf : wfNs n = true)
    {names : List String} (hperm : List.Perm names (n.disk.map Prod.fst)) :
    ∀ k, alistGet (allKeyEntries n.disk names) k = alistGet n.index k := by
  intro k
  rcases h : alistGet (allKeyEntries n.disk names) k with _ | loc
  · rcases h2 : alistGet n.index k with _ | loc
    · rfl
    · exfalso
      obtain ⟨_, row, hrow, hkey⟩ := wfNs_index_entry hwf h2
      have hkne : k ≠ "" := by
        simp only [wfNs, Bool.decide_and, Bool.and_eq_true, decide_eq_true_eq] at hwf
        have := hwf.2.2.2.2.2.2
        rw [List.all_eq_true] at this
        have h3 := this (k, loc) (alistGet_mem _ _ _ h2)
        simpa using h3
      rcases hd : alistGet n.disk loc.partition with _ | rows
      · simp [diskRows, hd] at hrow
      · have hrows : diskRows n loc.partition = rows := by simp [diskRows, hd]
        rw [hrows] at hrow
        have hpmem : loc.partition ∈ names := by
          rw [hperm.mem_iff]
          exact List.mem_map.mpr ⟨(loc.partition, rows), alistGet_mem _ _ _ hd, rfl⟩
        have hke := keyEntries_of_position loc.partition rows 0 loc.index row hrow
          (hkey ▸ hkne)
        rw [Nat.zero_add] at hke
        have hmem2 : (k, (⟨loc.partition, loc.index⟩ : RecordLocation)) ∈
            allKeyEntries n.disk names := by
          rw [mem_allKeyEntries_iff]
          refine ⟨loc.partition, hpmem, ?_⟩
          rw [hd]
          rw [hkey] at hke
          simpa using hke
        exact alistGet_ne_none_of_mem _ _ _ hmem2 h
  · have hmem := alistGet_mem _ _ _ h
    rw [mem_allKeyEntries_iff] at hmem
    obtain ⟨p, _, hm⟩ := hmem
    have : (k, loc) ∈ keyEntries p (diskRows n p) 0 := by
      simpa [diskRows] using hm
    rw [index_of_keyEntry hwf this]

/-- The namespace state `refresh_index` rebuilds from a disk: every partition
cached, index scanned fresh. -/
def rebuiltNs (d : List (String × List Row)) : NsSt :=
  let names := InfoStore.sortPartitionsByNsKey (d.map Prod.fst)
  { disk := d,
    cache := names.map (fun p => (p, (alistGet d p).getD [])),
    index := allKeyEntries d names }

theorem refreshNs_ok_of_disk {st : IStore} {ns : Ns}
    (hnd : nodupBy ((st.get ns).disk.map Prod.fst) = true)
    (hent : nodupBy ((allKeyEntries (st.get ns).disk
      (InfoStore.sortPartitionsByNsKey ((st.get ns).disk.map Prod.fst))).map Prod.fst) = true)
    (hfil : st.partitionFilter = none) :
    InfoStore.refreshNs st ns = (.ok (), st.put ns (rebuiltNs (st.get ns).disk)) := by
  unfold InfoStore.refreshNs
  simp only [IStore.get_put_self]
  have hfil2 : ∀ p, InfoStore._is_partition_allowed
      (st.put ns { st.get ns with cache := [], index := [] }) p = true := by
    intro p
    simp [InfoStore._is_partition_allowed, IStore.filter_put, hfil]
  have hfilter_id : ∀ l : List String, l.filter (fun p => InfoStore._is_partition_allowed
      (st.put ns { st.get ns with cache := [], index := [] }) p) = l := by
    intro l
    induction l with
    | nil => rfl
    | cons x xs ih => simp [List.filter, hfil2, ih]
  rw [hfilter_id]
  have hperm : List.Perm
      (InfoStore.sortPartitionsByNsKey ((st.get ns).disk.map Prod.fst))
      ((st.get ns).disk.map Prod.fst) := stableSort_perm _ _
  have hgo := refreshNs_go_ok ns
    (InfoStore.sortPartitionsByNsKey ((st.get ns).disk.map Prod.fst))
    (st.put ns { st.get ns with cache := [], index := [] })
    (nodupBy_of_perm hperm.symm hnd)
    (by intro p _; rw [IStore.get_put_self]; rfl)
    (by intro entry _; rw [IStore.get_put_self]; rfl)
    (by rw [IStore.get_put_self]; exact hent)
  rw [IStore.get_put_self] at hgo
  simp only at hgo
  rw [hgo, IStore.put_put]
  have : (rebuiltNs (st.get ns).disk) = { st.get ns with
      cache := ([] : List (String × List Row)) ++
        (InfoStore.sortPartitionsByNsKey ((st.get ns).disk.map Prod.fst)).map
          (fun p => (p, diskRows { st.get ns with
            cache := ([] : List (String × List Row)),
            index := ([] : List (String × RecordLocation)) } p)),
      index := ([] : List (String × RecordLocation)) ++
        allKeyEntries (st.get ns).disk
          (InfoStore.sortPartitionsByNsKey ((st.get ns).disk.map Prod.fst)) } := by
    simp [rebuiltNs, diskRows]
  rw [this]

/-- The store `refresh_index` rebuilds, as a function of the three disks. -/
def rebuiltStore (st : IStore) : IStore :=
  { url := rebuiltNs st.url.disk,
    upload := rebuiltNs st.upload.disk,
    pdf := rebuiltNs st.pdf.disk,
    partitionFilter := st.partitionFilter }

theorem refresh_index_ok_of_disk {st : IStore}
    (hu : nodupBy (st.url.disk.map Prod.fst) = true)
    (hp : nodupBy (st.upload.disk.map Prod.fst) = true)
    (hq : nodupBy (st.pdf.disk.map Prod.fst) = true)
    (hentu : nodupBy ((allKeyEntries st.url.disk
      (InfoStore.sortPartitionsByNsKey (st.url.disk.map Prod.fst))).map Prod.fst) = true)
    (hentp : nodupBy ((allKeyEntries st.upload.disk
      (InfoStore.sortPartitionsByNsKey (st.upload.disk.map Prod.fst))).map Prod.fst) = true)
    (hentq : nodupBy ((allKeyEntries st.pdf.disk
      (InfoStore.sortPartitionsByNsKey (st.pdf.disk.map Prod.fst))).map Prod.fst) = true)
    (hfil : st.partitionFilter = none) :
    InfoStore.refresh_index st = (.ok (), rebuiltStore st) := by
  unfold InfoStore.refresh_index
  rw [@refreshNs_ok_of_disk st Ns.url hu hentu hfil]
  simp only
  rw [@refreshNs_ok_of_disk (st.put .url (rebuiltNs (st.get .url).disk)) Ns.upload
    hp hentp hfil]
  simp only
  rw [@refreshNs_ok_of_disk
    ((st.put .url (rebuiltNs (st.get .url).disk)).put .upload
      (rebuiltNs ((st.put .url (rebuiltNs (st.get .url).disk)).get .upload).disk))
    Ns.pdf hq hentq hfil]
  rfl

theorem alistGet_map_isSome {β : Type} {f : String → β} :
    ∀ (names : List String) (q : String), q ∈ names →
      (alistGet (names.map (fun p => (p, f p))) q).isSome = true := by
  intro names
  induction names with
  | nil => intro q h; simp at h
  | cons x xs ih =>
      intro q h
      rcases List.mem_cons.mp h with h1 | h1
      · simp [alistGet, h1]
      · by_cases h2 : x = q
        · simp [alistGet, h2]
        · simp only [List.map_cons, alistGet, h2, if_false]
          exact ih q h1

/-- Rebuilding from the disk of a well-formed namespace gives a well-formed
namespace again. -/
theorem wfNs_rebuilt {n : NsSt} (hwf : wfNs n = true) : wfNs (rebuiltNs n.disk) = true := by
  have hnames : List.Perm (InfoStore.sortPartitionsByNsKey (n.disk.map Prod.fst))
      (n.disk.map Prod.fst) := stableSort_perm _ _
  simp only [wfNs, Bool.decide_and, Bool.and_eq_true, decide_eq_true_eq] at hwf
  have hndnames : nodupBy (InfoStore.sortPartitionsByNsKey (n.disk.map Prod.fst)) = true :=
    nodupBy_of_perm hnames.symm hwf.1
  have hwf2 : wfNs n = true := by
    simp only [wfNs, Bool.decide_and, Bool.and_eq_true, decide_eq_true_eq]
    exact hwf
  simp only [wfNs, Bool.decide_and, Bool.and_eq_true, decide_eq_true_eq]
  refine ⟨hwf.1, ?_, ?_, ?_, ?_, ?_, ?_⟩
  · have : (rebuiltNs n.disk).cache.map Prod.fst =
        InfoStore.sortPartitionsByNsKey (n.disk.map Prod.fst) := by
      simp only [rebuiltNs, List.map_map]
      exact List.map_id _
    rw [this]
    exact hndnames
  · exact allKeyEntries_fst_nodup hwf2 _ hndnames
  · rw [List.all_eq_true]
    intro entry hmem
    simp only [rebuiltNs] at hmem
    rw [List.mem_map] at hmem
    obtain ⟨p, _, hp⟩ := hmem
    rw [← hp]
    simp [wfCacheEntry, diskRows, rebuiltNs]
  · rw [List.all_eq_true]
    intro entry hmem
    simp only [rebuiltNs] at hmem
    rw [mem_allKeyEntries_iff] at hmem
    obtain ⟨p, hpnames, hpm⟩ := hmem
    have hshape := mem_keyEntries_shape p _ 0 entry.1 entry.2 hpm
    obtain ⟨hk, hpart, _, row, hrow, hkey⟩ := hshape
    rw [Nat.sub_zero] at hrow
    simp only [wfIndexEntry, Bool.and_eq_true]
    constructor
    · simp only [rebuiltNs]
      rw [hpart]
      exact alistGet_map_isSome _ p hpnames
    · have : diskRows (rebuiltNs n.disk) entry.2.partition =
          (alistGet n.disk p).getD [] := by
        simp [diskRows, rebuiltNs, hpart]
      rw [this, hrow]
      simp [hkey]
  · rw [List.all_eq_true]
    intro entry hmem
    simp only [wfDiskPartition, List.all_eq_true]
    intro i hi
    rcases hrow : entry.2.get? i with _ | row
    · simp
    · simp only
      by_cases hk : _row_key row = ""
      · simp [hk]
      · simp only [Bool.decide_or, Bool.or_eq_true, decide_eq_true_eq]
        right
        have hdget : alistGet n.disk entry.1 = some entry.2 :=
          alistGet_of_mem_nodup n.disk entry.1 entry.2 hmem hwf.1
        have hcomp := wf_completeness hwf2 hdget hrow hk
        have hgraph := allKeyEntries_get_eq_index hwf2 hnames (_row_key row)
        show alistGet (rebuiltNs n.disk).index (_row_key row) = some ⟨entry.1, i⟩
        simp only [rebuiltNs]
        rw [hgraph, hcomp]
  · rw [List.all_eq_true]
    intro entry hmem
    simp only [rebuiltNs] at hmem
    rw [mem_allKeyEntries_iff] at hmem
    obtain ⟨p, _, hpm⟩ := hmem
    have hshape := mem_keyEntries_shape p _ 0 entry.1 entry.2 hpm
    simpa using hshape.1

theorem specRowNs_rebuilt {n : NsSt} (hwf : wfNs n = true) (k : String) :
    specRowNs (rebuiltNs n.disk) k = specRowNs n k := by
  unfold specRowNs
  have hidx : alistGet (rebuiltNs n.disk).index k = alistGet n.index k :=
    allKeyEntries_get_eq_index hwf (stableSort_perm _ _) k
  rw [hidx]
  cases alistGet n.index k
  · rfl
  · simp [diskRows, rebuiltNs]

theorem stagePdf_disk (st : IStore) (record : Row) (rk : String) (url_row : Row)
    (tp nt : String) (touched : List (Ns × String)) (ns2 : Ns) :
    (((InfoStore.stageRecord.stagePdf st record rk url_row tp nt touched).2.1).get ns2).disk =
      (st.get ns2).disk := by
  cases ns2 <;>
    (simp only [InfoStore.stageRecord.stagePdf, InfoStore._read_partition, InfoStore.cacheSet,
      InfoStore.indexSet]
     repeat' split
     all_goals rfl)

theorem stageUpload_disk (st : IStore) (record : Row) (rk : String) (url_row : Row)
    (tp nt : String) (touched : List (Ns × String)) (ns2 : Ns) :
    (((InfoStore.stageRecord.stageUpload st record rk url_row tp nt touched).2.1).get ns2).disk =
      (st.get ns2).disk := by
  cases ns2 <;>
    (simp only [InfoStore.stageRecord.stageUpload, InfoStore._read_partition, InfoStore.cacheSet,
      InfoStore.indexSet]
     repeat' split
     all_goals (try rw [stagePdf_disk])
     all_goals rfl)

theorem stageRecord_disk (st : IStore) (record : Row) (nrt ncd nt : String)
    (touched : List (Ns × String)) (ns2 : Ns) :
    (((InfoStore.stageRecord st record nrt ncd nt touched).2.1).get ns2).disk =
      (st.get ns2).disk := by
  cases ns2 <;>
    (simp only [InfoStore.stageRecord, InfoStore._read_partition, InfoStore.cacheSet,
      InfoStore.indexSet]
     repeat' split
     all_goals (try rw [stageUpload_disk])
     all_goals rfl)

theorem stageAll_disk (nrt ncd nt : String) (ns2 : Ns) :
    ∀ (records : List Row) (st : IStore) (touched : List (Ns × String))
      (results : List UpsertResult),
      (((InfoStore.stageAll st records nrt ncd nt touched results).2.1).get ns2).disk =
        (st.get ns2).disk := by
  intro records
  induction records with
  | nil => intro st touched results; rfl
  | cons record rest ih =>
      intro st touched results
      simp only [InfoStore.stageAll]
      rcases h : InfoStore.stageRecord st record nrt ncd nt touched with ⟨r, st2, touched2⟩
      have hd : (st2.get ns2).disk = (st.get ns2).disk := by
        have := stageRecord_disk st record nrt ncd nt touched ns2
        rw [h] at this
        exact this
      cases r
      · simpa using hd
      · simpa [ih] using hd

theorem stagePdf_filter (st : IStore) (record : Row) (rk : String) (url_row : Row)
    (tp nt : String) (touched : List (Ns × String)) :
    ((InfoStore.stageRecord.stagePdf st record rk url_row tp nt touched).2.1).partitionFilter =
      st.partitionFilter := by
  simp only [InfoStore.stageRecord.stagePdf, InfoStore._read_partition, InfoStore.cacheSet,
    InfoStore.indexSet]
  repeat' split
  all_goals rfl

theorem stageUpload_filter (st : IStore) (record : Row) (rk : String) (url_row : Row)
    (tp nt : String) (touched : List (Ns × String)) :
    ((InfoStore.stageRecord.stageUpload st record rk url_row tp nt touched).2.1).partitionFilter =
      st.partitionFilter := by
  simp only [InfoStore.stageRecord.stageUpload, InfoStore._read_partition, InfoStore.cacheSet,
    InfoStore.indexSet]
  repeat' split
  all_goals (try rw [stagePdf_filter])
  all_goals rfl

theorem stageRecord_filter (st : IStore) (record : Row) (nrt ncd nt : String)
    (touched : List (Ns × String)) :
    ((InfoStore.stageRecord st record nrt ncd nt touched).2.1).partitionFilter =
      st.partitionFilter := by
  simp only [InfoStore.stageRecord, InfoStore._read_partition, InfoStore.cacheSet,
    InfoStore.indexSet]
  repeat' split
  all_goals (try rw [stageUpload_filter])
  all_goals rfl

theorem stageAll_filter (nrt ncd nt : String) :
    ∀ (records : List Row) (st : IStore) (touched : List (Ns × String))
      (results : List UpsertResult),
      ((InfoStore.stageAll st records nrt ncd nt touched results).2.1).partitionFilter =
        st.partitionFilter := by
  intro records
  induction records with
  | nil => intro st touched results; rfl
  | cons record rest ih =>
      intro st touched results
      simp only [InfoStore.stageAll]
      rcases h : InfoStore.stageRecord st record nrt ncd nt touched with ⟨r, st2, touched2⟩
      have hd : st2.partitionFilter = st.partitionFilter := by
        have := stageRecord_filter st record nrt ncd nt touched
        rw [h] at this
        exact this
      cases r
      · simpa using hd
      · simpa [ih] using hd

theorem wfI_parts {st : IStore} (h : wfI st = true) :
    wfNs st.url = true ∧ wfNs st.upload = true ∧ wfNs st.pdf = true ∧
    st.partitionFilter = none := by
  simpa [wfI, Bool.decide_and, Bool.and_eq_true, decide_eq_true_eq] using h

theorem wfNs_disk_nodup {n : NsSt} (h : wfNs n = true) :
    nodupBy (n.disk.map Prod.fst) = true := by
  simp only [wfNs, Bool.decide_and, Bool.and_eq_true, decide_eq_true_eq] at h
  exact h.1

theorem wfNs_entries_nodup {n : NsSt} (h : wfNs n = true) :
    nodupBy ((allKeyEntries n.disk
      (InfoStore.sortPartitionsByNsKey (n.disk.map Prod.fst))).map Prod.fst) = true :=
  allKeyEntries_fst_nodup h _ (nodupBy_of_perm (stableSort_perm _ _).symm (wfNs_disk_nodup h))

theorem wfI_rebuiltStore {st : IStore} (h : wfI st = true) : wfI (rebuiltStore st) = true := by
  obtain ⟨h1, h2, h3, h4⟩ := wfI_parts h
  simp only [wfI, Bool.decide_and, Bool.and_eq_true, decide_eq_true_eq, rebuiltStore]
  exact ⟨wfNs_rebuilt h1, wfNs_rebuilt h2, wfNs_rebuilt h3, h4⟩

theorem specFind_rebuiltStore {st : IStore} (h : wfI st = true) (k now : String) :
    specFind (rebuiltStore st) k now = specFind st k now := by
  obtain ⟨h1, h2, h3, _⟩ := wfI_parts h
  unfold specFind
  dsimp only [rebuiltStore, IStore.get]
  rw [specRowNs_rebuilt h1, specRowNs_rebuilt h2, specRowNs_rebuilt h3]

theorem update_many_error_state {st st2 : IStore} {records : List Row}
    {run_type crawl_date : Option String} {now today : String} {e : Err}
    (hwf : wfI st = true)
    (herr : InfoStore.update_many st records run_type crawl_date now today = (.error e, st2)) :
    st2 = rebuiltStore st := by
  obtain ⟨hw1, hw2, hw3, hfil⟩ := wfI_parts hwf
  cases records with
  | nil => simp [InfoStore.update_many] at herr
  | cons r rs =>
      rw [InfoStore.update_many] at herr
      rcases hst : InfoStore.stageAll st (r :: rs) (normalize_run_type run_type)
          (normalize_crawl_date crawl_date today) now [] [] with ⟨res, st3, touched⟩
      rw [hst] at herr
      have hdu : st3.url.disk = st.url.disk := by
        have := stageAll_disk (normalize_run_type run_type)
          (normalize_crawl_date crawl_date today) now .url (r :: rs) st [] []
        rw [hst] at this
        exact this
      have hdp : st3.upload.disk = st.upload.disk := by
        have := stageAll_disk (normalize_run_type run_type)
          (normalize_crawl_date crawl_date today) now .upload (r :: rs) st [] []
        rw [hst] at this
        exact this
      have hdq : st3.pdf.disk = st.pdf.disk := by
        have := stageAll_disk (normalize_run_type run_type)
          (normalize_crawl_date crawl_date today) now .pdf (r :: rs) st [] []
        rw [hst] at this
        exact this
      have hfil3 : st3.partitionFilter = none := by
        have := stageAll_filter (normalize_run_type run_type)
          (normalize_crawl_date crawl_date today) now (r :: rs) st [] []
        rw [hst] at this
        simp only at this
        rw [this, hfil]
      cases res with
      | ok results => simp at herr
      | error e1 =>
          simp only at herr
          have hrefresh : InfoStore.refresh_index st3 = (.ok (), rebuiltStore st3) := by
            refine refresh_index_ok_of_disk ?_ ?_ ?_ ?_ ?_ ?_ hfil3
            · rw [hdu]; exact wfNs_disk_nodup hw1
            · rw [hdp]; exact wfNs_disk_nodup hw2
            · rw [hdq]; exact wfNs_disk_nodup hw3
            · rw [hdu]; exact wfNs_entries_nodup hw1
            · rw [hdp]; exact wfNs_entries_nodup hw2
            · rw [hdq]; exact wfNs_entries_nodup hw3
          rw [hrefresh] at herr
          simp only [Prod.mk.injEq] at herr
          have hre : rebuiltStore st3 = rebuiltStore st := by
            simp only [rebuiltStore, hdu, hdp, hdq, hfil3, hfil]
          rw [← herr.2, hre]
      simp

/-- C4: whenever `update_many` fails, every partition file in every
namespace is byte-identical to its pre-call content, and every subsequent
`find` answers exactly as before the call: the batch left no trace. -/
theorem c4_update_many_is_atomic (st st2 : IStore) (records : List Row)
    (run_type crawl_date : Option String) (now today : String) (e : Err)
    (hwf : wfI st = true)
    (herr : InfoStore.update_many st records run_type crawl_date now today = (.error e, st2)) :
    st2.url.disk = st.url.disk ∧ st2.upload.disk = st.upload.disk ∧
      st2.pdf.disk = st.pdf.disk ∧
      (∀ ns p, fileLines (diskRows (st2.get ns) p) = fileLines (diskRows (st.get ns) p)) ∧
      (∀ k now2, (InfoStore.find st2 k now2).1 = (InfoStore.find st k now2).1) := by
  have hst2 := update_many_error_state hwf herr
  subst hst2
  refine ⟨rfl, rfl, rfl, ?_, ?_⟩
  · intro ns p
    cases ns <;> rfl
  · intro k now2
    rw [find_of_wf k now2 hwf, find_of_wf k now2 (wfI_rebuiltStore hwf),
      specFind_rebuiltStore hwf]

/-- A fresh split-ledger store (empty directory, no partition filter). -/
def emptyIStore : IStore :=
  { url := ⟨[], [], []⟩, upload := ⟨[], [], []⟩, pdf := ⟨[], [], []⟩, partitionFilter := none }

/-- The spec scenario patch: record key `"123"`, `gr_date` 2024-03-01. -/
def scenarioPatch : Row :=
  [("record_key", .str "123"), ("gr_date", .str "2024-03-01"),
   ("source_url", .str "http://example.in/a.pdf")]

def scenarioInsert : (Except Err UpsertResult) × IStore :=
  InfoStore.insert emptyIStore scenarioPatch none (some "2024-03-05")
    "2024-03-05T10:00:00Z" "2024-03-05"

def scenarioSt1 : IStore := scenarioInsert.2

def scenarioCall1 : (Except Err UpsertResult) × IStore :=
  InfoStore.apply_stage_result scenarioSt1 "123" "download" true [("path", .str "a.pdf")] ""
    true none "2024-03-06T10:00:00Z"

def scenarioSt2 : IStore := scenarioCall1.2

def scenarioCall2 : (Except Err UpsertResult) × IStore :=
  InfoStore.apply_stage_result scenarioSt2 "123" "download" false [] "" true none
    "2024-03-07T10:00:00Z"

def scenarioSt3 : IStore := scenarioCall2.2

/-- The upload-namespace row persisted for a key, read through index and disk. -/
def storedUploadRow (st : IStore) (key : String) : Option Row :=
  match alistGet st.upload.index key with
  | some loc => (diskRows st.upload loc.partition).get? loc.index
  | none => none

def storedUploadState (st : IStore) (key : String) : Option Val :=
  (storedUploadRow st key).bind (fun r => alistGet r "state")

def storedUploadAttempts (st : IStore) (key stage : String) : Int :=
  match storedUploadRow st key with
  | some r =>
      (match alistGet r stage with
       | some (.dict so) => _to_int (dictGetD so "attempts" .null) 0
       | _ => 0)
  | none => 0

example : scenarioInsert.1 = .ok ⟨"inserted", "2024", "123"⟩ := rfl
example : wfI scenarioSt1 = true := rfl
example : wfI scenarioSt2 = true := rfl
example : wfI scenarioSt3 = true := rfl
example : storedUploadState scenarioSt2 "123" = some (.str "FETCHED") := rfl
example : storedUploadAttempts scenarioSt3 "123" "download" = 2 := rfl

/-- C1: the spec scenario run against `InfoStore.apply_stage_result`: both
download calls succeed and bump the attempt counter (1 then 2), but the
persisted state stays `FETCHED` instead of `DOWNLOAD_SUCCESS` /
`DOWNLOAD_FAILED` — the computed next state is neither validated nor
assigned, because info_store.py lines 890-891 are commented out.  This is
the latent bug the spec's design notes flag; `LedgerStore.apply_stage_result`
is the validating version. -/
theorem c1_info_stage_result_state_never_assigned :
    scenarioCall1.1 = .ok ⟨"updated", "2024", "123"⟩ ∧
    storedUploadAttempts scenarioSt2 "123" "download" = 1 ∧
    storedUploadState scenarioSt2 "123" = some (.str STATE_FETCHED) ∧
    storedUploadState scenarioSt2 "123" ≠ some (.str STATE_DOWNLOAD_SUCCESS) ∧
    scenarioCall2.1 = .ok ⟨"updated", "2024", "123"⟩ ∧
    storedUploadAttempts scenarioSt3 "123" "download" = 2 ∧
    storedUploadState scenarioSt3 "123" = some (.str STATE_FETCHED) ∧
    storedUploadState scenarioSt3 "123" ≠ some (.str STATE_DOWNLOAD_FAILED) := by
  refine ⟨rfl, rfl, rfl, ?_, rfl, rfl, rfl, ?_⟩ <;> decide

/-- Witness for C4: on the well-formed scenario store, a batch naming an
unknown key fails with `RecordNotFound` and leaves the identity partition
files untouched. -/
theorem c4_update_many_is_atomic_witness :
    wfI scenarioSt1 = true ∧
    ((InfoStore.update_many scenarioSt1 [[("record_key", Val.str "999")]] none none
        "2024-03-08T00:00:00Z" "2024-03-08").2).url.disk = scenarioSt1.url.disk :=
  ⟨rfl,
   (c4_update_many_is_atomic scenarioSt1
      (InfoStore.update_many scenarioSt1 [[("record_key", Val.str "999")]] none none
        "2024-03-08T00:00:00Z" "2024-03-08").2
      [[("record_key", Val.str "999")]] none none "2024-03-08T00:00:00Z" "2024-03-08"
      (.recordNotFound "Record not found: 999") rfl rfl).1⟩

/-- Fresh monolithic ledger. -/
def emptyLStore : LStore := ⟨[], [], []⟩

/-- A ledger holding one record `"123"` in state `FETCHED`. -/
def ledgerSeed : (Except Err UpsertResult) × LStore :=
  LedgerStore.upsert emptyLStore
    [("unique_code", .str "123"), ("gr_date", .str "2024-03-01")] none (some "2024-03-05")
    "2024-03-05T10:00:00Z" "2024-03-05"

def ledgerSt1 : LStore := ledgerSeed.2

/-- The same record driven to the terminal state
`ARCHIVE_UPLOADED_WITH_WAYBACK_URL` by download, wayback and archive
successes. -/
def ledgerSt2 : LStore :=
  (LedgerStore.apply_stage_result ledgerSt1 (fun _ => none) "123" "download" true [] "" true
    none "2024-03-06T00:00:00Z" "2024-03-06").2

def ledgerSt3 : LStore :=
  (LedgerStore.apply_stage_result ledgerSt2 (fun _ => none) "123" "wayback" true
    [("url", .str "http://web.archive.org/x")] "" true none "2024-03-07T00:00:00Z"
    "2024-03-07").2

def ledgerSt4 : LStore :=
  (LedgerStore.apply_stage_result ledgerSt3 (fun _ => none) "123" "archive" true [] "" true
    none "2024-03-08T00:00:00Z" "2024-03-08").2

/-- C2 counterexample: `applyStageResult(stage=archive, success=true,
hasDocument=false)` on a `FETCHED` record does not succeed into
`ARCHIVE_UPLOADED_WITHOUT_DOCUMENT` — it fails with `InvalidTransition`
(and persists nothing) — and the legality table does not admit
`ARCHIVE_UPLOADED_WITHOUT_DOCUMENT` from `FETCHED` or from
`DOWNLOAD_SUCCESS`: only from `DOWNLOAD_FAILED` and from itself. -/
theorem c2_counterexample :
    (LedgerStore.apply_stage_result ledgerSt1 (fun _ => none) "123" "archive" true [] ""
        false none "2024-03-06T00:00:00Z" "2024-03-06") =
      (.error (.invalidTransition
        "Invalid transition: FETCHED -> ARCHIVE_UPLOADED_WITHOUT_DOCUMENT"), ledgerSt1) ∧
    ((alistGet ALLOWED_TRANSITIONS STATE_FETCHED).getD []).contains
      STATE_ARCHIVE_UPLOADED_WITHOUT_DOCUMENT = false ∧
    ((alistGet ALLOWED_TRANSITIONS STATE_DOWNLOAD_SUCCESS).getD []).contains
      STATE_ARCHIVE_UPLOADED_WITHOUT_DOCUMENT = false := by
  refine ⟨rfl, ?_, ?_⟩ <;> rfl

/-- C2 amended: the archive/success/no-document call computes
`ARCHIVE_UPLOADED_WITHOUT_DOCUMENT` as next state, but from `FETCHED` the
transition is illegal, so the call fails with `InvalidTransition` and
persists nothing; the same call on the terminal
`ARCHIVE_UPLOADED_WITH_WAYBACK_URL` record also fails with
`InvalidTransition` and persists nothing; and the legality table admits
`ARCHIVE_UPLOADED_WITHOUT_DOCUMENT` exactly as successor of
`DOWNLOAD_FAILED` and of itself. -/
theorem c2_amended_archive_no_document_transitions :
    StateMachine.next_state_for_stage STATE_FETCHED STAGE_ARCHIVE true none false =
      .ok STATE_ARCHIVE_UPLOADED_WITHOUT_DOCUMENT ∧
    (LedgerStore.apply_stage_result ledgerSt1 (fun _ => none) "123" "archive" true [] ""
        false none "2024-03-06T00:00:00Z" "2024-03-06") =
      (.error (.invalidTransition
        "Invalid transition: FETCHED -> ARCHIVE_UPLOADED_WITHOUT_DOCUMENT"), ledgerSt1) ∧
    (LedgerStore.apply_stage_result ledgerSt4 (fun _ => none) "123" "archive" true [] ""
        false none "2024-03-09T00:00:00Z" "2024-03-09") =
      (.error (.invalidTransition
        ("Invalid transition: ARCHIVE_UPLOADED_WITH_WAYBACK_URL -> " ++
         "ARCHIVE_UPLOADED_WITHOUT_DOCUMENT")), ledgerSt4) ∧
    (∀ s ∈ ALLOWED_STATES,
      ((alistGet ALLOWED_TRANSITIONS s).getD []).contains
          STATE_ARCHIVE_UPLOADED_WITHOUT_DOCUMENT = true ↔
        (s = STATE_DOWNLOAD_FAILED ∨ s = STATE_ARCHIVE_UPLOADED_WITHOUT_DOCUMENT)) := by
  refine ⟨rfl, rfl, by rfl, by decide⟩

/-- Witness for the quantified part of the C2 amended theorem:
`DOWNLOAD_FAILED` is a state whose successors include
`ARCHIVE_UPLOADED_WITHOUT_DOCUMENT`. -/
theorem c2_amended_witness :
    STATE_DOWNLOAD_FAILED ∈ ALLOWED_STATES ∧
    ((alistGet ALLOWED_TRANSITIONS STATE_DOWNLOAD_FAILED).getD []).contains
      STATE_ARCHIVE_UPLOADED_WITHOUT_DOCUMENT = true :=
  ⟨by decide,
   (c2_amended_archive_no_document_transitions.2.2.2 STATE_DOWNLOAD_FAILED (by decide)).mpr
     (Or.inl rfl)⟩

/-- The attempt counter `InfoStore.apply_stage_result` reads for a stage:
`_to_int(stage_obj.get("attempts"), 0)`, a missing or non-dict stage slot
reading as 0. -/
def stageAttemptsOf (row : Row) (stage : String) : Int :=
  match alistGet row stage with
  | some (.dict so) => _to_int (dictGetD so "attempts" .null) 0
  | _ => 0

/-- The upload row `InfoStore.apply_stage_result` works on: the stored row
when present, else the default row created with the record's creation
timestamp. -/
def pendingUploadRow (existing : Row) (upload_row0 : Option Row)
    (record_key now_text : String) : Row :=
  match upload_row0 with
  | some u => u
  | none =>
      let created_at :=
        let t := _normalize_text (dictGetD existing "created_at_utc" .null)
        if t ≠ "" then t else now_text
      InfoStore._default_upload_row record_key created_at

/-- The attempt counter `LedgerStore.apply_stage_result` reads. -/
def ledgerStageAttempt (record : Row) (stage : String) : Option Int :=
  match dictGetD record "attempt_counts" (.dict []) with
  | .dict attempts => toIntStrict (dictGetD attempts stage (.int 0))
  | _ => none

/-- C3: in both store implementations, when the stored attempt counter for
the named (key, stage) already stands at 2, `apply_stage_result` fails with
`RetryLimitExceeded` and returns the store exactly as it was — the check
precedes every mutation, so the counter stays at 2 and no stored row
changes.  After two successful calls the counter is 2 (each call adds 1),
so a third call always fails this way. -/
theorem c3_retry_limit_rejects_before_any_mutation :
    (∀ (st : IStore) (k stage : String) (success : Bool) (metadata : Row) (error : String)
        (hd : Bool) (hwu : Option Bool) (now : String) (existing : Row) (up0 : Option Row),
      InfoStore.find st (_normalize_text (.str k)) now = (some existing, st) →
      InfoStore._find_row st .upload (_normalize_text (.str k)) = (up0, st) →
      stageAttemptsOf (pendingUploadRow existing up0 (_normalize_text (.str k)) now) stage = 2 →
      InfoStore.apply_stage_result st k stage success metadata error hd hwu now =
        (.error (.retryLimitExceeded ("Retry limit exceeded for unique_code=" ++
          _normalize_text (.str k) ++ " stage=" ++ stage)), st)) ∧
    (∀ (st : LStore) (fsProbe : Val → Option String) (k stage : String) (success : Bool)
        (metadata : Row) (error : String) (hd : Bool) (hwu : Option Bool) (now today : String)
        (existing : Row),
      STAGE_NAMES.contains stage = true →
      LedgerStore.find st k = (some existing, st) →
      ledgerStageAttempt existing stage = some 2 →
      LedgerStore.apply_stage_result st fsProbe k stage success metadata error hd hwu
          now today =
        (.error (.retryLimitExceeded ("Retry limit exceeded for unique_code=" ++ k ++
          " stage=" ++ stage)), st)) := by
  constructor
  · intro st k stage success metadata error hd hwu now existing up0 hfind hrow hatt
    unfold InfoStore.apply_stage_result
    dsimp only
    rw [hfind]
    dsimp only
    rw [hrow]
    dsimp only
    rcases up0 with _ | u
    · simp only [pendingUploadRow] at hatt
      rcases hso : alistGet (InfoStore._default_upload_row (_normalize_text (.str k))
          (let t := _normalize_text (dictGetD existing "created_at_utc" .null)
           if t ≠ "" then t else now)) stage with _ | v
      · simp only [stageAttemptsOf, hso] at hatt
        exact absurd hatt (by decide)
      · cases v with
        | dict so =>
            simp only [stageAttemptsOf, hso] at hatt
            simp only [hso, hatt]
            rfl
        | null =>
            simp only [stageAttemptsOf, hso] at hatt
            exact absurd hatt (by decide)
        | bool b =>
            simp only [stageAttemptsOf, hso] at hatt
            exact absurd hatt (by decide)
        | int n =>
            simp only [stageAttemptsOf, hso] at hatt
            exact absurd hatt (by decide)
        | str s =>
            simp only [stageAttemptsOf, hso] at hatt
            exact absurd hatt (by decide)
    · simp only [pendingUploadRow] at hatt
      rcases hso : alistGet u stage with _ | v
      · simp only [stageAttemptsOf, hso] at hatt
        exact absurd hatt (by decide)
      · cases v with
        | dict so =>
            simp only [stageAttemptsOf, hso] at hatt
            simp only [hso, hatt]
            rfl
        | null =>
            simp only [stageAttemptsOf, hso] at hatt
            exact absurd hatt (by decide)
        | bool b =>
            simp only [stageAttemptsOf, hso] at hatt
            exact absurd hatt (by decide)
        | int n =>
            simp only [stageAttemptsOf, hso] at hatt
            exact absurd hatt (by decide)
        | str s =>
            simp only [stageAttemptsOf, hso] at hatt
            exact absurd hatt (by decide)
  · intro st fsProbe k stage success metadata error hd hwu now today existing hstage hfind hatt
    unfold LedgerStore.apply_stage_result
    rw [hstage]
    simp only [Bool.not_true, Bool.false_eq_true, if_false]
    rw [hfind]
    simp only
    unfold ledgerStageAttempt at hatt
    rcases hac : dictGetD existing "attempt_counts" (.dict []) with _ | _ | _ | _ | attempts
    all_goals rw [hac] at hatt
    · exact absurd hatt (by simp)
    · exact absurd hatt (by simp)
    · exact absurd hatt (by simp)
    · exact absurd hatt (by simp)
    · simp only at hatt
      simp only
      rcases hti : toIntStrict (dictGetD attempts stage (.int 0)) with _ | ca
      · rw [hti] at hatt; exact absurd hatt (by simp)
      · rw [hti] at hatt
        injection hatt with hatt
        subst hatt
        norm_num

/-- Witness for C3: the third download call of the spec scenario (counter at
2) fails with `RetryLimitExceeded` and returns the store unchanged. -/
theorem c3_witness :
    InfoStore.apply_stage_result scenarioSt3 "123" "download" true [] "" true none
        "2024-03-08T00:00:00Z" =
      (.error (.retryLimitExceeded "Retry limit exceeded for unique_code=123 stage=download"),
       scenarioSt3) :=
  c3_retry_limit_rejects_before_any_mutation.1 scenarioSt3 "123" "download" true [] "" true
    none "2024-03-08T00:00:00Z"
    ((InfoStore.find scenarioSt3 (_normalize_text (.str "123")) "2024-03-08T00:00:00Z").1.getD [])
    (InfoStore._find_row scenarioSt3 .upload (_normalize_text (.str "123"))).1
    rfl rfl rfl

theorem dictGetD_set_other (r : Row) (k1 k2 : String) (v d : Val) (h : k1 ≠ k2) :
    dictGetD (alistSet r k1 v) k2 d = dictGetD r k2 d := by
  unfold dictGetD
  rw [alistGet_set_other r k1 k2 v h]

/-- C5: updating an existing record whose pipeline/extraction rows sit in
its current partition fails with the repartition error — realized in the
code as `InvalidTransitionError` carrying the
`update_many does not support repartition` message — whenever the patched
effective date maps to a different partition; nothing is persisted and
every subsequent read is unchanged. -/
theorem c5_update_rejects_repartition (st : IStore) (patch : Row)
    (run_type crawl_date : Option String) (now today : String) (k p0 p1 : String)
    (urlLoc : RecordLocation) (urlRow urlRow2 : Row)
    (hwf : wfI st = true)
    (hk : InfoStore.patchRecordKey patch = k) (hkne : k ≠ "")
    (hloc : alistGet st.url.index k = some urlLoc) (hp0 : urlLoc.partition = p0)
    (hrow : specRowNs st.url k = some urlRow)
    (hpatch : InfoStore._apply_url_patch urlRow patch false = .ok urlRow2)
    (hhaspipeline : (alistGet st.upload.index k).isSome = true ∨
      (alistGet st.pdf.index k).isSome = true)
    (hconsist : (∀ loc2, alistGet st.upload.index k = some loc2 → loc2.partition = p0) ∧
      (∀ loc2, alistGet st.pdf.index k = some loc2 → loc2.partition = p0))
    (htarget : partition_for_gr_date (dictGetD urlRow2 "gr_date" .null) = p1)
    (hne : p1 ≠ p0) :
    InfoStore.update st patch run_type crawl_date now today =
      (.error (.invalidTransition
        ("update_many does not support repartition. record_key=" ++ k ++
         " current_partition=" ++ p0 ++ " target_partition=" ++ p1)), rebuiltStore st) ∧
    (rebuiltStore st).url.disk = st.url.disk ∧
    (rebuiltStore st).upload.disk = st.upload.disk ∧
    (rebuiltStore st).pdf.disk = st.pdf.disk ∧
    (∀ k2 now2, (InfoStore.find (rebuiltStore st) k2 now2).1 = (InfoStore.find st k2 now2).1) := by
  obtain ⟨hw1, hw2, hw3, hfil⟩ := wfI_parts hwf
  have hcached : (alistGet (st.get .url).cache urlLoc.partition).isSome = true :=
    (wfNs_index_entry hw1 hloc).1
  obtain ⟨_, rowX, hrowX, hkeyX⟩ := wfNs_index_entry hw1 hloc
  have hrowX2 : rowX = urlRow := by
    have hspec : specRowNs st.url k = some rowX := by
      unfold specRowNs
      rw [hloc]
      simp only
      exact hrowX
    rw [hspec] at hrow
    injection hrow
  subst hrowX2
  have hlen : urlLoc.index < (diskRows st.url urlLoc.partition).length :=
    (List.get?_eq_some.mp hrowX).1
  have hloc2 : alistGet (st.get .url).index k = some urlLoc := hloc
  have hread : InfoStore._read_partition st .url urlLoc.partition =
      (diskRows (st.get .url) urlLoc.partition, st) := read_partition_of_cached hw1 hcached
  have hstage : InfoStore.stageRecord st patch (normalize_run_type run_type)
      (normalize_crawl_date crawl_date today) now [] =
      (.error (.invalidTransition
        ("update_many does not support repartition. record_key=" ++ k ++
         " current_partition=" ++ p0 ++ " target_partition=" ++ p1)), st, []) := by
    unfold InfoStore.stageRecord
    rw [hk]
    simp only [hkne, if_false]
    rw [hloc2]
    simp only
    rw [hread]
    simp only
    have hlen2 : urlLoc.index < (diskRows (st.get .url) urlLoc.partition).length := hlen
    have hrowX3 : (diskRows (st.get .url) urlLoc.partition).get? urlLoc.index =
        some rowX := hrowX
    rw [if_neg (by omega)]
    rw [hrowX3]
    simp only [Option.getD_some]
    rw [if_neg (by simp [hkeyX])]
    rw [hpatch]
    simp only
    split
    · split
      · rw [dictGetD_set_other _ _ _ _ _ (by decide), htarget, hp0, if_pos hne]
      · rw [htarget, hp0, if_pos hne]
    · rw [htarget, hp0, if_pos hne]
  have hupdmany : InfoStore.update_many st [patch] run_type crawl_date now today =
      (.error (.invalidTransition
        ("update_many does not support repartition. record_key=" ++ k ++
         " current_partition=" ++ p0 ++ " target_partition=" ++ p1)), rebuiltStore st) := by
    rw [InfoStore.update_many]
    · simp only [InfoStore.stageAll]
      rw [hstage]
      simp only
      rw [refresh_index_ok_of_disk (wfNs_disk_nodup hw1) (wfNs_disk_nodup hw2)
        (wfNs_disk_nodup hw3) (wfNs_entries_nodup hw1) (wfNs_entries_nodup hw2)
        (wfNs_entries_nodup hw3) hfil]
    · simp
  refine ⟨?_, rfl, rfl, rfl, ?_⟩
  · rw [InfoStore.update, hupdmany]
  · intro k2 now2
    rw [find_of_wf k2 now2 hwf, find_of_wf k2 now2 (wfI_rebuiltStore hwf),
      specFind_rebuiltStore hwf]

/-- A patch moving record `123`\x27s `gr_date` from 2024 to 2025. -/
def c5patch : Row :=
  [("record_key", .str "123"), ("gr_date", .str "2025-01-01")]

def c5urlRow : Row := (specRowNs scenarioSt3.url "123").getD []

def c5urlRow2 : Row :=
  (InfoStore._apply_url_patch c5urlRow c5patch false).toOption.getD []

theorem c5_witness :
    (InfoStore.update scenarioSt3 c5patch none none "2024-03-02T12:00:00" "2024-03-02").1 =
      .error (.invalidTransition
        ("update_many does not support repartition. record_key=123 " ++
         "current_partition=2024 target_partition=2025")) ∧
    (alistGet scenarioSt3.upload.index "123").isSome = true := by
  have eUp : alistGet scenarioSt3.upload.index "123" =
      some (⟨"2024", 0⟩ : RecordLocation) := rfl
  have ePdf : alistGet scenarioSt3.pdf.index "123" = (none : Option RecordLocation) := rfl
  have h := c5_update_rejects_repartition scenarioSt3 c5patch none none
    "2024-03-02T12:00:00" "2024-03-02" "123" "2024" "2025"
    ((alistGet scenarioSt3.url.index "123").getD ⟨"unknown", 0⟩) c5urlRow c5urlRow2
    rfl rfl (by decide) rfl rfl rfl rfl
    (Or.inl rfl)
    ⟨fun loc2 hl => by
        rw [eUp] at hl
        injection hl with h2
        rw [← h2],
     fun loc2 hl => by
        rw [ePdf] at hl
        exact Option.noConfusion hl⟩
    rfl (by decide)
  refine ⟨?_, rfl⟩
  rw [h.1]
  rfl

/-! ### C6: attempt-counter validation -/

/-- One step of `_validate_attempt_counts`: an accepted head stage carries an
integer in `[0, 2]`. -/
theorem validateGo_ok_head (attempts : Row) (stage : String) (rest : List String)
    (h : LedgerStore._validate_attempt_counts.go attempts (stage :: rest) = .ok ()) :
    (∃ n, toIntStrict (dictGetD attempts stage (.int 0)) = some n ∧ 0 ≤ n ∧ n ≤ 2) ∧
    LedgerStore._validate_attempt_counts.go attempts rest = .ok () := by
  rw [LedgerStore._validate_attempt_counts.go] at h
  rcases ht : toIntStrict (dictGetD attempts stage (.int 0)) with _ | n
  · rw [ht] at h
    simp at h
  · rw [ht] at h
    simp only at h
    split at h
    · simp at h
    · rename_i hcond
      push_neg at hcond
      exact ⟨⟨n, rfl, by omega, by omega⟩, h⟩

/-- One step of `_validate_attempt_counts_non_decreasing`: an accepted head
stage never decreases between the current and the updated record. -/
theorem nonDecGo_ok_head (ca ua : Row) (stage : String) (rest : List String)
    (h : LedgerStore._validate_attempt_counts_non_decreasing.go ca ua (stage :: rest) =
      .ok ()) :
    (∀ c u, toIntStrict (dictGetD ca stage (.int 0)) = some c →
      toIntStrict (dictGetD ua stage (.int 0)) = some u → c ≤ u) ∧
    LedgerStore._validate_attempt_counts_non_decreasing.go ca ua rest = .ok () := by
  rw [LedgerStore._validate_attempt_counts_non_decreasing.go] at h
  rcases ht : toIntStrict (dictGetD ca stage (.int 0)) with _ | c
  · rw [ht] at h
    exact ⟨fun c u hc hu => by exact absurd hc (by simp), h⟩
  · rcases hu : toIntStrict (dictGetD ua stage (.int 0)) with _ | u
    · rw [ht, hu] at h
      exact ⟨fun c2 u2 hc2 hu2 => by exact absurd hu2 (by simp), h⟩
    · rw [ht, hu] at h
      simp only at h
      split at h
      · simp at h
      · rename_i hcond
        refine ⟨fun c2 u2 hc2 hu2 => ?_, h⟩
        injection hc2 with hc3
        injection hu2 with hu3
        omega

/-- Partition file contents of a ledger store. -/
def diskRowsL (st : LStore) (partition : String) : List Row :=
  (alistGet st.disk partition).getD []

/-- Every cached ledger partition agrees with its partition file. -/
def lstoreCacheOk (st : LStore) : Bool :=
  st.cache.all (fun pr => decide (pr.2 = diskRowsL st pr.1))

/-- Every ledger index entry points inside its partition file. -/
def lstoreIndexOk (st : LStore) : Bool :=
  st.index.all (fun pr => decide (pr.2.index < (diskRowsL st pr.2.partition).length))

theorem cacheOk_spec (st : LStore) (p : String) (rows : List Row)
    (hc : lstoreCacheOk st = true) (h : alistGet st.cache p = some rows) :
    rows = diskRowsL st p := by
  have hm := alistGet_mem _ _ _ h
  have := List.all_eq_true.mp hc _ hm
  exact of_decide_eq_true this

theorem indexOk_spec (st : LStore) (uc : String) (loc : RecordLocation)
    (hi : lstoreIndexOk st = true) (h : alistGet st.index uc = some loc) :
    loc.index < (diskRowsL st loc.partition).length := by
  have hm := alistGet_mem _ _ _ h
  have := List.all_eq_true.mp hi _ hm
  exact of_decide_eq_true this

theorem readL_disk (st : LStore) (p : String) :
    ((LedgerStore._read_partition st p).2).disk = st.disk := by
  unfold LedgerStore._read_partition
  cases h : alistGet st.cache p <;> simp [h]

theorem readL_rows (st : LStore) (p : String) (hc : lstoreCacheOk st = true) :
    (LedgerStore._read_partition st p).1 = diskRowsL st p := by
  unfold LedgerStore._read_partition
  cases h : alistGet st.cache p with
  | none => simp [h, diskRowsL]
  | some rows => simpa [h] using cacheOk_spec st p rows hc h

theorem reindexL_disk (st : LStore) (p : String) :
    ((LedgerStore._reindex_partition st p).2).disk = st.disk := by
  unfold LedgerStore._reindex_partition LedgerStore._read_partition
  dsimp only
  cases h : alistGet st.cache p with
  | none => rfl
  | some rows => rfl

theorem mem_listSetAt_self {α : Type} (l : List α) (i : Nat) (a : α)
    (h : i < l.length) : a ∈ listSetAt l i a := by
  induction l generalizing i with
  | nil => simp at h
  | cons x rest ih =>
      cases i with
      | zero => simp [listSetAt]
      | succ n =>
          simp only [listSetAt, List.mem_cons]
          exact Or.inr (ih n (by simpa using h))

/-- Every successful `LedgerStore.upsert` writes, into the partition file it
reports, a freshly timestamped record that passed `_validate_attempt_counts`. -/
theorem ledger_upsert_persists_validated (st : LStore) (record : Row)
    (run_type crawl_date : Option String) (now_text today_text : String)
    (res : UpsertResult) (st2 : LStore)
    (hc : lstoreCacheOk st = true) (hi : lstoreIndexOk st = true)
    (h : LedgerStore.upsert st record run_type crawl_date now_text today_text =
      (.ok res, st2)) :
    ∃ row, row ∈ diskRowsL st2 res.partition ∧
      dictGetD row "updated_at_utc" .null = .str now_text ∧
      LedgerStore._validate_attempt_counts row = .ok () := by
  unfold LedgerStore.upsert at h
  split at h
  case h_2 => simp at h
  case h_1 s hs =>
  split at h
  case isTrue => simp at h
  case isFalse hne =>
  unfold LedgerStore.upsert.go at h
  dsimp only at h
  split at h
  case h_1 hidx =>
    split at h
    case h_1 e hmu => simp at h
    case h_2 new_record hmu =>
    generalize hnr : alistSet (alistSet (alistSet (alistSet (alistSet new_record
        "first_seen_run_type" (Val.str (normalize_run_type run_type)))
        "first_seen_crawl_date" (Val.str (normalize_crawl_date crawl_date today_text)))
        "last_seen_crawl_date" (Val.str (normalize_crawl_date crawl_date today_text)))
        "created_at_utc" (Val.str now_text)) "updated_at_utc" (Val.str now_text) = nr at h
    split at h
    case h_1 e hval => simp at h
    case h_2 u hval =>
    split at h
    case h_1 e hvs => simp at h
    case h_2 u2 hvs =>
    split at h
    case h_1 e st3 hre => simp at h
    case h_2 u3 st3 hre =>
    simp only [Prod.mk.injEq, Except.ok.injEq] at h
    obtain ⟨hres, hst2⟩ := h
    subst hres
    subst hst2
    refine ⟨nr, ?_, ?_, ?_⟩
    · have hd := congrArg (fun q => (q.2).disk) hre
      simp only [reindexL_disk, LedgerStore._write_partition, readL_disk] at hd
      show nr ∈ diskRowsL st3 (partition_for_gr_date (dictGetD nr "gr_date" Val.null))
      rw [diskRowsL, ← hd, alistGet_set_self]
      simp only [Option.getD_some]
      rw [sortRowsLedger, stableSort_mem]
      exact List.mem_append_right _ (by simp)
    · rw [← hnr]
      simp [dictGetD, alistGet_set_self]
    · cases u
      exact hval
  case h_2 location hidx =>
    rw [readL_rows st location.partition hc] at h
    generalize hcur : ((diskRowsL st location.partition).get? location.index).getD [] =
      cur at h
    split at h
    case h_1 e hmu => simp at h
    case h_2 updated_record hmu =>
    split at h
    case h_1 e hsc => simp at h
    case h_2 a0 hsc =>
    generalize hur : (if normalize_run_type run_type = "monthly" then
        match parse_iso_date (Val.str (normalize_crawl_date crawl_date today_text)),
          parse_iso_date (dictGetD updated_record "last_seen_crawl_date" Val.null) with
        | some cand, none => alistSet updated_record "last_seen_crawl_date" (Val.str cand.isoformat)
        | some cand, some existing =>
            if PyDate.lt existing cand = true then
              alistSet updated_record "last_seen_crawl_date" (Val.str cand.isoformat)
            else updated_record
        | none, _ => updated_record
      else updated_record) = ur at h
    split at h
    case h_1 e hnd => simp at h
    case h_2 a1 hnd =>
    generalize hur2 : alistSet ur "updated_at_utc" (Val.str now_text) = ur2 at h
    split at h
    case h_1 e hval => simp at h
    case h_2 u hval =>
    split at h
    case h_1 e hvs => simp at h
    case h_2 u2 hvs =>
    split at h
    case isTrue htp =>
      split at h
      case h_1 e st3 hre => simp at h
      case h_2 u3 st3 hre =>
      simp only [Prod.mk.injEq, Except.ok.injEq] at h
      obtain ⟨hres, hst2⟩ := h
      subst hres
      subst hst2
      refine ⟨ur2, ?_, ?_, ?_⟩
      · have hd := congrArg (fun q => (q.2).disk) hre
        simp only [reindexL_disk, LedgerStore._write_partition, readL_disk] at hd
        show ur2 ∈ diskRowsL st3 (partition_for_gr_date (dictGetD ur2 "gr_date" Val.null))
        rw [diskRowsL, htp, ← hd, alistGet_set_self]
        simp only [Option.getD_some]
        rw [sortRowsLedger, stableSort_mem]
        exact mem_listSetAt_self _ _ _ (indexOk_spec st (pyStrip s) location hi hidx)
      · rw [← hur2]
        simp [dictGetD, alistGet_set_self]
      · cases u
        exact hval
    case isFalse htp =>
      split at h
      case h_1 e st3 hre1 => simp at h
      case h_2 u3 st3 hre1 =>
      split at h
      case h_1 e st4 hre2 => simp at h
      case h_2 u4 st4 hre2 =>
      simp only [Prod.mk.injEq, Except.ok.injEq] at h
      obtain ⟨hres, hst2⟩ := h
      subst hres
      subst hst2
      refine ⟨ur2, ?_, ?_, ?_⟩
      · have hd2 := congrArg (fun q => (q.2).disk) hre2
        simp only [reindexL_disk] at hd2
        have hd1 := congrArg (fun q => (q.2).disk) hre1
        simp only [reindexL_disk, LedgerStore._write_partition, readL_disk] at hd1
        show ur2 ∈ diskRowsL st4 (partition_for_gr_date (dictGetD ur2 "gr_date" Val.null))
        rw [diskRowsL, ← hd2, ← hd1, alistGet_set_self]
        simp only [Option.getD_some]
        rw [sortRowsLedger, stableSort_mem]
        exact List.mem_append_right _ (by simp)
      · rw [← hur2]
        simp [dictGetD, alistGet_set_self]
      · cases u
        exact hval

/-- A patch carrying a raw `attempt_counts` value above the retry cap. -/
def c6patch : Row :=
  [("record_key", .str "123"), ("attempt_counts", .dict [("download", .int 5)])]

/-- C6 counterexample: a successful `InfoStore.update` whose patch carries
`attempt_counts = \x7b"download": 5\x7d` drives the stored download counter from 1
to 5 — outside `[0, 2]` — because `_apply_upload_patch` adopts patch-supplied
counters without validation. -/
theorem c6_counterexample :
    (InfoStore.update scenarioSt2 c6patch none none "2024-03-08T00:00:00Z" "2024-03-08").1 =
      .ok ⟨"updated", "2024", "123"⟩ ∧
    storedUploadAttempts scenarioSt2 "123" "download" = 1 ∧
    storedUploadAttempts (InfoStore.update scenarioSt2 c6patch none none
      "2024-03-08T00:00:00Z" "2024-03-08").2 "123" "download" = 5 ∧
    ¬ ((5 : Int) ≤ 2) := ⟨rfl, rfl, rfl, by decide⟩

/-- C6: the attempt-counter invariant holds in `LedgerStore` but not in
`InfoStore`.  Amended: `LedgerStore._validate_attempt_counts` accepts only
stage counters in `[0, 2]`, `_validate_attempt_counts_non_decreasing` accepts
only non-decreasing ones, and every successful `LedgerStore.upsert` persists
a freshly timestamped record that passed `_validate_attempt_counts`; the
`InfoStore` side of the claim is refuted separately. -/
theorem c6_attempt_counters_validated_in_ledger_store :
    (∀ record attempts stage,
      alistGet record "attempt_counts" = some (.dict attempts) →
      LedgerStore._validate_attempt_counts record = .ok () →
      STAGE_NAMES.contains stage = true →
      ∃ n, toIntStrict (dictGetD attempts stage (.int 0)) = some n ∧ 0 ≤ n ∧ n ≤ 2) ∧
    (∀ cur upd ca ua stage,
      dictGetD cur "attempt_counts" (.dict []) = .dict ca →
      dictGetD upd "attempt_counts" (.dict []) = .dict ua →
      STAGE_NAMES.contains stage = true →
      LedgerStore._validate_attempt_counts_non_decreasing cur upd = .ok () →
      ∀ c u, toIntStrict (dictGetD ca stage (.int 0)) = some c →
        toIntStrict (dictGetD ua stage (.int 0)) = some u → c ≤ u) ∧
    (∀ st record run_type crawl_date now_text today_text res st2,
      lstoreCacheOk st = true → lstoreIndexOk st = true →
      LedgerStore.upsert st record run_type crawl_date now_text today_text =
        (.ok res, st2) →
      ∃ row, row ∈ diskRowsL st2 res.partition ∧
        dictGetD row "updated_at_utc" .null = .str now_text ∧
        LedgerStore._validate_attempt_counts row = .ok ()) := by
  refine ⟨?_, ?_, ?_⟩
  · intro record attempts stage h1 h2 h3
    unfold LedgerStore._validate_attempt_counts at h2
    rw [h1] at h2
    simp only at h2
    rw [show STAGE_NAMES = [STAGE_DOWNLOAD, STAGE_WAYBACK, STAGE_ARCHIVE] from rfl] at h2
    obtain ⟨e1, h2⟩ := validateGo_ok_head _ _ _ h2
    obtain ⟨e2, h2⟩ := validateGo_ok_head _ _ _ h2
    obtain ⟨e3, _⟩ := validateGo_ok_head _ _ _ h2
    simp [STAGE_NAMES, STAGE_DOWNLOAD, STAGE_WAYBACK, STAGE_ARCHIVE] at h3
    rcases h3 with h3 | h3 | h3 <;> subst h3
    · exact e1
    · exact e2
    · exact e3
  · intro cur upd ca ua stage h1 h2 h3 h4
    unfold LedgerStore._validate_attempt_counts_non_decreasing at h4
    rw [h1, h2] at h4
    simp only at h4
    rw [show STAGE_NAMES = [STAGE_DOWNLOAD, STAGE_WAYBACK, STAGE_ARCHIVE] from rfl] at h4
    obtain ⟨e1, h4⟩ := nonDecGo_ok_head _ _ _ _ h4
    obtain ⟨e2, h4⟩ := nonDecGo_ok_head _ _ _ _ h4
    obtain ⟨e3, _⟩ := nonDecGo_ok_head _ _ _ _ h4
    simp [STAGE_NAMES, STAGE_DOWNLOAD, STAGE_WAYBACK, STAGE_ARCHIVE] at h3
    rcases h3 with h3 | h3 | h3 <;> subst h3
    · exact e1
    · exact e2
    · exact e3
  · intro st record run_type crawl_date now_text today_text res st2 hc hi h
    exact ledger_upsert_persists_validated st record run_type crawl_date now_text
      today_text res st2 hc hi h

theorem c6_witness :
    ∃ row, row ∈ diskRowsL (LedgerStore.upsert ledgerSt1
        [("unique_code", Val.str "123"), ("title", Val.str "T")] none none
        "2024-03-09T00:00:00Z" "2024-03-09").2 "2024" ∧
      dictGetD row "updated_at_utc" Val.null = Val.str "2024-03-09T00:00:00Z" ∧
      LedgerStore._validate_attempt_counts row = .ok () :=
  c6_attempt_counters_validated_in_ledger_store.2.2 ledgerSt1
    [("unique_code", Val.str "123"), ("title", Val.str "T")] none none
    "2024-03-09T00:00:00Z" "2024-03-09" ⟨"updated", "2024", "123"⟩
    (LedgerStore.upsert ledgerSt1 [("unique_code", Val.str "123"), ("title", Val.str "T")]
      none none "2024-03-09T00:00:00Z" "2024-03-09").2 rfl rfl rfl

/-! ### C7: partition files sorted by record key -/

/-- Adjacent-pair sortedness under a strict-less comparator: no later row is
strictly below its predecessor. -/
def sortedBy {α : Type} (lt : α → α → Bool) : List α → Bool
  | [] => true
  | [_] => true
  | x :: y :: rest => !lt y x && sortedBy lt (y :: rest)

theorem charListLt_asymm : ∀ as bs, charListLt as bs = true → charListLt bs as = false
  | [], [] => by simp [charListLt]
  | [], _ :: _ => by intro _; rfl
  | _ :: _, [] => by intro h; exact absurd h (by simp [charListLt])
  | a :: as, b :: bs => by
      intro h
      simp only [charListLt] at h ⊢
      by_cases h1 : a.toNat < b.toNat
      · rw [if_neg (by omega), if_pos h1]
      · rw [if_neg h1] at h
        by_cases h2 : b.toNat < a.toNat
        · rw [if_pos h2] at h
          exact absurd h (by simp)
        · rw [if_neg h2] at h
          rw [if_neg h2, if_neg h1]
          exact charListLt_asymm as bs h

theorem strLt_asymm (a b : String) (h : strLt a b = true) : strLt b a = false :=
  charListLt_asymm _ _ h

theorem sortInsert_sorted {α : Type} (lt : α → α → Bool)
    (hasymm : ∀ a b, lt a b = true → lt b a = false) (x : α) :
    ∀ l : List α, sortedBy lt l = true → sortedBy lt (sortInsert lt x l) = true
  | [], _ => rfl
  | y :: ys, hl => by
      simp only [sortInsert]
      by_cases hlt : lt y x = true
      · rw [if_pos hlt]
        have hys : sortedBy lt ys = true := by
          cases ys with
          | nil => rfl
          | cons z zs => exact (Bool.and_eq_true_iff.mp hl).2
        have h3 := sortInsert_sorted lt hasymm x ys hys
        cases ys with
        | nil =>
            simp only [sortInsert, sortedBy, Bool.and_eq_true_iff]
            exact ⟨by simp [hasymm y x hlt], trivial⟩
        | cons z zs =>
            simp only [sortInsert] at h3 ⊢
            by_cases h4 : lt z x = true
            · rw [if_pos h4] at h3 ⊢
              simp only [sortedBy, Bool.and_eq_true_iff] at hl ⊢
              exact ⟨hl.1, h3⟩
            · rw [if_neg h4] at h3 ⊢
              simp only [sortedBy, Bool.and_eq_true_iff] at hl ⊢
              refine ⟨by simp [hasymm y x hlt], ?_, hl.2⟩
              simp [Bool.eq_false_iff.mpr h4]
      · rw [if_neg hlt]
        simp only [sortedBy, Bool.and_eq_true_iff]
        exact ⟨by simp [Bool.eq_false_iff.mpr hlt], hl⟩

theorem stableSort_sorted {α : Type} (lt : α → α → Bool)
    (hasymm : ∀ a b, lt a b = true → lt b a = false) :
    ∀ l : List α, sortedBy lt (stableSort lt l) = true
  | [] => rfl
  | x :: xs => sortInsert_sorted lt hasymm x _ (stableSort_sorted lt hasymm xs)

/-- Partition rows in record-key order. -/
def sortedByRowKey (rows : List Row) : Bool :=
  sortedBy (fun r1 r2 => strLt (_row_key r1) (_row_key r2)) rows

theorem sortRowsByRowKey_sorted (rows : List Row) :
    sortedByRowKey (sortRowsByRowKey rows) = true :=
  stableSort_sorted _ (fun a b h => strLt_asymm _ _ h) rows

theorem reindexI_disk (st : IStore) (ns : Ns) (p : String) (ns2 : Ns) :
    (((InfoStore._reindex_partition st ns p).2).get ns2).disk = (st.get ns2).disk := by
  unfold InfoStore._reindex_partition
  dsimp only
  exact Eq.trans (put_preserves_disk ns2 rfl)
    (Eq.trans (read_partition_snd_disk _ _ _ _) (put_preserves_disk ns2 rfl))

theorem reindex_write_rows (st3 : IStore) (ns : Ns) (p : String) (rows : List Row)
    (r : Except Err Unit) (st2 : IStore)
    (h : InfoStore._reindex_partition (InfoStore._write_partition st3 ns p rows) ns p =
      (r, st2)) :
    diskRows (st2.get ns) p = rows := by
  have hd := congrArg (fun q => ((q.2).get ns).disk) h
  simp only [reindexI_disk] at hd
  simp only [InfoStore._write_partition, IStore.get_put_self] at hd
  rw [diskRows, ← hd, alistGet_set_self]
  simp

/-- `_upsert_namespace_row` always leaves the partition it writes sorted by
record key. -/
theorem upsert_namespace_row_sorted (st : IStore) (ns : Ns) (k p : String) (row : Row)
    (st2 : IStore)
    (h : InfoStore._upsert_namespace_row st ns k p row = (.ok (), st2)) :
    sortedByRowKey (diskRows (st2.get ns) p) = true := by
  unfold InfoStore._upsert_namespace_row at h
  dsimp only at h
  split at h
  case h_1 hidx =>
    rw [reindex_write_rows _ _ _ _ _ _ h]
    exact sortRowsByRowKey_sorted _
  case h_2 loc hidx =>
    split at h
    case isTrue htp =>
      rw [reindex_write_rows _ _ _ _ _ _ h]
      exact sortRowsByRowKey_sorted _
    case isFalse htp =>
      split at h
      case h_1 e stE hre => simp at h
      case h_2 u stE hre =>
        rw [reindex_write_rows _ _ _ _ _ _ h]
        exact sortRowsByRowKey_sorted _

def c7insB : (Except Err UpsertResult) × IStore :=
  InfoStore.insert emptyIStore
    [("record_key", .str "b"), ("gr_date", .str "2024-05-01"), ("state", .str "FETCHED")]
    none (some "2024-03-05") "2024-03-05T10:00:00Z" "2024-03-05"

def c7st1 : IStore := c7insB.2

def c7insA : (Except Err UpsertResult) × IStore :=
  InfoStore.insert c7st1
    [("record_key", .str "a"), ("gr_date", .str "2024-03-01")]
    none (some "2024-03-05") "2024-03-05T11:00:00Z" "2024-03-05"

def c7st2 : IStore := c7insA.2

/-- An update whose patch first gives record `"a"` pipeline data, forcing
`update_many` to create its upload row. -/
def c7upd : (Except Err UpsertResult) × IStore :=
  InfoStore.update c7st2
    [("record_key", .str "a"), ("download", .dict [("status", .str "requested")])]
    none none "2024-03-06T10:00:00Z" "2024-03-06"

def c7st3 : IStore := c7upd.2

/-- C7 counterexample: a successful `update_many` that creates a new upload
row appends it to the partition without re-sorting, leaving the upload
partition file out of record-key order (`"b"` before `"a"`). -/
theorem c7_counterexample :
    c7insB.1 = .ok ⟨"inserted", "2024", "b"⟩ ∧
    c7insA.1 = .ok ⟨"inserted", "2024", "a"⟩ ∧
    c7upd.1 = .ok ⟨"updated", "2024", "a"⟩ ∧
    sortedByRowKey (diskRows (c7st2.get .upload) "2024") = true ∧
    (diskRows (c7st3.get .upload) "2024").map _row_key = ["b", "a"] ∧
    strLt "a" "b" = true ∧
    sortedByRowKey (diskRows (c7st3.get .upload) "2024") = false ∧
    fileLines (diskRows (c7st3.get .upload) "2024") =
      (diskRows (c7st3.get .upload) "2024").map dumpsRow :=
  ⟨rfl, rfl, rfl, rfl, rfl, rfl, rfl, rfl⟩

/-- C7: partition rows sorted on every rewrite — amended.  The sorted-write
discipline holds for every partition written through `_upsert_namespace_row`
(the path taken by `insert` and `upsert`), and serialized JSON objects emit
their keys in `strLt`-sorted order; but `update_many` appends newly created
upload/pdf rows without sorting, refuting the unrestricted claim. -/
theorem c7_rows_sorted_for_upsert_namespace_row :
    (∀ (st : IStore) (ns : Ns) (k p : String) (row : Row) (st2 : IStore),
      InfoStore._upsert_namespace_row st ns k p row = (.ok (), st2) →
      sortedByRowKey (diskRows (st2.get ns) p) = true) ∧
    (∀ rows, fileLines rows = rows.map dumpsRow) ∧
    (∀ (fuel : Nat) (fs : List (String × Val)),
      dumpsVal (fuel + 1) (.dict fs) =
        "\x7b" ++ String.intercalate ", "
          ((stableSort (fun a b => strLt a.1 b.1) fs).map
            (fun kv => jsonQuote kv.1 ++ ": " ++ dumpsVal fuel kv.2)) ++ "\x7d" ∧
      sortedBy (fun a b => strLt a.1 b.1) (stableSort (fun a b => strLt a.1 b.1) fs) =
        true) := by
  refine ⟨upsert_namespace_row_sorted, fun rows => rfl, fun fuel fs => ⟨rfl, ?_⟩⟩
  exact stableSort_sorted _ (fun a b h => strLt_asymm _ _ h) fs

theorem c7_witness :
    sortedByRowKey (diskRows (((InfoStore._upsert_namespace_row emptyIStore .url "x" "2024"
      [("record_key", Val.str "x")]).2).get .url) "2024") = true :=
  c7_rows_sorted_for_upsert_namespace_row.1 emptyIStore .url "x" "2024"
    [("record_key", Val.str "x")]
    (InfoStore._upsert_namespace_row emptyIStore .url "x" "2024"
      [("record_key", Val.str "x")]).2 rfl

/-! ### C8: the insert contract -/

theorem readI_get_other (st : IStore) (ns : Ns) (p : String) (ns2 : Ns) (hne : ns ≠ ns2) :
    ((InfoStore._read_partition st ns p).2).get ns2 = st.get ns2 := by
  unfold InfoStore._read_partition
  cases h : alistGet (st.get ns).cache p
  · simp only [h]
    exact IStore.get_put_other _ _ _ _ hne
  · simp only [h]

theorem writeI_get_other (st : IStore) (ns : Ns) (p : String) (rows : List Row) (ns2 : Ns)
    (hne : ns ≠ ns2) :
    (InfoStore._write_partition st ns p rows).get ns2 = st.get ns2 :=
  IStore.get_put_other _ _ _ _ hne

theorem reindexI_get_other (st : IStore) (ns : Ns) (p : String) (ns2 : Ns)
    (hne : ns ≠ ns2) :
    ((InfoStore._reindex_partition st ns p).2).get ns2 = st.get ns2 := by
  unfold InfoStore._reindex_partition
  dsimp only
  exact Eq.trans (IStore.get_put_other _ _ _ _ hne)
    (Eq.trans (readI_get_other _ _ _ _ hne) (IStore.get_put_other _ _ _ _ hne))

theorem upsert_ns_row_get_other (st : IStore) (ns : Ns) (k p : String) (row : Row)
    (ns2 : Ns) (hne : ns ≠ ns2) :
    (((InfoStore._upsert_namespace_row st ns k p row).2).get ns2) = st.get ns2 := by
  unfold InfoStore._upsert_namespace_row
  dsimp only
  split
  · exact Eq.trans (reindexI_get_other _ _ _ _ hne)
      (Eq.trans (writeI_get_other _ _ _ _ _ hne) (readI_get_other _ _ _ _ hne))
  · split
    · exact Eq.trans (reindexI_get_other _ _ _ _ hne)
        (Eq.trans (writeI_get_other _ _ _ _ _ hne) (readI_get_other _ _ _ _ hne))
    · split
      · rename_i e stE hre
        have h2 := congrArg (fun q => (q.2).get ns2) hre
        simp only at h2
        exact Eq.trans h2.symm (Eq.trans (reindexI_get_other _ _ _ _ hne)
          (Eq.trans (writeI_get_other _ _ _ _ _ hne) (readI_get_other _ _ _ _ hne)))
      · rename_i u stE hre
        have h2 := congrArg (fun q => (q.2).get ns2) hre
        simp only at h2
        exact Eq.trans (reindexI_get_other _ _ _ _ hne)
          (Eq.trans (writeI_get_other _ _ _ _ _ hne)
            (Eq.trans (readI_get_other _ _ _ _ hne)
              (Eq.trans h2.symm (Eq.trans (reindexI_get_other _ _ _ _ hne)
                (Eq.trans (writeI_get_other _ _ _ _ _ hne)
                  (readI_get_other _ _ _ _ hne))))))

theorem upsert_ns_row_mem_none (st : IStore) (ns : Ns) (k p : String) (row : Row)
    (st2 : IStore) (h0 : alistGet (st.get ns).index k = none)
    (h : InfoStore._upsert_namespace_row st ns k p row = (.ok (), st2)) :
    row ∈ diskRows (st2.get ns) p := by
  unfold InfoStore._upsert_namespace_row at h
  rw [h0] at h
  dsimp only at h
  rw [reindex_write_rows _ _ _ _ _ _ h]
  rw [sortRowsByRowKey, stableSort_mem]
  exact List.mem_append_right _ (by simp)

theorem if_step_get_other (st_u st_v : IStore) (cond : Bool) (ns : Ns) (k p : String)
    (row : Row) (u : Unit) (ns2 : Ns) (hne : ns ≠ ns2)
    (heq : (if cond = true then InfoStore._upsert_namespace_row st_u ns k p row
      else (.ok (), st_u)) = (.ok u, st_v)) :
    st_v.get ns2 = st_u.get ns2 := by
  split at heq
  · have h2 := congrArg Prod.snd heq
    simp only at h2
    rw [← h2]
    exact upsert_ns_row_get_other st_u ns k p row ns2 hne
  · have h2 := congrArg Prod.snd heq
    simp only at h2
    rw [← h2]

/-- C8: the `insert` contract.  A key already present in the identity (url)
namespace index is rejected with `DuplicateKey` and the store is returned
untouched; otherwise the partition derives from the patched identity row\x27s
`gr_date` (concretely: `2024-03-01 ↦ 2024`, missing or unparseable `↦
unknown`), the identity row is always written into that partition, an upload
row exactly when the patch carries pipeline fields, and a pdf row exactly
when it carries `pdf_info`. -/
theorem c8_insert_contract :
    (∀ (st : IStore) (record : Row) (rt cd : Option String) (now today : String),
      InfoStore.patchRecordKey record ≠ "" →
      alistHas (st.get .url).index (InfoStore.patchRecordKey record) = true →
      InfoStore.insert st record rt cd now today =
        (.error (.duplicateUniqueCode
          ("Record already exists: " ++ InfoStore.patchRecordKey record)), st)) ∧
    (∀ (st : IStore) (record : Row) (rt cd : Option String) (now today : String)
      (res : UpsertResult) (st2 : IStore),
      alistGet (st.get .upload).index (InfoStore.patchRecordKey record) = none →
      alistGet (st.get .pdf).index (InfoStore.patchRecordKey record) = none →
      InfoStore.insert st record rt cd now today = (.ok res, st2) →
      InfoStore.patchRecordKey record ≠ "" ∧
      alistHas (st.get .url).index (InfoStore.patchRecordKey record) = false ∧
      res.operation = "inserted" ∧
      res.unique_code = InfoStore.patchRecordKey record ∧
      ∃ url_row,
        InfoStore._apply_url_patch
          (InfoStore._default_url_row (InfoStore.patchRecordKey record) now
            (normalize_crawl_date cd today) (normalize_run_type rt)) record true =
          .ok url_row ∧
        res.partition = partition_for_gr_date (dictGetD url_row "gr_date" .null) ∧
        url_row ∈ diskRows (st2.get .url) res.partition ∧
        (InfoStore._has_upload_patch record = true →
          InfoStore._apply_upload_patch
            (InfoStore._default_upload_row (InfoStore.patchRecordKey record) now)
            record now ∈ diskRows (st2.get .upload) res.partition) ∧
        (InfoStore._has_upload_patch record = false →
          st2.get .upload = st.get .upload) ∧
        (alistHas record "pdf_info" = true →
          InfoStore._pdf_row_from_pdf_info (InfoStore.patchRecordKey record)
            ((alistGet record "pdf_info").getD .null) now
            (pyStr (dictGetD url_row "created_at_utc" (.str now))) ∈
            diskRows (st2.get .pdf) res.partition) ∧
        (alistHas record "pdf_info" = false → st2.get .pdf = st.get .pdf)) ∧
    partition_for_gr_date (.str "2024-03-01") = "2024" ∧
    partition_for_gr_date .null = "unknown" ∧
    partition_for_gr_date (.str "not-a-date") = "unknown" := by
  refine ⟨?_, ?_, rfl, rfl, rfl⟩
  · intro st record rt cd now today hk hdup
    unfold InfoStore.insert
    rw [if_neg hk]
    dsimp only
    rw [if_pos hdup]
  · intro st record rt cd now today res st2 hup0 hpdf0 h
    unfold InfoStore.insert at h
    dsimp only at h
    split at h
    case isTrue => simp at h
    case isFalse hk =>
    split at h
    case isTrue => simp at h
    case isFalse hdup =>
    split at h
    case h_1 e hupatch => simp at h
    case h_2 url_row hupatch =>
    split at h
    case h_1 e st_u hre1 => simp at h
    case h_2 u1 st_u hre1 =>
    split at h
    case h_1 e st_v heqU => simp at h
    case h_2 u2 st_v heqU =>
    split at h
    case h_1 e st_w heqP => simp at h
    case h_2 u3 st_w heqP =>
    simp only [Prod.mk.injEq, Except.ok.injEq] at h
    obtain ⟨hres, hst2⟩ := h
    subst hres
    subst hst2
    have h0url : alistGet (st.get Ns.url).index (InfoStore.patchRecordKey record) = none := by
      rcases hx : alistGet (st.get Ns.url).index (InfoStore.patchRecordKey record) with _ | v
      · rfl
      · exact absurd (by simp [alistHas, hx]) hdup
    have hUup : st_u.get Ns.upload = st.get Ns.upload := by
      have h2 := congrArg Prod.snd hre1
      simp only at h2
      rw [← h2]
      exact upsert_ns_row_get_other st .url _ _ _ .upload (by decide)
    have hUpdf : st_u.get Ns.pdf = st.get Ns.pdf := by
      have h2 := congrArg Prod.snd hre1
      simp only at h2
      rw [← h2]
      exact upsert_ns_row_get_other st .url _ _ _ .pdf (by decide)
    have hVurl : st_v.get Ns.url = st_u.get Ns.url :=
      if_step_get_other _ _ _ _ _ _ _ _ _ (by decide) heqU
    have hVpdf : st_v.get Ns.pdf = st_u.get Ns.pdf :=
      if_step_get_other _ _ _ _ _ _ _ _ _ (by decide) heqU
    have hWurl : st_w.get Ns.url = st_v.get Ns.url :=
      if_step_get_other _ _ _ _ _ _ _ _ _ (by decide) heqP
    have hWup : st_w.get Ns.upload = st_v.get Ns.upload :=
      if_step_get_other _ _ _ _ _ _ _ _ _ (by decide) heqP
    refine ⟨hk, by simpa using hdup, rfl, rfl, url_row, hupatch, rfl, ?_, ?_, ?_, ?_, ?_⟩
    · show url_row ∈ diskRows (st_w.get Ns.url) _
      rw [hWurl, hVurl]
      cases u1
      exact upsert_ns_row_mem_none st .url _ _ url_row st_u h0url hre1
    · intro hhas
      rw [if_pos hhas] at heqU
      show _ ∈ diskRows (st_w.get Ns.upload) _
      rw [hWup]
      cases u2
      refine upsert_ns_row_mem_none st_u .upload _ _ _ st_v ?_ heqU
      rw [hUup]
      exact hup0
    · intro hhas
      rw [if_neg (by simp [hhas])] at heqU
      have h2 := congrArg Prod.snd heqU
      simp only at h2
      show st_w.get Ns.upload = st.get Ns.upload
      rw [hWup, ← h2, hUup]
    · intro hpdf
      rw [if_pos hpdf] at heqP
      show _ ∈ diskRows (st_w.get Ns.pdf) _
      cases u3
      refine upsert_ns_row_mem_none st_v .pdf _ _ _ st_w ?_ heqP
      rw [hVpdf, hUpdf]
      exact hpdf0
    · intro hpdf
      rw [if_neg (by simp [hpdf])] at heqP
      have h2 := congrArg Prod.snd heqP
      simp only at h2
      show st_w.get Ns.pdf = st.get Ns.pdf
      rw [← h2, hVpdf, hUpdf]

theorem c8_insert_contract_witness :
    InfoStore.patchRecordKey scenarioPatch ≠ "" ∧
    alistHas (emptyIStore.get .url).index (InfoStore.patchRecordKey scenarioPatch) = false ∧
    (⟨"inserted", "2024", "123"⟩ : UpsertResult).operation = "inserted" ∧
    (⟨"inserted", "2024", "123"⟩ : UpsertResult).unique_code =
      InfoStore.patchRecordKey scenarioPatch ∧
    ∃ url_row,
      InfoStore._apply_url_patch
        (InfoStore._default_url_row (InfoStore.patchRecordKey scenarioPatch)
          "2024-03-05T10:00:00Z" (normalize_crawl_date (some "2024-03-05") "2024-03-05")
          (normalize_run_type none)) scenarioPatch true = .ok url_row ∧
      (⟨"inserted", "2024", "123"⟩ : UpsertResult).partition =
        partition_for_gr_date (dictGetD url_row "gr_date" .null) ∧
      url_row ∈ diskRows (scenarioSt1.get .url)
        (⟨"inserted", "2024", "123"⟩ : UpsertResult).partition ∧
      (InfoStore._has_upload_patch scenarioPatch = true →
        InfoStore._apply_upload_patch
          (InfoStore._default_upload_row (InfoStore.patchRecordKey scenarioPatch)
            "2024-03-05T10:00:00Z") scenarioPatch "2024-03-05T10:00:00Z" ∈
          diskRows (scenarioSt1.get .upload)
            (⟨"inserted", "2024", "123"⟩ : UpsertResult).partition) ∧
      (InfoStore._has_upload_patch scenarioPatch = false →
        scenarioSt1.get .upload = emptyIStore.get .upload) ∧
      (alistHas scenarioPatch "pdf_info" = true →
        InfoStore._pdf_row_from_pdf_info (InfoStore.patchRecordKey scenarioPatch)
          ((alistGet scenarioPatch "pdf_info").getD .null) "2024-03-05T10:00:00Z"
          (pyStr (dictGetD url_row "created_at_utc" (.str "2024-03-05T10:00:00Z"))) ∈
          diskRows (scenarioSt1.get .pdf)
            (⟨"inserted", "2024", "123"⟩ : UpsertResult).partition) ∧
      (alistHas scenarioPatch "pdf_info" = false →
        scenarioSt1.get .pdf = emptyIStore.get .pdf) :=
  c8_insert_contract.2.1 emptyIStore scenarioPatch none (some "2024-03-05")
    "2024-03-05T10:00:00Z" "2024-03-05" ⟨"inserted", "2024", "123"⟩ scenarioSt1 rfl rfl rfl

/-! ### C9: monthly advance of `last_seen_crawl_date` -/

theorem url_patch_go_preserves (key : String) (b : Bool) :
    ∀ (incoming target out : Row),
    alistGet incoming key = none →
    InfoStore._apply_url_patch.go b target incoming = .ok out →
    alistGet out key = alistGet target key
  | [], target, out, hk, h => by
      rw [InfoStore._apply_url_patch.go] at h
      injection h with h2
      rw [← h2]
  | (k2, v) :: rest, target, out, hk, h => by
      have hne : k2 ≠ key := by
        intro he
        subst he
        simp [alistGet] at hk
      have hrest : alistGet rest key = none := by
        simpa [alistGet, hne] using hk
      rw [InfoStore._apply_url_patch.go] at h
      split at h
      · split at h
        · exact url_patch_go_preserves key b rest target out hrest h
        · simp at h
      · split at h
        · rw [url_patch_go_preserves key b rest (alistSet target k2 v) out hrest h]
          exact alistGet_set_other target k2 key v hne
        · exact url_patch_go_preserves key b rest target out hrest h

/-- `_apply_url_patch` leaves every field absent from the patch untouched. -/
theorem apply_url_patch_preserves (target incoming out : Row) (b : Bool) (key : String)
    (hk : alistGet incoming key = none)
    (h : InfoStore._apply_url_patch target incoming b = .ok out) :
    alistGet out key = alistGet target key :=
  url_patch_go_preserves key b incoming target out hk h

/-- On a well-formed store `_upsert_namespace_row` always places the given
row in the partition it targets. -/
theorem upsert_ns_row_mem_wf (st : IStore) (ns : Ns) (k p : String) (row : Row)
    (st2 : IStore) (hw : wfNs (st.get ns) = true)
    (h : InfoStore._upsert_namespace_row st ns k p row = (.ok (), st2)) :
    row ∈ diskRows (st2.get ns) p := by
  unfold InfoStore._upsert_namespace_row at h
  dsimp only at h
  split at h
  case h_1 hidx =>
    rw [reindex_write_rows _ _ _ _ _ _ h, sortRowsByRowKey, stableSort_mem]
    exact List.mem_append_right _ (by simp)
  case h_2 loc hloc =>
    split at h
    case isTrue htp =>
      obtain ⟨hcached, rowX, hrowX, hkeyX⟩ := wfNs_index_entry hw hloc
      rw [htp] at hcached hrowX
      rw [read_partition_of_cached hw hcached] at h
      rw [reindex_write_rows _ _ _ _ _ _ h, sortRowsByRowKey, stableSort_mem]
      simp only
      exact mem_listSetAt_self _ _ _ (List.get?_eq_some.mp hrowX).1
    case isFalse htp =>
      split at h
      case h_1 e stE hre => simp at h
      case h_2 u stE hre =>
        rw [reindex_write_rows _ _ _ _ _ _ h, sortRowsByRowKey, stableSort_mem]
        exact List.mem_append_right _ (by simp)

theorem findI_get_other (st : IStore) (ns : Ns) (k : String) (ns2 : Ns) (hne : ns ≠ ns2) :
    ((InfoStore._find_row st ns k).2).get ns2 = st.get ns2 := by
  unfold InfoStore._find_row
  split
  · rfl
  · exact readI_get_other _ _ _ _ hne

theorem if_step_get_other_p (st_u st_v : IStore) (c : Prop) [Decidable c] (ns : Ns)
    (k p : String) (row : Row) (u : Unit) (ns2 : Ns) (hne : ns ≠ ns2)
    (heq : (if c then InfoStore._upsert_namespace_row st_u ns k p row
      else (.ok (), st_u)) = (.ok u, st_v)) :
    st_v.get ns2 = st_u.get ns2 := by
  split at heq
  · have h2 := congrArg Prod.snd heq
    simp only at h2
    rw [← h2]
    exact upsert_ns_row_get_other st_u ns k p row ns2 hne
  · have h2 := congrArg Prod.snd heq
    simp only at h2
    rw [← h2]

def c9patch : Row :=
  [("record_key", .str "123"), ("last_seen_crawl_date", .str "2030-01-01")]

def c9up : (Except Err UpsertResult) × IStore :=
  InfoStore.upsert scenarioSt1 c9patch none none "2024-03-06T10:00:00Z" "2024-03-06"

/-- C9 counterexample: a successful upsert whose run type is not `monthly`
still changes `last_seen_crawl_date` when the patch carries the field
directly (it is in `URL_MUTABLE_FIELDS`), refuting the claim that the field
is left unchanged whenever the run type is not `monthly`. -/
theorem c9_counterexample :
    normalize_run_type none ≠ "monthly" ∧
    c9up.1 = .ok ⟨"updated", "2024", "123"⟩ ∧
    (specRowNs (scenarioSt1.get .url) "123").map
      (fun r => dictGetD r "last_seen_crawl_date" .null) = some (.str "2024-03-05") ∧
    (specRowNs (c9up.2.get .url) "123").map
      (fun r => dictGetD r "last_seen_crawl_date" .null) = some (.str "2030-01-01") ∧
    (Val.str "2030-01-01") ≠ (Val.str "2024-03-05") :=
  ⟨by decide, rfl, rfl, rfl, by decide⟩

/-- C9: the monthly advance rule — amended.  For an upsert on an existing
record whose patch does not itself carry `last_seen_crawl_date`, the stored
identity row ends with `last_seen_crawl_date` set to the normalized crawl
date exactly when the run type normalizes to `monthly` and the normalized
crawl date is nonempty and strictly newer (in `strLt` string order on the
normalized stored text) than the stored one; in every other case the stored
value survives unchanged.  Patches that do carry the field are refuted
separately. -/
theorem c9_last_seen_monthly_advance (st : IStore) (record : Row)
    (rt cd : Option String) (now today : String) (res : UpsertResult) (st2 : IStore)
    (existing : Row)
    (hwf : wfI st = true)
    (hex : specRowNs (st.get .url) (InfoStore.patchRecordKey record) = some existing)
    (hclean : alistGet record "last_seen_crawl_date" = none)
    (h : InfoStore.upsert st record rt cd now today = (.ok res, st2)) :
    ∃ stored, stored ∈ diskRows (st2.get .url) res.partition ∧
      dictGetD stored "last_seen_crawl_date" .null =
        (if normalize_run_type rt = "monthly" ∧ normalize_crawl_date cd today ≠ "" ∧
            (_normalize_text (dictGetD existing "last_seen_crawl_date" .null) = "" ∨
             strLt (_normalize_text (dictGetD existing "last_seen_crawl_date" .null))
               (normalize_crawl_date cd today) = true)
         then .str (normalize_crawl_date cd today)
         else dictGetD existing "last_seen_crawl_date" .null) := by
  obtain ⟨hw1, hw2, hw3, hfil⟩ := wfI_parts hwf
  have hw1g : wfNs (st.get .url) = true := hw1
  unfold InfoStore.upsert at h
  dsimp only at h
  split at h
  case isTrue => simp at h
  case isFalse hkne =>
  rw [find_row_of_wf _ hw1g] at h
  rw [hex] at h
  simp only at h
  split at h
  case h_1 e hpatch => simp at h
  case h_2 url_row hpatch =>
  generalize hur : (if normalize_run_type rt = "monthly" then
      (if normalize_crawl_date cd today ≠ "" ∧
          (_normalize_text (dictGetD url_row "last_seen_crawl_date" .null) = "" ∨
           strLt (_normalize_text (dictGetD url_row "last_seen_crawl_date" .null))
             (normalize_crawl_date cd today) = true) then
        alistSet url_row "last_seen_crawl_date" (.str (normalize_crawl_date cd today))
      else url_row)
    else url_row) = ur at h
  split at h
  case h_1 e stA hreU => simp at h
  case h_2 u1 stA hreU =>
  split at h
  case h_1 e stB heqU => simp at h
  case h_2 u2 stB heqU =>
  have hBurl : stB.get Ns.url = stA.get Ns.url := by
    rw [if_step_get_other_p _ _ _ _ _ _ _ _ .url (by decide) heqU]
    exact findI_get_other _ _ _ _ (by decide)
  have hmem : ur ∈ diskRows (stA.get Ns.url)
      (partition_for_gr_date (dictGetD ur "gr_date" Val.null)) := by
    cases u1
    exact upsert_ns_row_mem_wf st .url _ _ ur stA hw1g hreU
  have hlast : dictGetD ur "last_seen_crawl_date" .null =
      (if normalize_run_type rt = "monthly" ∧ normalize_crawl_date cd today ≠ "" ∧
          (_normalize_text (dictGetD existing "last_seen_crawl_date" .null) = "" ∨
           strLt (_normalize_text (dictGetD existing "last_seen_crawl_date" .null))
             (normalize_crawl_date cd today) = true)
       then .str (normalize_crawl_date cd today)
       else dictGetD existing "last_seen_crawl_date" .null) := by
    have hprev : alistGet url_row "last_seen_crawl_date" =
        alistGet existing "last_seen_crawl_date" :=
      apply_url_patch_preserves existing record url_row false _ hclean hpatch
    have hdg : dictGetD url_row "last_seen_crawl_date" .null =
        dictGetD existing "last_seen_crawl_date" .null := by
      unfold dictGetD
      rw [hprev]
    rw [← hur, hdg]
    by_cases hm : normalize_run_type rt = "monthly"
    · rw [if_pos hm]
      by_cases hc : normalize_crawl_date cd today ≠ "" ∧
          (_normalize_text (dictGetD existing "last_seen_crawl_date" .null) = "" ∨
           strLt (_normalize_text (dictGetD existing "last_seen_crawl_date" .null))
             (normalize_crawl_date cd today) = true)
      · rw [if_pos hc, if_pos ⟨hm, hc⟩]
        unfold dictGetD
        rw [alistGet_set_self]
        rfl
      · rw [if_neg hc, if_neg (by tauto), hdg]
    · rw [if_neg hm, if_neg (by tauto), hdg]
  split at h
  case isTrue hpdf =>
    split at h
    case h_1 e stC hreP => simp at h
    case h_2 u3 stC hreP =>
    simp only [Prod.mk.injEq, Except.ok.injEq] at h
    obtain ⟨hres, hst2⟩ := h
    subst hres
    subst hst2
    refine ⟨ur, ?_, hlast⟩
    have hCurl : stC.get Ns.url = stB.get Ns.url := by
      have h2 := congrArg Prod.snd hreP
      simp only at h2
      rw [← h2]
      rw [upsert_ns_row_get_other _ .pdf _ _ _ .url (by decide)]
      exact findI_get_other _ _ _ _ (by decide)
    show ur ∈ diskRows (stC.get Ns.url) _
    rw [hCurl, hBurl]
    exact hmem
  case isFalse hpdf =>
    split at h
    case h_1 pdf hcur =>
      split at h
      case h_1 e stC hreP => simp at h
      case h_2 u3 stC hreP =>
      simp only [Prod.mk.injEq, Except.ok.injEq] at h
      obtain ⟨hres, hst2⟩ := h
      subst hres
      subst hst2
      refine ⟨ur, ?_, hlast⟩
      have hCurl : stC.get Ns.url = stB.get Ns.url := by
        have h2 := congrArg Prod.snd hreP
        simp only at h2
        rw [← h2]
        rw [upsert_ns_row_get_other _ .pdf _ _ _ .url (by decide)]
        exact findI_get_other _ _ _ _ (by decide)
      show ur ∈ diskRows (stC.get Ns.url) _
      rw [hCurl, hBurl]
      exact hmem
    case h_2 hcur =>
      simp only [Prod.mk.injEq, Except.ok.injEq] at h
      obtain ⟨hres, hst2⟩ := h
      subst hres
      refine ⟨ur, ?_, hlast⟩
      show ur ∈ diskRows (st2.get Ns.url) _
      rw [← hst2, findI_get_other _ _ _ _ (by decide), hBurl]
      exact hmem

theorem c9_witness :
    ∃ stored, stored ∈ diskRows (((InfoStore.upsert scenarioSt1 [("record_key", Val.str "123")]
        (some "monthly") (some "2024-04-01") "2024-04-02T00:00:00Z" "2024-04-02").2).get .url)
        (⟨"updated", "2024", "123"⟩ : UpsertResult).partition ∧
      dictGetD stored "last_seen_crawl_date" .null =
        (if normalize_run_type (some "monthly") = "monthly" ∧
            normalize_crawl_date (some "2024-04-01") "2024-04-02" ≠ "" ∧
            (_normalize_text (dictGetD ((specRowNs (scenarioSt1.get .url) "123").getD [])
              "last_seen_crawl_date" .null) = "" ∨
             strLt (_normalize_text (dictGetD ((specRowNs (scenarioSt1.get .url) "123").getD [])
                 "last_seen_crawl_date" .null))
               (normalize_crawl_date (some "2024-04-01") "2024-04-02") = true)
         then .str (normalize_crawl_date (some "2024-04-01") "2024-04-02")
         else dictGetD ((specRowNs (scenarioSt1.get .url) "123").getD [])
           "last_seen_crawl_date" .null) :=
  c9_last_seen_monthly_advance scenarioSt1 [("record_key", Val.str "123")]
    (some "monthly") (some "2024-04-01") "2024-04-02T00:00:00Z" "2024-04-02"
    ⟨"updated", "2024", "123"⟩
    (InfoStore.upsert scenarioSt1 [("record_key", Val.str "123")]
      (some "monthly") (some "2024-04-01") "2024-04-02T00:00:00Z" "2024-04-02").2
    ((specRowNs (scenarioSt1.get .url) "123").getD []) rfl rfl rfl rfl

/-! ### C10: a heap refinement for `copy.deepcopy` independence -/

/-- A Python runtime value: an immutable scalar, or a reference to a
mutable dict object living in the heap. -/
inductive HVal where
  | prim : Val → HVal
  | ref : Nat → HVal
deriving Repr, DecidableEq

abbrev HObj := List (String × HVal)

/-- The heap: allocated dict objects by address. -/
abbrev Heap := List (Nat × HObj)

def matStep (h : Heap) (ih : HVal → Val) : HVal → Val
  | .prim v => v
  | .ref a =>
      match alistGet h a with
      | some fields => .dict (fields.map (fun kv => (kv.1, ih kv.2)))
      | none => .null

/-- The pure JSON value of a runtime value, chasing references.  `fuel`
bounds the reference depth; rows written by the engine are finitely
nested, so a large enough fuel reads them exactly. -/
def materialize (h : Heap) : Nat → HVal → Val
  | 0 => fun v => match v with | .prim v2 => v2 | .ref _ => .null
  | fuel + 1 => matStep h (materialize h fuel)

def reachStep (h : Heap) (ih : HVal → List Nat) : HVal → List Nat
  | .prim _ => []
  | .ref a =>
      a :: (match alistGet h a with
        | some fields => (fields.map (fun kv => ih kv.2)).flatten
        | none => [])

/-- Heap addresses reachable from a runtime value. -/
def reach (h : Heap) : Nat → HVal → List Nat
  | 0 => fun v => match v with | .prim _ => [] | .ref a => [a]
  | fuel + 1 => reachStep h (reach h fuel)

def hvalBelow (c : Nat) : HVal → Bool
  | .prim _ => true
  | .ref a => decide (a < c)

def objBelow (c : Nat) (o : HObj) : Bool := o.all (fun kv => hvalBelow c kv.2)

/-- Every allocated address and every stored reference lies below the
allocation counter. -/
def heapBelow (c : Nat) (h : Heap) : Bool :=
  h.all (fun kv => decide (kv.1 < c) && objBelow c kv.2)

def dcStep (ih : HVal → Heap → Nat → HVal × Heap × Nat) :
    HVal → Heap → Nat → HVal × Heap × Nat
  | .prim v, h, c => (.prim v, h, c)
  | .ref a, h, c =>
      match alistGet h a with
      | none => (.prim .null, h, c)
      | some fields =>
          match dcFields fields h c with
          | (newFields, h2, c2) => (.ref c2, alistSet h2 c2 newFields, c2 + 1)
where dcFields : HObj → Heap → Nat → HObj × Heap × Nat
  | [], h, c => ([], h, c)
  | (k, v) :: rest, h, c =>
      match ih v h c with
      | (v2, h2, c2) =>
          match dcFields rest h2 c2 with
          | (fs2, h3, c3) => ((k, v2) :: fs2, h3, c3)

/-- `copy.deepcopy` / `_deepcopy_obj`: copy the object graph rooted at a
value into fresh addresses drawn from the allocation counter. -/
def deepcopy : Nat → HVal → Heap → Nat → HVal × Heap × Nat
  | 0, v, h, c =>
      (match v with
       | .prim v2 => ((.prim v2 : HVal), h, c)
       | .ref _ => ((.prim .null : HVal), h, c))
  | fuel + 1, v, h, c => dcStep (deepcopy fuel) v h c

theorem heapBelow_get {c : Nat} {h : Heap} {a : Nat} {fields : HObj}
    (hb : heapBelow c h = true) (hget : alistGet h a = some fields) :
    a < c ∧ objBelow c fields = true := by
  have hm := alistGet_mem h a fields hget
  have := List.all_eq_true.mp hb _ hm
  simp only [Bool.and_eq_true, decide_eq_true_eq] at this
  exact ⟨this.1, this.2⟩

theorem objBelow_get {c : Nat} {fields : HObj} {kv : String × HVal}
    (hb : objBelow c fields = true) (hm : kv ∈ fields) : hvalBelow c kv.2 = true :=
  List.all_eq_true.mp hb _ hm

theorem map_fields_congr {β : Type} (fields : HObj) (f g : HVal → β)
    (h : ∀ kv, kv ∈ fields → f kv.2 = g kv.2) :
    fields.map (fun kv => (kv.1, f kv.2)) = fields.map (fun kv => (kv.1, g kv.2)) := by
  induction fields with
  | nil => rfl
  | cons kv rest ih =>
      simp only [List.map_cons, List.cons.injEq]
      exact ⟨by rw [h kv (by simp)], ih (fun kv2 hm => h kv2 (by simp [hm]))⟩

/-- Reading through a heap that agrees below the counter is unchanged. -/
theorem materialize_extends : ∀ (fuel : Nat) (h h2 : Heap) (c : Nat) (u : HVal),
    (∀ a, a < c → alistGet h2 a = alistGet h a) → heapBelow c h = true →
    hvalBelow c u = true →
    materialize h2 fuel u = materialize h fuel u
  | 0, h, h2, c, u, hag, hb, hu => by cases u <;> rfl
  | fuel + 1, h, h2, c, u, hag, hb, hu => by
      cases u with
      | prim v => rfl
      | ref a =>
          simp only [hvalBelow, decide_eq_true_eq] at hu
          simp only [materialize, matStep]
          rw [hag a hu]
          rcases hget : alistGet h a with _ | fields
          · rfl
          · simp only
            obtain ⟨ha, hof⟩ := heapBelow_get hb hget
            congr 1
            exact map_fields_congr fields _ _ (fun kv hm =>
              materialize_extends fuel h h2 c kv.2 hag hb (objBelow_get hof hm))

/-- Reachability through a heap that agrees below the counter is unchanged. -/
theorem reach_extends : ∀ (fuel : Nat) (h h2 : Heap) (c : Nat) (u : HVal),
    (∀ a, a < c → alistGet h2 a = alistGet h a) → heapBelow c h = true →
    hvalBelow c u = true →
    reach h2 fuel u = reach h fuel u
  | 0, h, h2, c, u, hag, hb, hu => by cases u <;> rfl
  | fuel + 1, h, h2, c, u, hag, hb, hu => by
      cases u with
      | prim v => rfl
      | ref a =>
          simp only [hvalBelow, decide_eq_true_eq] at hu
          simp only [reach, reachStep]
          rw [hag a hu]
          rcases hget : alistGet h a with _ | fields
          · rfl
          · simp only [List.cons.injEq, true_and]
            obtain ⟨ha, hof⟩ := heapBelow_get hb hget
            congr 1
            apply List.map_congr_left
            intro kv hm
            exact reach_extends fuel h h2 c kv.2 hag hb (objBelow_get hof hm)

/-- Every address reachable from a bounded value in a bounded heap lies
below the counter. -/
theorem reach_below : ∀ (fuel : Nat) (h : Heap) (c : Nat) (u : HVal),
    heapBelow c h = true → hvalBelow c u = true →
    ∀ a, a ∈ reach h fuel u → a < c
  | 0, h, c, u, hb, hu, a, hm => by
      cases u with
      | prim v => simp [reach] at hm
      | ref b =>
          simp only [hvalBelow, decide_eq_true_eq] at hu
          simp only [reach, List.mem_singleton] at hm
          rw [hm]
          exact hu
  | fuel + 1, h, c, u, hb, hu, a, hm => by
      cases u with
      | prim v => simp [reach, reachStep] at hm
      | ref b =>
          simp only [hvalBelow, decide_eq_true_eq] at hu
          simp only [reach, reachStep, List.mem_cons] at hm
          rcases hm with hm | hm
          · rw [hm]; exact hu
          · rcases hget : alistGet h b with _ | fields
            · rw [hget] at hm
              simp at hm
            · rw [hget] at hm
              simp only [List.mem_flatten, List.mem_map] at hm
              obtain ⟨l, ⟨kv, hkv, hl⟩, hal⟩ := hm
              obtain ⟨hbc, hof⟩ := heapBelow_get hb hget
              exact reach_below fuel h c kv.2 hb (objBelow_get hof hkv) a (hl ▸ hal)

/-- Mutating an unreachable object does not change what a value reads as. -/
theorem materialize_set_unreachable : ∀ (fuel : Nat) (h : Heap) (a : Nat) (obj : HObj)
    (u : HVal), (a ∈ reach h fuel u → False) →
    materialize (alistSet h a obj) fuel u = materialize h fuel u
  | 0, h, a, obj, u, hna => by cases u <;> rfl
  | fuel + 1, h, a, obj, u, hna => by
      cases u with
      | prim v => rfl
      | ref b =>
          have hab : a ≠ b := by
            intro he
            exact hna (by simp [reach, reachStep, he])
          simp only [materialize, matStep]
          rw [alistGet_set_other h a b obj hab]
          rcases hget : alistGet h b with _ | fields
          · rfl
          · simp only
            congr 1
            refine map_fields_congr fields _ _ (fun kv hm => ?_)
            refine materialize_set_unreachable fuel h a obj kv.2 (fun hmem => ?_)
            refine hna ?_
            simp only [reach, reachStep, List.mem_cons]
            right
            rw [hget]
            simp only [List.mem_flatten, List.mem_map]
            exact ⟨reach h fuel kv.2, ⟨kv, hm, rfl⟩, hmem⟩

theorem hvalBelow_mono {c c2 : Nat} (h : c ≤ c2) {u : HVal}
    (hu : hvalBelow c u = true) : hvalBelow c2 u = true := by
  cases u with
  | prim v => rfl
  | ref a =>
      simp only [hvalBelow, decide_eq_true_eq] at hu ⊢
      omega

theorem objBelow_mono {c c2 : Nat} (h : c ≤ c2) {o : HObj}
    (ho : objBelow c o = true) : objBelow c2 o = true := by
  rw [objBelow, List.all_eq_true] at ho ⊢
  exact fun kv hm => hvalBelow_mono h (ho kv hm)

theorem heapBelow_mono {c c2 : Nat} (h : c ≤ c2) {hp : Heap}
    (hh : heapBelow c hp = true) : heapBelow c2 hp = true := by
  rw [heapBelow, List.all_eq_true] at hh ⊢
  intro kv hm
  have := hh kv hm
  simp only [Bool.and_eq_true, decide_eq_true_eq] at this ⊢
  exact ⟨by omega, objBelow_mono h this.2⟩

theorem mem_alistSet {α : Type} [DecidableEq α] {β : Type} :
    ∀ (l : List (α × β)) (k : α) (v : β) (kv : α × β),
    kv ∈ alistSet l k v → kv ∈ l ∨ kv = (k, v)
  | [], k, v, kv, hm => by
      simp [alistSet] at hm
      exact Or.inr hm
  | hd :: tl, k, v, kv, hm => by
      by_cases he : hd.1 = k
      · simp only [alistSet, he, if_true, List.mem_cons] at hm
        rcases hm with hm | hm
        · exact Or.inr hm
        · exact Or.inl (List.mem_cons_of_mem _ hm)
      · simp only [alistSet, he, if_false, List.mem_cons] at hm
        rcases hm with hm | hm
        · exact Or.inl (by simp [hm])
        · rcases mem_alistSet tl k v kv hm with h2 | h2
          · exact Or.inl (List.mem_cons_of_mem _ h2)
          · exact Or.inr h2

theorem heapBelow_set {c : Nat} {hp : Heap} {o : HObj}
    (hh : heapBelow c hp = true) (ho : objBelow c o = true) :
    heapBelow (c + 1) (alistSet hp c o) = true := by
  rw [heapBelow, List.all_eq_true]
  intro kv hm
  rcases mem_alistSet hp c o kv hm with h2 | h2
  · have := List.all_eq_true.mp hh kv h2
    simp only [Bool.and_eq_true, decide_eq_true_eq] at this ⊢
    exact ⟨by omega, objBelow_mono (by omega) this.2⟩
  · subst h2
    simp only [Bool.and_eq_true, decide_eq_true_eq]
    exact ⟨by omega, objBelow_mono (by omega) ho⟩

/-- Everything `deepcopy` guarantees at once: the counter only grows, the
heap stays bounded and is extended only at fresh addresses, the returned
root is bounded, every address reachable from the copy is fresh, and the
copy reads as exactly the same JSON value as the original. -/
theorem deepcopy_spec : ∀ (fuel : Nat) (v : HVal) (h : Heap) (c : Nat),
    heapBelow c h = true → hvalBelow c v = true →
    c ≤ (deepcopy fuel v h c).2.2 ∧
    heapBelow (deepcopy fuel v h c).2.2 (deepcopy fuel v h c).2.1 = true ∧
    (∀ a, a < c → alistGet (deepcopy fuel v h c).2.1 a = alistGet h a) ∧
    hvalBelow (deepcopy fuel v h c).2.2 (deepcopy fuel v h c).1 = true ∧
    (∀ a, a ∈ reach (deepcopy fuel v h c).2.1 fuel (deepcopy fuel v h c).1 → c ≤ a) ∧
    materialize (deepcopy fuel v h c).2.1 fuel (deepcopy fuel v h c).1 =
      materialize h fuel v
  | 0, v, h, c, hb, hv => by
      cases v with
      | prim v2 =>
          exact ⟨Nat.le_refl c, hb, fun a _ => rfl, rfl, by simp [deepcopy, reach], rfl⟩
      | ref a =>
          exact ⟨Nat.le_refl c, hb, fun a _ => rfl, rfl, by simp [deepcopy, reach], rfl⟩
  | fuel + 1, v, h, c, hb, hv => by
      cases v with
      | prim v2 =>
          exact ⟨Nat.le_refl c, hb, fun a _ => rfl, rfl,
            by simp [deepcopy, dcStep, reach, reachStep], rfl⟩
      | ref a =>
          simp only [hvalBelow, decide_eq_true_eq] at hv
          have hfields : ∀ (fields : HObj) (h2 : Heap) (c2 : Nat),
              heapBelow c2 h2 = true → objBelow c2 fields = true →
              c2 ≤ (dcStep.dcFields (deepcopy fuel) fields h2 c2).2.2 ∧
              heapBelow (dcStep.dcFields (deepcopy fuel) fields h2 c2).2.2
                (dcStep.dcFields (deepcopy fuel) fields h2 c2).2.1 = true ∧
              (∀ a, a < c2 →
                alistGet (dcStep.dcFields (deepcopy fuel) fields h2 c2).2.1 a =
                  alistGet h2 a) ∧
              objBelow (dcStep.dcFields (deepcopy fuel) fields h2 c2).2.2
                (dcStep.dcFields (deepcopy fuel) fields h2 c2).1 = true ∧
              (∀ kv, kv ∈ (dcStep.dcFields (deepcopy fuel) fields h2 c2).1 →
                ∀ a, a ∈ reach (dcStep.dcFields (deepcopy fuel) fields h2 c2).2.1
                  fuel kv.2 → c2 ≤ a) ∧
              (dcStep.dcFields (deepcopy fuel) fields h2 c2).1.map
                  (fun kv => (kv.1,
                    materialize (dcStep.dcFields (deepcopy fuel) fields h2 c2).2.1
                      fuel kv.2)) =
                fields.map (fun kv => (kv.1, materialize h2 fuel kv.2)) := by
            intro fields
            induction fields with
            | nil =>
                intro h2 c2 hb2 hof
                exact ⟨Nat.le_refl c2, hb2, fun a _ => rfl, rfl, by simp [dcStep.dcFields],
                  rfl⟩
            | cons kv0 rest ih =>
                intro h2 c2 hb2 hof
                obtain ⟨k0, v0⟩ := kv0
                have hv0 : hvalBelow c2 v0 = true := List.all_eq_true.mp hof (k0, v0) (by simp)
                have hrest : objBelow c2 rest = true := by
                  rw [objBelow, List.all_eq_true] at hof ⊢
                  exact fun kv hm => hof kv (by simp [hm])
                obtain ⟨hc1, hb1, hag1, hv1, hr1, hm1⟩ := deepcopy_spec fuel v0 h2 c2 hb2 hv0
                obtain ⟨hc2b, hb2b, hag2, hob2, hr2, hm2⟩ :=
                  ih (deepcopy fuel v0 h2 c2).2.1 (deepcopy fuel v0 h2 c2).2.2 hb1
                    (objBelow_mono hc1 hrest)
                rcases hd : deepcopy fuel v0 h2 c2 with ⟨v2, h3, c3⟩
                simp only [hd] at hc1 hb1 hag1 hv1 hr1 hm1 hc2b hb2b hag2 hob2 hr2 hm2
                rcases hf : dcStep.dcFields (deepcopy fuel) rest h3 c3 with ⟨fs2, h4, c4⟩
                simp only [hf] at hc2b hb2b hag2 hob2 hr2 hm2
                have hstep : dcStep.dcFields (deepcopy fuel) ((k0, v0) :: rest) h2 c2 =
                    ((k0, v2) :: fs2, h4, c4) := by
                  rw [dcStep.dcFields, hd]
                  dsimp only
                  rw [hf]
                rw [hstep]
                dsimp only
                refine ⟨by omega, hb2b, ?_, ?_, ?_, ?_⟩
                · intro a ha
                  rw [hag2 a (by omega), hag1 a ha]
                · simp only [objBelow, List.all_cons, Bool.and_eq_true]
                  exact ⟨hvalBelow_mono hc2b hv1, hob2⟩
                · intro kv hm a ha
                  simp only [List.mem_cons] at hm
                  rcases hm with hm | hm
                  · subst hm
                    rw [reach_extends fuel h3 h4 c3 v2 hag2 hb1 hv1] at ha
                    exact hr1 a ha
                  · exact le_trans hc1 (hr2 kv hm a ha)
                · simp only [List.map_cons, List.cons.injEq]
                  refine ⟨?_, ?_⟩
                  · rw [materialize_extends fuel h3 h4 c3 v2 hag2 hb1 hv1, hm1]
                  · rw [hm2]
                    exact map_fields_congr rest _ _ (fun kv hm =>
                      materialize_extends fuel h2 h3 c2 kv.2 hag1 hb2
                        (objBelow_get hrest hm))
          rcases hget : alistGet h a with _ | fields
          · have hstep : deepcopy (fuel + 1) (.ref a) h c = (.prim .null, h, c) := by
              show dcStep (deepcopy fuel) (.ref a) h c = _
              rw [dcStep, hget]
            rw [hstep]
            refine ⟨Nat.le_refl c, hb, fun a2 _ => rfl, rfl, by simp [reach, reachStep], ?_⟩
            show (materialize h (fuel + 1) (.prim .null)) = materialize h (fuel + 1) (.ref a)
            simp [materialize, matStep, hget]
          · obtain ⟨hac, hof⟩ := heapBelow_get hb hget
            obtain ⟨hcF, hbF, hagF, hobF, hrF, hmF⟩ := hfields fields h c hb hof
            rcases hf : dcStep.dcFields (deepcopy fuel) fields h c with ⟨fs2, h3, c3⟩
            simp only [hf] at hcF hbF hagF hobF hrF hmF
            have hstep : deepcopy (fuel + 1) (.ref a) h c =
                (.ref c3, alistSet h3 c3 fs2, c3 + 1) := by
              show dcStep (deepcopy fuel) (.ref a) h c = _
              rw [dcStep, hget]
              dsimp only
              rw [hf]
            rw [hstep]
            dsimp only
            have hagS : ∀ b, b < c3 → alistGet (alistSet h3 c3 fs2) b = alistGet h3 b :=
              fun b hb2 => alistGet_set_other h3 c3 b fs2 (by omega)
            refine ⟨by omega, heapBelow_set hbF hobF, ?_, ?_, ?_, ?_⟩
            · intro a2 ha2
              rw [alistGet_set_other h3 c3 a2 fs2 (by omega), hagF a2 ha2]
            · simp [hvalBelow]
            · intro a2 ha2
              simp only [reach, reachStep, List.mem_cons] at ha2
              rcases ha2 with ha2 | ha2
              · omega
              · rw [alistGet_set_self] at ha2
                simp only [List.mem_flatten, List.mem_map] at ha2
                obtain ⟨l, ⟨kv, hkv, hl⟩, hal⟩ := ha2
                subst hl
                rw [reach_extends fuel h3 (alistSet h3 c3 fs2) c3 kv.2 hagS hbF
                  (objBelow_get hobF hkv)] at hal
                exact hrF kv hkv a2 hal
            · show materialize (alistSet h3 c3 fs2) (fuel + 1) (.ref c3) =
                materialize h (fuel + 1) (.ref a)
              simp only [materialize, matStep, alistGet_set_self, hget]
              congr 1
              rw [← hmF]
              exact map_fields_congr fs2 _ _ (fun kv hm =>
                materialize_extends fuel h3 (alistSet h3 c3 fs2) c3 kv.2 hagS hbF
                  (objBelow_get hobF hm))

theorem iter_go_of_wf (now : String) (st : IStore) (hwf : wfI st = true) :
    ∀ keys, InfoStore.iter_records.go now keys st =
      (keys.filterMap (fun k => specFind st k now), st)
  | [] => by rw [InfoStore.iter_records.go]; simp
  | key :: rest => by
      rw [InfoStore.iter_records.go]
      rw [find_of_wf key now hwf]
      rcases hs : specFind st key now with _ | found
      · simp only
        rw [iter_go_of_wf now st hwf rest]
        simp [hs]
      · simp only
        rw [iter_go_of_wf now st hwf rest]
        simp [List.filterMap_cons, hs]

/-- C10: reads are independent deep copies.  In the heap refinement,
`deepcopy` (the model of `copy.deepcopy`/`_deepcopy_obj` applied by `find`,
`_find_row` and `iter_records` before returning rows) yields a value that
reads as exactly the stored JSON value, and mutating any object reachable
from the returned copy leaves every stored value reading as if the mutation
had never happened.  At the store level, on a well-formed store `find`
returns its pure value and the store unchanged, and `iter_records` is
exactly `find` mapped over the sorted identity-index keys, also leaving
the store unchanged. -/
theorem c10_find_returns_independent_copies :
    (∀ (fuel : Nat) (h : Heap) (c : Nat) (r : HVal),
      heapBelow c h = true → hvalBelow c r = true →
      materialize (deepcopy fuel r h c).2.1 fuel (deepcopy fuel r h c).1 =
        materialize h fuel r ∧
      (∀ a obj, a ∈ reach (deepcopy fuel r h c).2.1 fuel (deepcopy fuel r h c).1 →
        materialize (alistSet (deepcopy fuel r h c).2.1 a obj) fuel r =
          materialize h fuel r)) ∧
    (∀ (st : IStore) (k now : String), wfI st = true →
      InfoStore.find st k now = (specFind st k now, st)) ∧
    (∀ (st : IStore) (now : String), wfI st = true →
      InfoStore.iter_records st now =
        ((InfoStore.sortedIndexKeys (st.get .url).index).filterMap
          (fun k => specFind st k now), st)) := by
  refine ⟨?_, fun st k now hwf => find_of_wf k now hwf, ?_⟩
  · intro fuel h c r hb hr
    obtain ⟨hc, hb2, hag, hv2, hreach, hmat⟩ := deepcopy_spec fuel r h c hb hr
    refine ⟨hmat, fun a obj ha => ?_⟩
    have hfresh : c ≤ a := hreach a ha
    have hext : materialize (deepcopy fuel r h c).2.1 fuel r = materialize h fuel r :=
      materialize_extends fuel h _ c r hag hb hr
    rw [← hext]
    refine materialize_set_unreachable fuel _ a obj r (fun hmem => ?_)
    rw [reach_extends fuel h _ c r hag hb hr] at hmem
    have := reach_below fuel h c r hb hr a hmem
    omega
  · intro st now hwf
    unfold InfoStore.iter_records
    exact iter_go_of_wf now st hwf _

/-- A two-object heap: a url-style row at address 0 whose `download` field
references the dict at address 1. -/
def c10heap : Heap :=
  [(0, [("state", .prim (.str "FETCHED")), ("download", .ref 1)]),
   (1, [("attempts", .prim (.int 1))])]

theorem c10_witness :
    (materialize (deepcopy 3 (.ref 0) c10heap 2).2.1 3 (deepcopy 3 (.ref 0) c10heap 2).1 =
        materialize c10heap 3 (.ref 0) ∧
      materialize (alistSet (deepcopy 3 (.ref 0) c10heap 2).2.1 2
        [("attempts", HVal.prim (.int 99))]) 3 (.ref 0) = materialize c10heap 3 (.ref 0)) ∧
    InfoStore.find scenarioSt1 "123" "2024-03-06" =
      (specFind scenarioSt1 "123" "2024-03-06", scenarioSt1) ∧
    InfoStore.iter_records scenarioSt1 "2024-03-06" =
      ((InfoStore.sortedIndexKeys (scenarioSt1.get .url).index).filterMap
        (fun k => specFind scenarioSt1 k "2024-03-06"), scenarioSt1) := by
  have h1 := c10_find_returns_independent_copies.1 3 c10heap 2 (.ref 0) rfl rfl
  exact ⟨⟨h1.1, h1.2 2 [("attempts", HVal.prim (.int 99))] (by decide)⟩,
    c10_find_returns_independent_copies.2.1 scenarioSt1 "123" "2024-03-06" rfl,
    c10_find_returns_independent_copies.2.2 scenarioSt1 "2024-03-06" rfl⟩
